import Mathlib

/-!
# Methane `Data::Emitter<EventType>`: embedding and verified properties

Source: `Modules/Data/Events/Include/Methane/Data/Emitter.hpp`.

The emitter is embedded as a record holding the three data members of the class
(`m_is_emitting`, `m_connected_receivers`, `m_additional_connected_receivers`),
the slots of the vector's storage that lie past its end, and the trace of the
callbacks the emitter has issued so far.  Every member function is a state
transformer on that record.

Conventions of the embedding:

* a receiver is identified by its address, a natural number; a null pointer in
  the vector is `none`;
* the `std::set` of pointers is the ascending list of its elements, which is the
  order in which the set is iterated and copied into the vector;
* the event handler of a receiver is a script of calls back into the emitter
  (`Connect`, `Disconnect`, `Emit`), chosen by the emitted function and the
  receiver; this is how a handler re-enters the emitter in the source;
* `OnConnected` and `OnDisconnected` are recorded in the trace and do not call
  back into the emitter, except in `DisconnectReceivers`, where the calls made
  by the `OnDisconnected` callback of each receiver are a parameter;
* the constructors, the destructor and the assignment operators act on a heap
  of emitter objects by address, which also keeps the order in which the
  callbacks of all emitters were issued;
* the recursive mutex is held by the one thread whose calls are modelled and is
  not represented;
* `Emit` takes a bound on the depth of nested `Emit` calls and returns `none`
  when the bound is exceeded.
-/

namespace Methane.Data

/-- Identity of a receiver: the address of the `Receiver<EventType>` object. -/
abbrev Receiver := Nat

/-- Identity of an emitted member function of the event interface (`func_ptr`). -/
abbrev Func := Nat

/-- A call made by an event handler on the emitter that is invoking it. -/
inductive Action where
  | connect (r : Receiver)
  | disconnect (r : Receiver)
  | emit (f : Func)
deriving DecidableEq, Repr

/-- A callback issued by the emitter: the two lifecycle notifications and the
invocation of an event handler (`(p_receiver->*func_ptr)(args...)`). -/
inductive Event where
  | OnConnected (r : Receiver)
  | OnDisconnected (r : Receiver)
  | Call (f : Func) (r : Receiver)
deriving DecidableEq, Repr

/-- The script run by the handler of function `f` in receiver `r`. -/
abbrev Handlers := Func → Receiver → List Action

/-- State of an `Emitter<EventType>` object.
`m_connected_receivers` is the vector (a null pointer is `none`),
`m_additional_connected_receivers` is the `std::set` of pointers, kept as the
strictly ascending list of its elements (the iteration order of the set).
`vacated` holds the storage slots right after the end of the vector: `erase`
moves the tail one slot down and leaves the value of the old last slot where it
was, and a range-for whose end iterator was taken before the `erase` still
reads it.  `trace` records the callbacks issued, oldest first. -/
structure Emitter where
  m_is_emitting : Bool
  m_connected_receivers : List (Option Receiver)
  m_additional_connected_receivers : List Receiver
  vacated : List (Option Receiver)
  trace : List Event
deriving DecidableEq, Repr

/-- A default-constructed emitter (`Emitter() = default`). -/
def Emitter.fresh : Emitter :=
  { m_is_emitting := false, m_connected_receivers := [],
    m_additional_connected_receivers := [], vacated := [], trace := [] }

/-- Insertion into the `std::set` of pointers (ordered by address, no duplicates). -/
def setInsert (r : Receiver) : List Receiver → List Receiver
  | [] => [r]
  | x :: xs =>
    if r < x then r :: x :: xs
    else if r = x then x :: xs
    else x :: setInsert r xs

/-- Removal of a key from the `std::set` (`erase(key)`). -/
def setErase (r : Receiver) (xs : List Receiver) : List Receiver :=
  xs.filter (fun x => x ≠ r)

/-- Search of `std::find_if` with the predicate of `FindConnectedReceiver`:
index of the first slot holding a non-null pointer equal to the address of `r`. -/
def findSlot (r : Receiver) : List (Option Receiver) → Option Nat
  | [] => none
  | p :: ps => if p = some r then some 0 else (findSlot r ps).map (· + 1)

/-- Embedding of `Emitter::FindConnectedReceiver`; `none` is the end iterator. -/
def FindConnectedReceiver (s : Emitter) (r : Receiver) : Option Nat :=
  findSlot r s.m_connected_receivers

/-- Effect of `m_connected_receivers.erase(it)` for the slot at index `i`. -/
def vectorErase (i : Nat) (s : Emitter) : Emitter :=
  match s.m_connected_receivers.getLast? with
  | none => s
  | some last =>
    { s with m_connected_receivers := s.m_connected_receivers.eraseIdx i,
             vacated := last :: s.vacated }

/-- Append one notification to the trace. -/
def Emitter.log (e : Event) (s : Emitter) : Emitter :=
  { s with trace := s.trace ++ [e] }

/-- Embedding of `Emitter::Connect`: nothing when `FindConnectedReceiver` finds
the receiver in the vector; otherwise the receiver goes to the set when the
emitter is emitting and to the end of the vector when it is not (the new
element takes the first slot past the old end), and `OnConnected` is called. -/
def Connect (r : Receiver) (s : Emitter) : Emitter :=
  match FindConnectedReceiver s r with
  | some _ => s
  | none =>
    Emitter.log (Event.OnConnected r)
      (if s.m_is_emitting then
        { s with m_additional_connected_receivers :=
                   setInsert r s.m_additional_connected_receivers }
       else
        { s with m_connected_receivers := s.m_connected_receivers ++ [some r],
                 vacated := s.vacated.drop 1 })

/-- Embedding of `Emitter::Disconnect`: when the receiver is not found in the
vector it is erased from the set if the emitter is emitting, with no
notification; when it is found its slot is nulled (emitting) or erased (not
emitting) and `OnDisconnected` is called. -/
def Disconnect (r : Receiver) (s : Emitter) : Emitter :=
  match FindConnectedReceiver s r with
  | none =>
    if s.m_is_emitting then
      { s with m_additional_connected_receivers :=
                 setErase r s.m_additional_connected_receivers }
    else s
  | some i =>
    Emitter.log (Event.OnDisconnected r)
      (if s.m_is_emitting then
        { s with m_connected_receivers := s.m_connected_receivers.set i none }
       else vectorErase i s)

/-- Embedding of `Emitter::GetConnectedReceiversCount`. -/
def GetConnectedReceiversCount (s : Emitter) : Nat :=
  s.m_connected_receivers.length + s.m_additional_connected_receivers.length

/-- Loop of `CleanupConnectedReceivers`: `i` is the iterator, the first argument
bounds the number of iterations (the length of the vector at entry). -/
def cleanupLoop : Nat → Nat → Emitter → Emitter
  | 0, _, s => s
  | k + 1, i, s =>
    match s.m_connected_receivers[i]? with
    | none => s
    | some (some _) => cleanupLoop k (i + 1) s
    | some none => cleanupLoop k i (vectorErase i s)

/-- Embedding of `Emitter::CleanupConnectedReceivers`. -/
def CleanupConnectedReceivers (s : Emitter) : Emitter :=
  cleanupLoop s.m_connected_receivers.length 0 s

/-- Value read through an iterator at position `i` of the vector's storage:
inside the vector when `i` is below its size, otherwise one of the vacated
slots.  `none` when the position is outside both. -/
def readSlot (s : Emitter) (i : Nat) : Option (Option Receiver) :=
  (s.m_connected_receivers ++ s.vacated)[i]?

/-- Calls made by a handler, in order; `emitRec` is `Emit` on the same emitter. -/
def runActions (emitRec : Func → Emitter → Option Emitter) :
    List Action → Emitter → Option Emitter
  | [], s => some s
  | Action.connect r :: rest, s => runActions emitRec rest (Connect r s)
  | Action.disconnect r :: rest, s => runActions emitRec rest (Disconnect r s)
  | Action.emit g :: rest, s =>
    match emitRec g s with
    | none => none
    | some s1 => runActions emitRec rest s1

/-- Embedding of `EmitFuncOfReceivers` applied to `m_connected_receivers`: the
range-for takes `begin()` and `end()` once, so the loop runs over the positions
`i, i+1, ...` for the number of slots the vector had at entry (first argument)
and reads each slot when it gets there.  Returns `is_cleanup_required`. -/
def emitVectorLoop (run : List Action → Emitter → Option Emitter) (h : Handlers)
    (f : Func) : Nat → Nat → Bool → Emitter → Option (Bool × Emitter)
  | 0, _, flag, s => some (flag, s)
  | k + 1, i, flag, s =>
    match readSlot s i with
    | none => none
    | some none => emitVectorLoop run h f k (i + 1) true s
    | some (some r) =>
      match run (h f r) (Emitter.log (Event.Call f r) s) with
      | none => none
      | some s1 =>
        match readSlot s1 i with
        | none => none
        | some none => emitVectorLoop run h f k (i + 1) true s1
        | some (some _) => emitVectorLoop run h f k (i + 1) flag s1

/-- Embedding of `EmitFuncOfReceivers` applied to the local copy of the set of
additional receivers: the elements of the copy are never null and never
change, so both null tests fail and the result is `false` (it is discarded). -/
def emitSetCopy (run : List Action → Emitter → Option Emitter) (h : Handlers)
    (f : Func) : List Receiver → Emitter → Option Emitter
  | [], s => some s
  | r :: rest, s =>
    match run (h f r) (Emitter.log (Event.Call f r) s) with
    | none => none
    | some s1 => emitSetCopy run h f rest s1

/-- Tail of `Emit` after the loop over the vector: restore `m_is_emitting` and,
for an outermost call, move the additional receivers to the end of the vector. -/
def finishEmit (was_emitting : Bool) (s : Emitter) : Emitter :=
  let s1 := { s with m_is_emitting := was_emitting }
  if !was_emitting && !s1.m_additional_connected_receivers.isEmpty then
    { s1 with
        m_connected_receivers :=
          s1.m_connected_receivers ++ s1.m_additional_connected_receivers.map some,
        m_additional_connected_receivers := [],
        vacated := s1.vacated.drop s1.m_additional_connected_receivers.length }
  else s1

/-- First part of `Emit`: when the call is nested and the set of additional
receivers is not empty, the function is emitted to a copy of that set. -/
def emitAdditional (run : List Action → Emitter → Option Emitter) (h : Handlers)
    (f : Func) (s : Emitter) : Option Emitter :=
  if s.m_is_emitting && !s.m_additional_connected_receivers.isEmpty then
    emitSetCopy run h f s.m_additional_connected_receivers s
  else some s

/-- Second part of `Emit`: save `was_emitting`, set `m_is_emitting`, run the loop
over the vector, compact when the loop asks for it, and finish. -/
def emitConnected (run : List Action → Emitter → Option Emitter) (h : Handlers)
    (f : Func) (s : Emitter) : Option Emitter :=
  match emitVectorLoop run h f s.m_connected_receivers.length 0 false
      { s with m_is_emitting := true } with
  | none => none
  | some (flag, s3) =>
    some (finishEmit s.m_is_emitting (if flag then CleanupConnectedReceivers s3 else s3))

/-- Embedding of `Emitter::Emit`.  The first argument bounds the depth of
nested `Emit` calls (a handler that emits without end overflows the stack in
the source); `none` is returned when the bound is exceeded. -/
def Emit (h : Handlers) : Nat → Func → Emitter → Option Emitter
  | 0, _, _ => none
  | n + 1, f, s =>
    match emitAdditional (runActions (Emit h n)) h f s with
    | none => none
    | some s1 => emitConnected (runActions (Emit h n)) h f s1

/-- Handlers that call nothing on the emitter. -/
def inert : Handlers := fun _ _ => []

/-- Receivers to which the handler of `f` was applied, in order of invocation. -/
def callsOf (f : Func) (t : List Event) : List Receiver :=
  t.filterMap (fun e => match e with
    | Event.Call g r => if g = f then some r else none
    | _ => none)

/-- A call made on the emitter from outside any emission. -/
inductive Op where
  | connect (r : Receiver)
  | disconnect (r : Receiver)
deriving DecidableEq, Repr

/-- Effect of one outside call on the emitter. -/
def applyOp (s : Emitter) : Op → Emitter
  | Op.connect r => Connect r s
  | Op.disconnect r => Disconnect r s

/-- Effect of a sequence of outside calls, first call first. -/
def applyOps (ops : List Op) (s : Emitter) : Emitter :=
  ops.foldl applyOp s

/-- Specification side of the subscriber list, one call at a time: connecting a
receiver that is not subscribed puts it last, connecting a subscribed receiver
changes nothing, disconnecting a receiver removes it. -/
def subscribeStep (l : List Receiver) : Op → List Receiver
  | Op.connect r => if r ∈ l then l else l ++ [r]
  | Op.disconnect r => l.filter (fun x => x ≠ r)

/-- Specification side of the subscriber list: the distinct receivers connected
and not yet disconnected by the calls `ops`, in the order of their connection. -/
def subscribedInOrder (ops : List Op) : List Receiver :=
  ops.foldl subscribeStep []

/-- The receiver a call is about. -/
def Op.receiver : Op → Receiver
  | Op.connect r => r
  | Op.disconnect r => r

/-- The last call of `ops` that is about receiver `r`, if any. -/
def lastCallOn (r : Receiver) (ops : List Op) : Option Op :=
  (ops.filter (fun o => o.receiver = r)).getLast?

/-- Handlers of the scenario of a receiver connected twice from one handler:
the handler of function `0` in receiver `1` connects receiver `2` twice. -/
def handlersConnectTwice : Handlers := fun f r =>
  if f = 0 ∧ r = 1 then [Action.connect 2, Action.connect 2] else []

/-- Handlers of the example of the specification with `A = 1`, `B = 2`, `C = 3`,
`D = 4`: the handler of `B` disconnects `C` and connects `D`. -/
def handlersExample : Handlers := fun _ r =>
  if r = 2 then [Action.disconnect 3, Action.connect 4] else []

/-- Handlers of a nested emission after a self-disconnect: the handler of
function `0` in receiver `1` disconnects `1` and then emits function `1`. -/
def handlersNestedAfterDisconnect : Handlers := fun f r =>
  if f = 0 ∧ r = 1 then [Action.disconnect 1, Action.emit 1] else []

/-- Handlers of a nested emission over additional receivers: the handler of
function `0` in receiver `1` connects `4` and `5` and emits function `1`; the
handler of function `1` in receiver `4` disconnects `5`. -/
def handlersDisconnectAdditional : Handlers := fun f r =>
  if f = 0 ∧ r = 1 then [Action.connect 4, Action.connect 5, Action.emit 1]
  else if f = 1 ∧ r = 4 then [Action.disconnect 5]
  else []

/-- Script run by the `OnDisconnected` callback of a receiver: the calls it makes
on the emitter that notifies it. -/
abbrev Hooks := Receiver → List Op

/-- Loop of `ConnectReceivers` over the vector: every non-null entry is notified. -/
def connectLoop : List (Option Receiver) → Emitter → Emitter
  | [], s => s
  | none :: rest, s => connectLoop rest s
  | some r :: rest, s => connectLoop rest (Emitter.log (Event.OnConnected r) s)

/-- Embedding of `Emitter::ConnectReceivers`. -/
def ConnectReceivers (s : Emitter) : Emitter :=
  connectLoop s.m_connected_receivers s

/-- Loop of `DisconnectReceivers` over the local vector `connected_receivers`:
every non-null entry is notified, and its callback may call the emitter. -/
def disconnectLoop (hook : Hooks) : List (Option Receiver) → Emitter → Emitter
  | [], s => s
  | none :: rest, s => disconnectLoop hook rest s
  | some r :: rest, s =>
    disconnectLoop hook rest (applyOps (hook r) (Emitter.log (Event.OnDisconnected r) s))

/-- Embedding of `Emitter::DisconnectReceivers`: the vector is moved into a local
(the member is left empty, without storage), the entries of the local are
notified, and the local is returned. -/
def DisconnectReceivers (hook : Hooks) (s : Emitter) : Emitter × List (Option Receiver) :=
  (disconnectLoop hook s.m_connected_receivers
      { s with m_connected_receivers := [], vacated := [] },
    s.m_connected_receivers)

/-- Address of an emitter object. -/
abbrev EmitterId := Nat

/-- The emitter objects by address, and the callbacks issued so far by all of
them in the order of issue, each with the address of the emitter that issued it
(the argument of `OnConnected` and `OnDisconnected`). -/
structure Heap where
  objects : EmitterId → Emitter
  order : List (EmitterId × Event)

/-- Put an object at an address without any callback. -/
def Heap.place (w : Heap) (a : EmitterId) (e : Emitter) : Heap :=
  { w with objects := Function.update w.objects a e }

/-- Replace the object at `a` by its next state `e` and record, in the common
order, the callbacks that `e` has issued beyond those of the object it replaces. -/
def Heap.store (w : Heap) (a : EmitterId) (e : Emitter) : Heap :=
  { objects := Function.update w.objects a e,
    order := w.order ++ (e.trace.drop (w.objects a).trace.length).map (fun ev => (a, ev)) }

/-- Embedding of the copy constructor `Emitter(const Emitter& other)`: the vector
is copied, the other members take their default initialisers. -/
def copyConstruct (w : Heap) (this other : EmitterId) : Heap :=
  let w1 := w.place this
    { Emitter.fresh with m_connected_receivers := (w.objects other).m_connected_receivers }
  w1.store this (ConnectReceivers (w1.objects this))

/-- Embedding of the move constructor `Emitter(Emitter&& other)`: the vector is
initialised with the result of `other.DisconnectReceivers()`. -/
def moveConstruct (hook : Hooks) (w : Heap) (this other : EmitterId) : Heap :=
  let r := DisconnectReceivers hook (w.objects other)
  let w1 := w.store other r.1
  let w2 := w1.place this { Emitter.fresh with m_connected_receivers := r.2 }
  w2.store this (ConnectReceivers (w2.objects this))

/-- Embedding of the destructor `~Emitter()`. -/
def destroy (hook : Hooks) (w : Heap) (this : EmitterId) : Heap :=
  w.store this (DisconnectReceivers hook (w.objects this)).1

/-- Embedding of the copy assignment `operator=(const Emitter& other)`. -/
def copyAssign (hook : Hooks) (w : Heap) (this other : EmitterId) : Heap :=
  if this = other then w
  else
    let w1 := w.store this (DisconnectReceivers hook (w.objects this)).1
    let w2 := w1.place this
      { w1.objects this with
          m_connected_receivers := (w1.objects other).m_connected_receivers,
          vacated := [] }
    w2.store this (ConnectReceivers (w2.objects this))

/-- Embedding of the move assignment `operator=(Emitter&& other)`: after
`DisconnectReceivers()` on the target, the vector of `other` is moved into the
member with its storage, which leaves the vector of `other` empty; no member
function of `other` is called. -/
def moveAssign (hook : Hooks) (w : Heap) (this other : EmitterId) : Heap :=
  if this = other then w
  else
    let w1 := w.store this (DisconnectReceivers hook (w.objects this)).1
    let w2 := w1.place this
      { w1.objects this with
          m_connected_receivers := (w1.objects other).m_connected_receivers,
          vacated := (w1.objects other).vacated }
    let w3 := w2.place other
      { w2.objects other with m_connected_receivers := [], vacated := [] }
    w3.store this (ConnectReceivers (w3.objects this))

/-- Callbacks that do not call the emitter. -/
def noHooks : Hooks := fun _ => []

/-- A heap with an emitter at address `1` whose vector is `[10, 20]` and fresh
emitters elsewhere; no callback issued yet. -/
def heapExample : Heap :=
  { objects := fun a =>
      if a = 1 then { Emitter.fresh with m_connected_receivers := [some 10, some 20] }
      else Emitter.fresh,
    order := [] }

/-- Handlers of a disconnection of an earlier slot: with the vector `[1, 2]`, the
handler of receiver `2` disconnects receiver `1`. -/
def handlersDisconnectEarlier : Handlers := fun _ r =>
  if r = 2 then [Action.disconnect 1] else []

/-- The receivers subscribed to the emitter: the non-null entries of the vector
followed by the elements of the set of additional receivers. -/
def subscriptions (s : Emitter) : List Receiver :=
  s.m_connected_receivers.reduceOption ++ s.m_additional_connected_receivers

/-- Consistency of the bookkeeping: no receiver twice in the vector, the set
strictly ascending, no element of the set in the vector, and the set empty
whenever the emitter is not emitting. -/
def Consistent (s : Emitter) : Prop :=
  s.m_connected_receivers.reduceOption.Nodup ∧
  s.m_additional_connected_receivers.Pairwise (fun a b => a < b) ∧
  (∀ r ∈ s.m_additional_connected_receivers, some r ∉ s.m_connected_receivers) ∧
  (s.m_is_emitting = false → s.m_additional_connected_receivers = [])

/-- States of an emitter reached from a default-constructed one by calls of
`Connect`, `Disconnect` and `Emit` made outside of any emission; the handlers
run by each `Emit` are arbitrary scripts of `Connect`, `Disconnect` and `Emit`. -/
inductive Reachable : Emitter → Prop where
  | fresh : Reachable Emitter.fresh
  | connect (r : Receiver) {s : Emitter} : Reachable s → Reachable (Connect r s)
  | disconnect (r : Receiver) {s : Emitter} : Reachable s → Reachable (Disconnect r s)
  | emit (h : Handlers) (n : Nat) (f : Func) {s s1 : Emitter} :
      Reachable s → Emit h n f s = some s1 → Reachable s1

/-- Embedding of `SystemBase::GetNextGpuDevice` (`DeviceBase.cpp`).  `m_devices`
is the vector of `Ptr<Device>` (a null pointer is `none`), a device is
identified by its address, and `std::find_if` with the address test is
`findSlot`.  The result is the returned `Ptr<Device>`, `none` when it is null. -/
def SystemBase.GetNextGpuDevice (m_devices : List (Option Nat)) (device : Nat) :
    Option Nat :=
  if m_devices.isEmpty then none
  else
    match findSlot device m_devices with
    | none => none
    | some i =>
      if i = m_devices.length - 1 then m_devices.head?.join
      else (m_devices[i + 1]?).join

/-- The handler runner `run` restricted to states in which the emitter is
emitting: a handler started in any other state fails. -/
def whileEmitting (run : List Action → Emitter → Option Emitter) :
    List Action → Emitter → Option Emitter :=
  fun acts s => if s.m_is_emitting then run acts s else none

/-- The lifecycle notifications (`OnConnected`, `OnDisconnected`) that receiver
`r` got from the emitter, oldest first. -/
def lifecycleOf (r : Receiver) (t : List Event) : List Event :=
  t.filter (fun e => decide (e = Event.OnConnected r ∨ e = Event.OnDisconnected r))

/-- The strictly alternating sequence `OnConnected r, OnDisconnected r, ...` of
length `n`, starting with `OnConnected r`. -/
def alternatingLifecycle (r : Receiver) : Nat → List Event
  | 0 => []
  | n + 1 =>
    alternatingLifecycle r n
      ++ [if n % 2 = 0 then Event.OnConnected r else Event.OnDisconnected r]

/-- The slot of receiver `x` in a vector without repeated receiver after the
slot of `r` has been nulled. -/
def nullOut (r : Receiver) (x : Receiver) : Option Receiver :=
  if x = r then none else some x

/-- Whether an event is the invocation of an event handler. -/
def isCall : Event → Bool
  | Event.Call _ _ => true
  | _ => false

/-- Number of event-handler invocations recorded in a trace. -/
def callCount (t : List Event) : Nat :=
  (t.filter isCall).length

/-- The vector `l2` is the vector `l1` in which some slots have been nulled: same
length, and every slot is either unchanged or null. -/
def Faded (l1 l2 : List (Option Receiver)) : Prop :=
  List.Forall₂ (fun x y => y = x ∨ y = none) l1 l2

/-- Handlers of a disconnection after a nested emission: the handler of
function `0` in receiver `1` disconnects `1`, emits function `1` and then
disconnects receiver `3`. -/
def handlersDisconnectAfterNested : Handlers := fun f r =>
  if f = 0 ∧ r = 1 then [Action.disconnect 1, Action.emit 1, Action.disconnect 3] else []

/-- In the trace `t`, the handler of function `f` is never invoked on a receiver
after that receiver has been notified `OnDisconnected`. -/
def NoCallAfterDisconnect (f : Func) (t : List Event) : Prop :=
  t.Pairwise (fun e1 e2 => ∀ q, e1 = Event.OnDisconnected q → e2 ≠ Event.Call f q)

/-- Handlers of a self-disconnect: the handler of receiver `2` disconnects `2`;
all other handlers call nothing. -/
def handlersSelfDisconnect : Handlers := fun _ r =>
  if r = 2 then [Action.disconnect 2] else []

/-- Handlers of a nested emission after two connections: the handler of function
`0` in receiver `1` connects `7` and `8` and emits function `3`; all other
handlers, those of function `3` among them, call nothing. -/
def handlersNestedAdditional : Handlers := fun f r =>
  if f = 0 ∧ r = 1 then [Action.connect 7, Action.connect 8, Action.emit 3] else []

/-- States of an emitter in which code other than its own member functions runs,
outside of emissions and inside the handlers of emissions.  Besides the states
of `Reachable` these are the states in which an `Emit` entered in such a state
starts a handler: in the pass over the copy of the set of additional receivers,
after the handlers of the elements `pre` before `r` have returned, and in the
loop over the vector, after its first `k` iterations have returned and when
the slot at position `k` holds `r`.  The calls a handler makes are `Connect`,
`Disconnect` and `Emit` on the state it runs in, so the states it goes through
are those of the first four rules. -/
inductive Observed : Emitter → Prop where
  | fresh : Observed Emitter.fresh
  | connect (r : Receiver) {s : Emitter} : Observed s → Observed (Connect r s)
  | disconnect (r : Receiver) {s : Emitter} : Observed s → Observed (Disconnect r s)
  | emit (h : Handlers) (n : Nat) (f : Func) {s s1 : Emitter} :
      Observed s → Emit h n f s = some s1 → Observed s1
  | additionalCall (h : Handlers) (n : Nat) (f : Func) (pre post : List Receiver)
      (r : Receiver) {s s1 : Emitter} :
      Observed s → s.m_is_emitting = true →
      s.m_additional_connected_receivers = pre ++ r :: post →
      emitSetCopy (runActions (Emit h n)) h f pre s = some s1 →
      Observed (Emitter.log (Event.Call f r) s1)
  | connectedCall (h : Handlers) (n : Nat) (f : Func) (k : Nat) (flag : Bool)
      (r : Receiver) {s s1 s2 : Emitter} :
      Observed s →
      emitAdditional (runActions (Emit h n)) h f s = some s1 →
      k < s1.m_connected_receivers.length →
      emitVectorLoop (runActions (Emit h n)) h f k 0 false
          { s1 with m_is_emitting := true } = some (flag, s2) →
      readSlot s2 k = some (some r) →
      Observed (Emitter.log (Event.Call f r) s2)


/-! ## Helper lemmas on the vector and the set -/

theorem findSlot_eq_none_iff (r : Receiver) (l : List (Option Receiver)) :
    findSlot r l = none ↔ some r ∉ l := by
  induction l with
  | nil => simp [findSlot]
  | cons p ps ih =>
    by_cases hp : p = some r
    · simp [findSlot, hp]
    · have hne : ¬ (some r = p) := fun e => hp e.symm
      simp [findSlot, hp, ih, hne]

theorem findSlot_append_cons (r : Receiver) (pre post : List (Option Receiver))
    (hpre : some r ∉ pre) :
    findSlot r (pre ++ some r :: post) = some pre.length := by
  induction pre with
  | nil => simp [findSlot]
  | cons p ps ih =>
    have hp : ¬ (p = some r) := by
      intro e; apply hpre; simp [e]
    have hps : some r ∉ ps := by
      intro e; apply hpre; simp [e]
    simp [findSlot, hp, ih hps]

theorem eraseIdx_append_cons (pre post : List (Option Receiver)) (x : Option Receiver) :
    (pre ++ x :: post).eraseIdx pre.length = pre ++ post := by
  induction pre with
  | nil => simp
  | cons p ps ih => simp [ih]

theorem set_append_cons (pre post : List (Option Receiver)) (x y : Option Receiver) :
    (pre ++ x :: post).set pre.length y = pre ++ y :: post := by
  induction pre with
  | nil => simp
  | cons p ps ih => simp [ih]

theorem setErase_of_not_mem (r : Receiver) (xs : List Receiver) (h : r ∉ xs) :
    setErase r xs = xs := by
  unfold setErase
  rw [List.filter_eq_self]
  intro a ha
  have : a ≠ r := fun e => h (e ▸ ha)
  simpa using this

theorem vectorErase_main (i : Nat) (s : Emitter) (hne : s.m_connected_receivers ≠ []) :
    (vectorErase i s).m_connected_receivers = s.m_connected_receivers.eraseIdx i := by
  unfold vectorErase
  split
  · next hl => simp [List.getLast?_eq_none_iff] at hl; exact absurd hl hne
  · rfl

theorem vectorErase_frame (i : Nat) (s : Emitter) :
    (vectorErase i s).m_is_emitting = s.m_is_emitting ∧
    (vectorErase i s).m_additional_connected_receivers = s.m_additional_connected_receivers ∧
    (vectorErase i s).trace = s.trace := by
  unfold vectorErase
  split <;> simp

theorem getElem?_append_cons (pre post : List (Option Receiver)) (x : Option Receiver) :
    (pre ++ x :: post)[pre.length]? = some x := by
  induction pre with
  | nil => simp
  | cons p ps ih => simpa using ih

theorem readSlot_append_cons (s : Emitter) (pre post : List (Option Receiver))
    (x : Option Receiver) (hm : s.m_connected_receivers = pre ++ x :: post) :
    readSlot s pre.length = some x := by
  unfold readSlot
  rw [hm, List.append_assoc, List.cons_append]
  exact getElem?_append_cons pre _ x

theorem filter_isSome_of_not_any (l : List (Option Receiver))
    (hl : l.any Option.isNone = false) : l.filter Option.isSome = l := by
  rw [List.filter_eq_self]
  intro a ha
  cases a with
  | none =>
    have : l.any Option.isNone = true := List.any_eq_true.mpr ⟨none, ha, rfl⟩
    rw [hl] at this; exact absurd this (by decide)
  | some r => rfl

/-! ## The loop over the vector across slots whose handlers leave the emitter as it is -/

/-- Across a segment of slots whose handlers change nothing in the emitter (for
instance handlers that call nothing), the loop calls every non-null slot of the
segment in order and asks for a compaction when the segment has a null slot. -/
theorem emitVectorLoop_noeffect (e : Func → Emitter → Option Emitter) (h : Handlers) (f : Func) :
    ∀ (seg pre post : List (Option Receiver)) (k : Nat) (flag : Bool) (s : Emitter),
      s.m_connected_receivers = pre ++ seg ++ post →
      (∀ r, some r ∈ seg → ∀ t, runActions e (h f r) { s with trace := t }
          = some { s with trace := t }) →
      emitVectorLoop (runActions e) h f (seg.length + k) pre.length flag s
        = emitVectorLoop (runActions e) h f k (pre.length + seg.length)
            (flag || seg.any Option.isNone)
            { s with trace := s.trace ++ seg.reduceOption.map (Event.Call f) } := by
  intro seg
  induction seg with
  | nil => intro pre post k flag s _ _; simp
  | cons x seg ih =>
    intro pre post k flag s hm hin
    have hlen : (x :: seg).length + k = (seg.length + k) + 1 := by simp; omega
    have hm1 : s.m_connected_receivers = pre ++ x :: (seg ++ post) := by simp [hm]
    have hread : readSlot s pre.length = some x := readSlot_append_cons s pre _ x hm1
    rw [hlen, emitVectorLoop, hread]
    cases x with
    | none =>
      have hin2 : ∀ r, some r ∈ seg → ∀ t, runActions e (h f r) { s with trace := t }
          = some { s with trace := t } := fun r hr => hin r (by simp [hr])
      have hm2 : s.m_connected_receivers = (pre ++ [none]) ++ seg ++ post := by simp [hm]
      have := ih (pre ++ [none]) post k true s hm2 hin2
      simp only [List.length_append, List.length_singleton] at this
      simp only [this]
      simp [List.reduceOption_cons_of_none, Nat.add_assoc, Nat.add_comm 1]
    | some r =>
      have hr : runActions e (h f r) (Emitter.log (Event.Call f r) s)
          = some (Emitter.log (Event.Call f r) s) := hin r (by simp) _
      have hread2 : readSlot (Emitter.log (Event.Call f r) s) pre.length = some (some r) :=
        readSlot_append_cons _ pre _ (some r) hm1
      simp only [hr, hread2]
      have hm2 : (Emitter.log (Event.Call f r) s).m_connected_receivers
          = (pre ++ [some r]) ++ seg ++ post := by simp [Emitter.log, hm]
      have hin2 : ∀ r2, some r2 ∈ seg → ∀ t,
          runActions e (h f r2) { Emitter.log (Event.Call f r) s with trace := t }
            = some { Emitter.log (Event.Call f r) s with trace := t } :=
        fun r2 hr2 t => hin r2 (by simp [hr2]) t
      have := ih (pre ++ [some r]) post k flag _ hm2 hin2
      simp only [List.length_append, List.length_singleton] at this
      simp only [this]
      simp [List.reduceOption_cons_of_some, Emitter.log, Nat.add_assoc, Nat.add_comm 1]

theorem reduceOption_map_some (l : List Receiver) : (l.map some).reduceOption = l := by
  induction l with
  | nil => rfl
  | cons a l ih => simp [List.reduceOption_cons_of_some, ih]

theorem any_isNone_map_some (l : List Receiver) : (l.map some).any Option.isNone = false := by
  induction l with
  | nil => rfl
  | cons a l ih => simp

theorem filter_isSome_map_some (l : List Receiver) :
    (l.map some).filter Option.isSome = l.map some :=
  filter_isSome_of_not_any _ (any_isNone_map_some l)

/-! ## Compaction -/

theorem cleanupLoop_spec :
    ∀ (rest pre : List (Option Receiver)) (k : Nat) (s : Emitter),
      s.m_connected_receivers = pre ++ rest → rest.length ≤ k →
      (cleanupLoop k pre.length s).m_connected_receivers
          = pre ++ rest.filter Option.isSome ∧
      (cleanupLoop k pre.length s).m_is_emitting = s.m_is_emitting ∧
      (cleanupLoop k pre.length s).m_additional_connected_receivers
          = s.m_additional_connected_receivers ∧
      (cleanupLoop k pre.length s).trace = s.trace := by
  intro rest
  induction rest with
  | nil =>
    intro pre k s hm _
    cases k with
    | zero => simp [cleanupLoop, hm]
    | succ k => simp [cleanupLoop, hm]
  | cons x rest ih =>
    intro pre k s hm hk
    cases k with
    | zero => simp at hk
    | succ k =>
      have hk2 : rest.length ≤ k := by simpa using hk
      have hget : s.m_connected_receivers[pre.length]? = some x := by
        rw [hm]; exact getElem?_append_cons pre rest x
      rw [cleanupLoop, hget]
      cases x with
      | none =>
        have hne : s.m_connected_receivers ≠ [] := by simp [hm]
        have hm2 : (vectorErase pre.length s).m_connected_receivers = pre ++ rest := by
          rw [vectorErase_main _ _ hne, hm, eraseIdx_append_cons]
        obtain ⟨f1, f2, f3⟩ := vectorErase_frame pre.length s
        obtain ⟨a, b, c, d⟩ := ih pre k (vectorErase pre.length s) hm2 hk2
        simp only
        refine ⟨?_, ?_, ?_, ?_⟩
        · simpa using a
        · rw [b, f1]
        · rw [c, f2]
        · rw [d, f3]
      | some r =>
        have hm2 : s.m_connected_receivers = (pre ++ [some r]) ++ rest := by simp [hm]
        obtain ⟨a, b, c, d⟩ := ih (pre ++ [some r]) k s hm2 hk2
        simp only [List.length_append, List.length_singleton] at a b c d
        simp only
        refine ⟨?_, b, c, d⟩
        simpa using a

theorem cleanup_spec (s : Emitter) :
    (CleanupConnectedReceivers s).m_connected_receivers
        = s.m_connected_receivers.filter Option.isSome ∧
    (CleanupConnectedReceivers s).m_is_emitting = s.m_is_emitting ∧
    (CleanupConnectedReceivers s).m_additional_connected_receivers
        = s.m_additional_connected_receivers ∧
    (CleanupConnectedReceivers s).trace = s.trace := by
  have := cleanupLoop_spec s.m_connected_receivers [] s.m_connected_receivers.length s
    (by simp) (Nat.le_refl _)
  simpa [CleanupConnectedReceivers] using this

/-! ## The tail of `Emit` and whole emissions with handlers that call nothing -/

theorem finishEmit_false (s : Emitter) :
    (finishEmit false s).m_connected_receivers
        = s.m_connected_receivers ++ s.m_additional_connected_receivers.map some ∧
    (finishEmit false s).m_additional_connected_receivers = [] ∧
    (finishEmit false s).m_is_emitting = false ∧
    (finishEmit false s).trace = s.trace := by
  unfold finishEmit
  cases hs : s.m_additional_connected_receivers with
  | nil => simp [hs]
  | cons a l => simp [hs]

theorem finishEmit_true (s : Emitter) :
    finishEmit true s = { s with m_is_emitting := true } := by
  simp [finishEmit]

theorem emitSetCopy_inert (e : Func → Emitter → Option Emitter) (h : Handlers) (f : Func) :
    ∀ (rs : List Receiver) (s : Emitter), (∀ r ∈ rs, h f r = []) →
      emitSetCopy (runActions e) h f rs s
        = some { s with trace := s.trace ++ rs.map (Event.Call f) } := by
  intro rs
  induction rs with
  | nil => intro s _; simp [emitSetCopy]
  | cons r rs ih =>
    intro s hin
    have hr : h f r = [] := hin r (by simp)
    have hrs : ∀ x ∈ rs, h f x = [] := fun x hx => hin x (by simp [hx])
    simp [emitSetCopy, hr, runActions, ih _ hrs, Emitter.log]

theorem emitAdditional_not_emitting (run : List Action → Emitter → Option Emitter)
    (h : Handlers) (f : Func) (s : Emitter) (hemit : s.m_is_emitting = false) :
    emitAdditional run h f s = some s := by
  simp [emitAdditional, hemit]

theorem emitAdditional_inert (e : Func → Emitter → Option Emitter) (h : Handlers) (f : Func)
    (s : Emitter) (hemit : s.m_is_emitting = true)
    (hin : ∀ r ∈ s.m_additional_connected_receivers, h f r = []) :
    emitAdditional (runActions e) h f s
      = some { s with trace := s.trace ++ s.m_additional_connected_receivers.map (Event.Call f) } := by
  obtain ⟨em, main, staged, vac, tr⟩ := s
  unfold emitAdditional
  split
  · exact emitSetCopy_inert e h f staged _ hin
  · next hc =>
    cases staged with
    | nil => simp
    | cons a l =>
      cases em with
      | false => simp at hemit
      | true => simp at hc

/-- The second part of `Emit` when no handler of a connected receiver calls
anything: every non-null slot is called in order, then null slots are removed. -/
theorem emitConnected_noeffect (e : Func → Emitter → Option Emitter) (h : Handlers)
    (f : Func) (s : Emitter)
    (hin : ∀ r, some r ∈ s.m_connected_receivers → ∀ t,
      runActions e (h f r) { s with m_is_emitting := true, trace := t }
        = some { s with m_is_emitting := true, trace := t }) :
    emitConnected (runActions e) h f s
      = some (finishEmit s.m_is_emitting
          (if s.m_connected_receivers.any Option.isNone
           then CleanupConnectedReceivers
             { s with m_is_emitting := true,
                      trace := s.trace ++ s.m_connected_receivers.reduceOption.map (Event.Call f) }
           else
             { s with m_is_emitting := true,
                      trace := s.trace ++ s.m_connected_receivers.reduceOption.map (Event.Call f) })) := by
  have := emitVectorLoop_noeffect e h f s.m_connected_receivers [] [] 0 false
    { s with m_is_emitting := true } (by simp) hin
  simp only [Nat.add_zero, List.length_nil, Nat.zero_add, Bool.false_or] at this
  unfold emitConnected
  rw [this, emitVectorLoop]

theorem emitConnected_noeffect_fields (e : Func → Emitter → Option Emitter) (h : Handlers)
    (f : Func) (s : Emitter)
    (hin : ∀ r, some r ∈ s.m_connected_receivers → ∀ t,
      runActions e (h f r) { s with m_is_emitting := true, trace := t }
        = some { s with m_is_emitting := true, trace := t }) :
    ∃ s1, emitConnected (runActions e) h f s = some s1 ∧
      s1.trace = s.trace ++ s.m_connected_receivers.reduceOption.map (Event.Call f) ∧
      s1.m_connected_receivers = s.m_connected_receivers.filter Option.isSome
          ++ (if s.m_is_emitting then [] else s.m_additional_connected_receivers.map some) ∧
      s1.m_additional_connected_receivers
          = (if s.m_is_emitting then s.m_additional_connected_receivers else []) ∧
      s1.m_is_emitting = s.m_is_emitting := by
  refine ⟨_, emitConnected_noeffect e h f s hin, ?_⟩
  obtain ⟨em, main, staged, vac, tr⟩ := s
  cases hflag : main.any Option.isNone with
  | false =>
    have hf := filter_isSome_of_not_any _ hflag
    cases em with
    | false =>
      obtain ⟨a, b, c, d⟩ := finishEmit_false
        { m_is_emitting := true, m_connected_receivers := main,
          m_additional_connected_receivers := staged, vacated := vac,
          trace := tr ++ main.reduceOption.map (Event.Call f) }
      simp only [hflag, Bool.false_eq_true, if_false]
      exact ⟨d, by rw [a, hf], b, c⟩
    | true => simp [hflag, finishEmit_true, hf]
  | true =>
    obtain ⟨a, b, c, d⟩ := cleanup_spec
      { m_is_emitting := true, m_connected_receivers := main,
        m_additional_connected_receivers := staged, vacated := vac,
        trace := tr ++ main.reduceOption.map (Event.Call f) }
    cases em with
    | false =>
      obtain ⟨a2, b2, c2, d2⟩ := finishEmit_false (CleanupConnectedReceivers
        { m_is_emitting := true, m_connected_receivers := main,
          m_additional_connected_receivers := staged, vacated := vac,
          trace := tr ++ main.reduceOption.map (Event.Call f) })
      simp only [hflag, if_true, Bool.false_eq_true, if_false]
      exact ⟨by rw [d2, d], by rw [a2, a, c], b2, c2⟩
    | true =>
      simp only [hflag, if_true, finishEmit_true]
      exact ⟨d, by simpa using a, c, trivial⟩

theorem emit_outer_inert (h : Handlers) (n : Nat) (f : Func) (s : Emitter)
    (hemit : s.m_is_emitting = false)
    (hin : ∀ r, some r ∈ s.m_connected_receivers → h f r = []) :
    ∃ s1, Emit h (n + 1) f s = some s1 ∧
      s1.trace = s.trace ++ s.m_connected_receivers.reduceOption.map (Event.Call f) ∧
      s1.m_connected_receivers = s.m_connected_receivers.filter Option.isSome
          ++ s.m_additional_connected_receivers.map some ∧
      s1.m_additional_connected_receivers = [] ∧
      s1.m_is_emitting = false := by
  obtain ⟨s1, h1, a, b, c, d⟩ := emitConnected_noeffect_fields (Emit h n) h f s
    (fun r hr t => by rw [hin r hr]; rfl)
  refine ⟨s1, ?_, a, ?_, ?_, ?_⟩
  · rw [Emit, emitAdditional_not_emitting _ _ _ _ hemit]; exact h1
  · simpa [hemit] using b
  · simpa [hemit] using c
  · rw [d, hemit]

/-- A non-reentrant `Emit` (not emitting at entry, no additional receiver
pending) on a vector without null slot whose handlers call nothing on the
emitter returns, and the callbacks it issues are exactly one call of the handler
of each receiver of the vector, in the order of the vector; the vector is
unchanged at return. -/
theorem emit_inert_of_no_null_slot (h : Handlers) (n : Nat) (f : Func)
    (s : Emitter) (rs : List Receiver)
    (hemit : s.m_is_emitting = false)
    (hmain : s.m_connected_receivers = rs.map some)
    (hstaged : s.m_additional_connected_receivers = [])
    (hin : ∀ r ∈ rs, h f r = []) :
    ∃ s1, Emit h (n + 1) f s = some s1 ∧
      s1.trace = s.trace ++ rs.map (Event.Call f) ∧
      s1.m_connected_receivers = s.m_connected_receivers ∧
      s1.m_additional_connected_receivers = [] ∧
      s1.m_is_emitting = false := by
  have hin2 : ∀ r, some r ∈ s.m_connected_receivers → h f r = [] := by
    intro r hr
    rw [hmain] at hr
    exact hin r (by simpa using hr)
  obtain ⟨s1, h1, a, b, c, d⟩ := emit_outer_inert h n f s hemit hin2
  refine ⟨s1, h1, ?_, ?_, c, d⟩
  · rw [a, hmain, reduceOption_map_some]
  · rw [b, hstaged, hmain, filter_isSome_map_some]; simp

/-- The plain emission at a concrete emitter: three receivers, inert handlers. -/
theorem emit_inert_of_no_null_slot_example :
    ∃ s1, Emit inert 1 7
        { Emitter.fresh with m_connected_receivers := [some 10, some 20, some 30] } = some s1 ∧
      s1.trace = [] ++ [10, 20, 30].map (Event.Call 7) ∧
      s1.m_connected_receivers = [some 10, some 20, some 30] ∧
      s1.m_additional_connected_receivers = [] ∧
      s1.m_is_emitting = false :=
  emit_inert_of_no_null_slot inert 0 7
    { Emitter.fresh with m_connected_receivers := [some 10, some 20, some 30] }
    [10, 20, 30] rfl rfl rfl (fun _ _ => rfl)

/-- C1 (defect): a non-reentrant `Emit` whose handlers call nothing on the
emitter does not leave the vector unchanged in every reachable state.  The
state reached by connecting `1` and `2` and emitting with a handler of `2` that
disconnects `1` is not emitting and has the vector `[null, 2]`; an `Emit` with
inert handlers in that state calls the handler of `2` once, which is the one
receiver held in the vector, but it meets the null slot and compacts the
vector to `[2]`. -/
theorem C1_inert_emit_changes_vector_with_null_slot :
    Reachable
      { m_is_emitting := false, m_connected_receivers := [none, some 2],
        m_additional_connected_receivers := [], vacated := [],
        trace := [Event.OnConnected 1, Event.OnConnected 2,
                  Event.Call 0 1, Event.Call 0 2, Event.OnDisconnected 1] } ∧
    (∀ f r, inert f r = []) ∧
    Emit inert 1 0
        { m_is_emitting := false, m_connected_receivers := [none, some 2],
          m_additional_connected_receivers := [], vacated := [],
          trace := [Event.OnConnected 1, Event.OnConnected 2,
                    Event.Call 0 1, Event.Call 0 2, Event.OnDisconnected 1] }
      = some { m_is_emitting := false, m_connected_receivers := [some 2],
               m_additional_connected_receivers := [], vacated := [some 2],
               trace := [Event.OnConnected 1, Event.OnConnected 2,
                         Event.Call 0 1, Event.Call 0 2, Event.OnDisconnected 1,
                         Event.Call 0 2] } ∧
    ([some 2] : List (Option Receiver)) ≠ [none, some 2] := by
  refine ⟨?_, fun _ _ => rfl, by decide, by decide⟩
  exact Reachable.emit handlersDisconnectEarlier 1 0
    (Reachable.connect 2 (Reachable.connect 1 Reachable.fresh)) (by decide)

/-! ## C2: calls made outside of any emission -/

theorem findSlot_map_some_of_not_mem (r : Receiver) (l : List Receiver) (hr : r ∉ l) :
    findSlot r (l.map some) = none := by
  rw [findSlot_eq_none_iff]
  simpa using hr

theorem filter_ne_of_not_mem (r : Receiver) (l : List Receiver) (hr : r ∉ l) :
    l.filter (fun x => x ≠ r) = l := by
  rw [List.filter_eq_self]
  intro a ha
  have : a ≠ r := fun e => hr (e ▸ ha)
  simpa using this

theorem filter_ne_append_cons (r : Receiver) (pre post : List Receiver)
    (hpre : r ∉ pre) (hpost : r ∉ post) :
    (pre ++ r :: post).filter (fun x => x ≠ r) = pre ++ post := by
  rw [List.filter_append, List.filter_cons, filter_ne_of_not_mem r pre hpre,
    filter_ne_of_not_mem r post hpost]
  simp

theorem Connect_of_found (r : Receiver) (s : Emitter) (i : Nat)
    (hf : findSlot r s.m_connected_receivers = some i) : Connect r s = s := by
  simp [Connect, FindConnectedReceiver, hf]

theorem Connect_of_not_found (r : Receiver) (s : Emitter)
    (hf : findSlot r s.m_connected_receivers = none) :
    Connect r s = Emitter.log (Event.OnConnected r)
      (if s.m_is_emitting then
        { s with m_additional_connected_receivers :=
                   setInsert r s.m_additional_connected_receivers }
       else
        { s with m_connected_receivers := s.m_connected_receivers ++ [some r],
                 vacated := s.vacated.drop 1 }) := by
  simp [Connect, FindConnectedReceiver, hf]

theorem Disconnect_of_not_found (r : Receiver) (s : Emitter)
    (hf : findSlot r s.m_connected_receivers = none) :
    Disconnect r s =
      if s.m_is_emitting then
        { s with m_additional_connected_receivers :=
                   setErase r s.m_additional_connected_receivers }
      else s := by
  simp [Disconnect, FindConnectedReceiver, hf]

theorem Disconnect_of_found (r : Receiver) (s : Emitter) (i : Nat)
    (hf : findSlot r s.m_connected_receivers = some i) :
    Disconnect r s = Emitter.log (Event.OnDisconnected r)
      (if s.m_is_emitting then
        { s with m_connected_receivers := s.m_connected_receivers.set i none }
       else vectorErase i s) := by
  simp [Disconnect, FindConnectedReceiver, hf]

/-- One outside call keeps the vector equal to the specified subscriber list. -/
theorem applyOp_refines (s : Emitter) (l : List Receiver) (o : Op)
    (hm : s.m_connected_receivers = l.map some) (hnd : l.Nodup)
    (hst : s.m_additional_connected_receivers = []) (hem : s.m_is_emitting = false) :
    (applyOp s o).m_connected_receivers = (subscribeStep l o).map some ∧
    (subscribeStep l o).Nodup ∧
    (applyOp s o).m_additional_connected_receivers = [] ∧
    (applyOp s o).m_is_emitting = false := by
  cases o with
  | connect r =>
    by_cases hr : r ∈ l
    · have hfind : findSlot r s.m_connected_receivers ≠ none := by
        rw [Ne, findSlot_eq_none_iff, hm]; simpa using hr
      obtain ⟨i, hi⟩ := Option.ne_none_iff_exists'.mp hfind
      simp only [applyOp, Connect_of_found r s i hi]
      simp [subscribeStep, hr, hm, hnd, hst, hem]
    · have hfind : findSlot r s.m_connected_receivers = none := by
        rw [hm]; exact findSlot_map_some_of_not_mem r l hr
      have hnd2 : (l ++ [r]).Nodup := by
        rw [List.nodup_append]
        refine ⟨hnd, List.nodup_singleton r, ?_⟩
        intro a ha hb
        simp at hb
        exact hr (hb ▸ ha)
      simp only [applyOp, Connect_of_not_found r s hfind]
      simp [subscribeStep, hr, hm, hnd2, hst, hem, Emitter.log]
  | disconnect r =>
    by_cases hr : r ∈ l
    · obtain ⟨pre, post, hl, hpre⟩ := List.eq_append_cons_of_mem hr
      have hpost : r ∉ post := by
        intro hp
        rw [hl] at hnd
        have := (List.nodup_append.mp hnd).2.1
        exact (List.nodup_cons.mp this).1 hp
      have hm2 : s.m_connected_receivers = pre.map some ++ some r :: post.map some := by
        rw [hm, hl]; simp
      have hpre2 : some r ∉ pre.map some := by simpa using hpre
      have hfind : findSlot r s.m_connected_receivers = some (pre.map some).length := by
        rw [hm2]; exact findSlot_append_cons r _ _ hpre2
      have hne : s.m_connected_receivers ≠ [] := by simp [hm2]
      have hmain : (vectorErase (pre.map some).length s).m_connected_receivers
          = (pre ++ post).map some := by
        rw [vectorErase_main _ _ hne, hm2, eraseIdx_append_cons]; simp
      obtain ⟨f1, f2, _⟩ := vectorErase_frame (pre.map some).length s
      have hspec : subscribeStep l (Op.disconnect r) = pre ++ post := by
        simp only [subscribeStep]
        rw [hl]; exact filter_ne_append_cons r pre post hpre hpost
      have hnd2 : (pre ++ post).Nodup := by
        rw [hl] at hnd
        exact List.Nodup.sublist (by simp) hnd
      rw [hspec]
      simp only [applyOp, Disconnect_of_found r s _ hfind, hem, Emitter.log]
      exact ⟨hmain, hnd2, by simpa [hst] using f2, by simpa [hem] using f1⟩
    · have hfind : findSlot r s.m_connected_receivers = none := by
        rw [hm]; exact findSlot_map_some_of_not_mem r l hr
      have hspec : subscribeStep l (Op.disconnect r) = l := by
        simp only [subscribeStep]
        exact filter_ne_of_not_mem r l hr
      rw [hspec]
      simp only [applyOp, Disconnect_of_not_found r s hfind]
      simp [hem, hm, hnd, hst]

theorem applyOps_refines :
    ∀ (ops : List Op) (s : Emitter) (l : List Receiver),
      s.m_connected_receivers = l.map some → l.Nodup →
      s.m_additional_connected_receivers = [] → s.m_is_emitting = false →
      (applyOps ops s).m_connected_receivers = (ops.foldl subscribeStep l).map some ∧
      (ops.foldl subscribeStep l).Nodup ∧
      (applyOps ops s).m_additional_connected_receivers = [] ∧
      (applyOps ops s).m_is_emitting = false := by
  intro ops
  induction ops with
  | nil => intro s l hm hnd hst hem; exact ⟨hm, hnd, hst, hem⟩
  | cons o ops ih =>
    intro s l hm hnd hst hem
    obtain ⟨a, b, c, d⟩ := applyOp_refines s l o hm hnd hst hem
    exact ih (applyOp s o) (subscribeStep l o) a b c d

theorem lastCallOn_concat (r : Receiver) (ops : List Op) (o : Op) :
    lastCallOn r (ops ++ [o]) = if o.receiver = r then some o else lastCallOn r ops := by
  unfold lastCallOn
  by_cases ho : o.receiver = r
  · simp [List.filter_append, List.filter_cons, ho, List.getLast?_concat]
  · simp [List.filter_append, List.filter_cons, ho]

/-- A receiver is in the specified subscriber list exactly when the last call
about it is a `Connect`. -/
theorem mem_subscribedInOrder (r : Receiver) (ops : List Op) :
    r ∈ subscribedInOrder ops ↔ lastCallOn r ops = some (Op.connect r) := by
  induction ops using List.reverseRecOn with
  | nil => simp [subscribedInOrder, lastCallOn]
  | append_singleton ops o ih =>
    have hstep : subscribedInOrder (ops ++ [o]) = subscribeStep (subscribedInOrder ops) o := by
      simp [subscribedInOrder]
    rw [hstep, lastCallOn_concat]
    cases o with
    | connect q =>
      by_cases hq : q = r
      · subst hq
        by_cases hmem : q ∈ subscribedInOrder ops
        · simp [subscribeStep, Op.receiver, hmem]
        · simp [subscribeStep, Op.receiver, hmem]
      · have hne : ¬ (r = q) := fun e => hq e.symm
        by_cases hmem : q ∈ subscribedInOrder ops
        · simp [subscribeStep, Op.receiver, hmem, hq, ih]
        · simp [subscribeStep, Op.receiver, hmem, hq, hne, ih]
    | disconnect q =>
      by_cases hq : q = r
      · subst hq
        simp [subscribeStep, Op.receiver]
      · have hne : ¬ (r = q) := fun e => hq e.symm
        simp [subscribeStep, Op.receiver, hq, hne, ih]

/-- C2: after any sequence of `Connect` and `Disconnect` calls made on a fresh
emitter outside of any emission, the vector is the specified subscriber list
(the distinct receivers connected and not yet disconnected, in connection
order) with no null slot, the set of additional receivers is empty, and a
receiver is in the list exactly when the last call about it is a `Connect`. -/
theorem C2_connect_disconnect_sequence (ops : List Op) :
    (applyOps ops Emitter.fresh).m_connected_receivers = (subscribedInOrder ops).map some ∧
    (subscribedInOrder ops).Nodup ∧
    (∀ r, r ∈ subscribedInOrder ops ↔ lastCallOn r ops = some (Op.connect r)) ∧
    (applyOps ops Emitter.fresh).m_additional_connected_receivers = [] ∧
    (applyOps ops Emitter.fresh).m_is_emitting = false := by
  obtain ⟨a, b, c, d⟩ := applyOps_refines ops Emitter.fresh [] rfl List.nodup_nil rfl rfl
  exact ⟨a, b, fun r => mem_subscribedInOrder r ops, c, d⟩

/-! ## C3: connecting the same receiver twice -/

/-- C3 (defect): while an emission is in progress, `Connect` looks for the
receiver in the vector only, so a second `Connect` of a receiver that sits in
the set of additional receivers notifies `OnConnected` again.  Two `Connect(2)`
calls on an emitting emitter leave one subscription of `2` and two
notifications, directly and from the handler of receiver `1` during `Emit`. -/
theorem C3_connect_twice_while_emitting_notifies_twice :
    Connect 2 (Connect 2
        { Emitter.fresh with m_is_emitting := true, m_connected_receivers := [some 1] })
      = { m_is_emitting := true, m_connected_receivers := [some 1],
          m_additional_connected_receivers := [2], vacated := [],
          trace := [Event.OnConnected 2, Event.OnConnected 2] } ∧
    Emit handlersConnectTwice 1 0 { Emitter.fresh with m_connected_receivers := [some 1] }
      = some { m_is_emitting := false, m_connected_receivers := [some 1, some 2],
               m_additional_connected_receivers := [], vacated := [],
               trace := [Event.Call 0 1, Event.OnConnected 2, Event.OnConnected 2] } := by
  constructor <;> decide

/-! ## C4: disconnecting a receiver that is not subscribed -/

/-- C4: `Disconnect` of a receiver that is neither in the vector nor in the set
of additional receivers returns the emitter as it was, whether it is emitting or
not: no notification is issued and no member changes. -/
theorem C4_disconnect_unknown_is_noop (s : Emitter) (r : Receiver)
    (hmain : some r ∉ s.m_connected_receivers)
    (hstaged : r ∉ s.m_additional_connected_receivers) :
    Disconnect r s = s := by
  have hfind : findSlot r s.m_connected_receivers = none :=
    (findSlot_eq_none_iff r _).mpr hmain
  rw [Disconnect_of_not_found r s hfind, setErase_of_not_mem r _ hstaged]
  obtain ⟨em, main, st, vac, tr⟩ := s
  cases em <;> rfl

/-- C4 at a concrete emitter that is emitting, with a null slot and a pending
additional receiver. -/
theorem C4_disconnect_unknown_is_noop_witness :
    Disconnect 9
        { m_is_emitting := true, m_connected_receivers := [some 1, none, some 3],
          m_additional_connected_receivers := [4], vacated := [],
          trace := [Event.OnConnected 1] }
      = { m_is_emitting := true, m_connected_receivers := [some 1, none, some 3],
          m_additional_connected_receivers := [4], vacated := [],
          trace := [Event.OnConnected 1] } :=
  C4_disconnect_unknown_is_noop _ 9 (by decide) (by decide)

/-! ## An emission in which one handler acts on the emitter -/

/-- The loop over a vector without null slots when the handlers before slot `a`
leave the emitter as it is, the handler of `a` takes it to `s2` (where the slot
of `a` holds `x`), and the handlers after `a` leave `s2` as it is. -/
theorem emitVectorLoop_one_active (e : Func → Emitter → Option Emitter) (h : Handlers)
    (f : Func) (pre post : List Receiver) (a : Receiver) (x : Option Receiver)
    (s s2 : Emitter)
    (hm : s.m_connected_receivers = pre.map some ++ some a :: post.map some)
    (hpre : ∀ r ∈ pre, ∀ t, runActions e (h f r) { s with trace := t }
        = some { s with trace := t })
    (ha : runActions e (h f a)
        { s with trace := s.trace ++ pre.map (Event.Call f) ++ [Event.Call f a] } = some s2)
    (hm2 : s2.m_connected_receivers = pre.map some ++ x :: post.map some)
    (hpost : ∀ r ∈ post, ∀ t, runActions e (h f r) { s2 with trace := t }
        = some { s2 with trace := t }) :
    emitVectorLoop (runActions e) h f s.m_connected_receivers.length 0 false s
      = some (x.isNone, { s2 with trace := s2.trace ++ post.map (Event.Call f) }) := by
  have hlen : s.m_connected_receivers.length = (pre.map some).length + (post.length + 1) := by
    rw [hm]; simp
  have hpre2 : ∀ r, some r ∈ pre.map some → ∀ t, runActions e (h f r) { s with trace := t }
      = some { s with trace := t } := by
    intro r hr t
    exact hpre r (by simpa using hr) t
  have step1 := emitVectorLoop_noeffect e h f (pre.map some) [] (some a :: post.map some)
    (post.length + 1) false s (by simpa using hm) hpre2
  simp only [List.length_nil, Nat.zero_add, reduceOption_map_some, any_isNone_map_some,
    Bool.or_false] at step1
  rw [hlen, step1, emitVectorLoop]
  have hread1 : readSlot { s with trace := s.trace ++ pre.map (Event.Call f) }
      (pre.map some).length = some (some a) :=
    readSlot_append_cons _ (pre.map some) (post.map some) (some a) hm
  have hread2 : readSlot s2 (pre.map some).length = some x :=
    readSlot_append_cons _ (pre.map some) (post.map some) x hm2
  have ha2 : runActions e (h f a)
      (Emitter.log (Event.Call f a) { s with trace := s.trace ++ pre.map (Event.Call f) })
        = some s2 := ha
  simp only [hread1, ha2, hread2]
  have hpost2 : ∀ r, some r ∈ post.map some → ∀ t, runActions e (h f r) { s2 with trace := t }
      = some { s2 with trace := t } := by
    intro r hr t
    exact hpost r (by simpa using hr) t
  cases x with
  | none =>
    have step3 := emitVectorLoop_noeffect e h f (post.map some) (pre.map some ++ [none]) []
      0 true s2 (by simpa using hm2) hpost2
    simp only [List.length_map, Nat.add_zero, List.length_append, List.length_singleton,
      reduceOption_map_some, any_isNone_map_some, Bool.or_false] at step3
    simp only [List.length_map]
    rw [step3, emitVectorLoop]
    rfl
  | some y =>
    have step3 := emitVectorLoop_noeffect e h f (post.map some) (pre.map some ++ [some y]) []
      0 false s2 (by simpa using hm2) hpost2
    simp only [List.length_map, Nat.add_zero, List.length_append, List.length_singleton,
      reduceOption_map_some, any_isNone_map_some, Bool.or_false] at step3
    simp only [List.length_map]
    rw [step3, emitVectorLoop]
    rfl

/-- An outermost emission in which every handler leaves the emitter as it is. -/
theorem emit_outer_noeffect (h : Handlers) (n : Nat) (f : Func) (s : Emitter)
    (hemit : s.m_is_emitting = false)
    (hin : ∀ r, some r ∈ s.m_connected_receivers → ∀ t,
      runActions (Emit h n) (h f r) { s with m_is_emitting := true, trace := t }
        = some { s with m_is_emitting := true, trace := t }) :
    ∃ s1, Emit h (n + 1) f s = some s1 ∧
      s1.trace = s.trace ++ s.m_connected_receivers.reduceOption.map (Event.Call f) ∧
      s1.m_connected_receivers = s.m_connected_receivers.filter Option.isSome
          ++ s.m_additional_connected_receivers.map some ∧
      s1.m_additional_connected_receivers = [] ∧
      s1.m_is_emitting = false := by
  obtain ⟨s1, h1, a, b, c, d⟩ := emitConnected_noeffect_fields (Emit h n) h f s hin
  refine ⟨s1, ?_, a, ?_, ?_, ?_⟩
  · rw [Emit, emitAdditional_not_emitting _ _ _ _ hemit]; exact h1
  · simpa [hemit] using b
  · simpa [hemit] using c
  · rw [d, hemit]

/-! ## C5: a receiver connected from a handler -/

/-- First emission of the scenario of C5: the handler of `a` connects `d`. -/
theorem emit_with_connecting_handler (h : Handlers) (n : Nat) (f : Func) (s : Emitter)
    (pre post : List Receiver) (a d : Receiver)
    (hemit : s.m_is_emitting = false)
    (hmain : s.m_connected_receivers = (pre ++ a :: post).map some)
    (hstaged : s.m_additional_connected_receivers = [])
    (hd : d ∉ pre ++ a :: post)
    (ha : h f a = [Action.connect d])
    (hothers : ∀ r ∈ pre ++ post, h f r = []) :
    ∃ s1, Emit h (n + 1) f s = some s1 ∧
      s1.trace = s.trace ++ pre.map (Event.Call f)
          ++ [Event.Call f a, Event.OnConnected d] ++ post.map (Event.Call f) ∧
      s1.m_connected_receivers = (pre ++ a :: post ++ [d]).map some ∧
      s1.m_additional_connected_receivers = [] ∧
      s1.m_is_emitting = false := by
  obtain ⟨em, main, staged, vac, tr⟩ := s
  simp only at hemit hmain hstaged
  subst hemit hstaged
  have hm : main = pre.map some ++ some a :: post.map some := by rw [hmain]; simp
  have hfind : findSlot d main = none := by
    rw [hmain]; exact findSlot_map_some_of_not_mem d _ hd
  have hloop := emitVectorLoop_one_active (Emit h n) h f pre post a (some a)
    { m_is_emitting := true, m_connected_receivers := main,
      m_additional_connected_receivers := [], vacated := vac, trace := tr }
    { m_is_emitting := true, m_connected_receivers := main,
      m_additional_connected_receivers := [d], vacated := vac,
      trace := tr ++ pre.map (Event.Call f) ++ [Event.Call f a] ++ [Event.OnConnected d] }
    hm
    (fun r hr t => by rw [hothers r (by simp [hr])]; rfl)
    (by
      rw [ha]
      simp only [runActions]
      rw [Connect_of_not_found d _ hfind]
      simp [Emitter.log, setInsert])
    hm
    (fun r hr t => by rw [hothers r (by simp [hr])]; rfl)
  obtain ⟨a1, b1, c1, d1⟩ := finishEmit_false
    { m_is_emitting := true, m_connected_receivers := main,
      m_additional_connected_receivers := [d], vacated := vac,
      trace := tr ++ pre.map (Event.Call f) ++ [Event.Call f a] ++ [Event.OnConnected d]
        ++ post.map (Event.Call f) }
  refine ⟨_, ?_, ?_, ?_, b1, c1⟩
  · rw [Emit, emitAdditional_not_emitting _ _ _ _ rfl]
    simp only [emitConnected, hloop]
    rfl
  · rw [d1]; simp
  · rw [a1, hmain]; simp

/-- C5: when the handler of a receiver `a` of a non-reentrant `Emit` connects a
receiver `d` that is not subscribed, `d` is put in the set of additional
receivers and notified `OnConnected` at once (inside the handler of `a`), the
handler of `d` is not called by that `Emit`, `d` is appended to the vector when
that `Emit` returns, and the next `Emit` calls the handler of `d` after those of
all the receivers that were in the vector before. -/
theorem C5_connect_during_emit_is_deferred (h : Handlers) (n m : Nat) (f : Func) (s : Emitter)
    (pre post : List Receiver) (a d : Receiver)
    (hemit : s.m_is_emitting = false)
    (hmain : s.m_connected_receivers = (pre ++ a :: post).map some)
    (hstaged : s.m_additional_connected_receivers = [])
    (hd : d ∉ pre ++ a :: post)
    (ha : h f a = [Action.connect d])
    (hothers : ∀ r ∈ pre ++ post, h f r = [])
    (hdh : h f d = []) :
    Connect d { s with m_is_emitting := true,
                       trace := s.trace ++ pre.map (Event.Call f) ++ [Event.Call f a] }
      = { s with m_is_emitting := true, m_additional_connected_receivers := [d],
                 trace := s.trace ++ pre.map (Event.Call f) ++ [Event.Call f a]
                   ++ [Event.OnConnected d] } ∧
    ∃ s1 s2, Emit h (n + 1) f s = some s1 ∧
      s1.trace = s.trace ++ pre.map (Event.Call f)
          ++ [Event.Call f a, Event.OnConnected d] ++ post.map (Event.Call f) ∧
      Event.Call f d ∉ pre.map (Event.Call f)
          ++ [Event.Call f a, Event.OnConnected d] ++ post.map (Event.Call f) ∧
      s1.m_connected_receivers = (pre ++ a :: post ++ [d]).map some ∧
      s1.m_additional_connected_receivers = [] ∧
      s1.m_is_emitting = false ∧
      Emit h (m + 1) f s1 = some s2 ∧
      s2.trace = s1.trace ++ (pre ++ a :: post ++ [d]).map (Event.Call f) ∧
      s2.m_connected_receivers = s1.m_connected_receivers := by
  constructor
  · have hfind : findSlot d s.m_connected_receivers = none := by
      rw [hmain]; exact findSlot_map_some_of_not_mem d _ hd
    have hc := Connect_of_not_found d
      { s with m_is_emitting := true,
               trace := s.trace ++ pre.map (Event.Call f) ++ [Event.Call f a] } hfind
    rw [hc]
    simp [Emitter.log, setInsert, hstaged]
  · obtain ⟨s1, e1, t1, m1, st1, em1⟩ :=
      emit_with_connecting_handler h n f s pre post a d hemit hmain hstaged hd ha hothers
    have hdfound : findSlot d s1.m_connected_receivers ≠ none := by
      rw [Ne, findSlot_eq_none_iff, m1]; simp
    obtain ⟨i, hi⟩ := Option.ne_none_iff_exists'.mp hdfound
    have hnoeff : ∀ r, some r ∈ s1.m_connected_receivers → ∀ t,
        runActions (Emit h m) (h f r) { s1 with m_is_emitting := true, trace := t }
          = some { s1 with m_is_emitting := true, trace := t } := by
      intro r hr t
      rw [m1] at hr
      have hr2 : r ∈ pre ++ a :: post ++ [d] := by simpa using hr
      by_cases hra : r = a
      · subst hra
        rw [ha]
        simp only [runActions]
        rw [Connect_of_found d { s1 with m_is_emitting := true, trace := t } i hi]
      · by_cases hrd : r = d
        · subst hrd; rw [hdh]; rfl
        · have : r ∈ pre ++ post := by
            simp only [List.mem_append, List.mem_cons, List.mem_singleton, List.not_mem_nil,
              or_false] at hr2 ⊢
            tauto
          rw [hothers r this]; rfl
    obtain ⟨s2, e2, t2, m2, _, _⟩ := emit_outer_noeffect h m f s1 em1 hnoeff
    refine ⟨s1, s2, e1, t1, ?_, m1, st1, em1, e2, ?_, ?_⟩
    · intro hmem
      simp only [List.mem_append, List.mem_map, List.mem_cons, List.mem_singleton,
        Event.Call.injEq, List.not_mem_nil, or_false, reduceCtorEq] at hmem
      apply hd
      simp only [List.mem_append, List.mem_cons]
      rcases hmem with (⟨r, hr, _, rfl⟩ | ⟨_, rfl⟩) | ⟨r, hr, _, rfl⟩
      · exact Or.inl hr
      · exact Or.inr (Or.inl rfl)
      · exact Or.inr (Or.inr hr)
    · rw [t2, m1, reduceOption_map_some]
    · rw [m2, st1, m1, filter_isSome_map_some]; simp

/-- C5 at a concrete emitter: vector `[1, 2, 3]`, the handler of `2` connects `9`. -/
theorem C5_connect_during_emit_is_deferred_witness :
    Connect 9 { Emitter.fresh with
        m_connected_receivers := [some 1, some 2, some 3], m_is_emitting := true,
        trace := [] ++ [1].map (Event.Call 0) ++ [Event.Call 0 2] }
      = { Emitter.fresh with
        m_connected_receivers := [some 1, some 2, some 3], m_is_emitting := true,
        m_additional_connected_receivers := [9],
        trace := [] ++ [1].map (Event.Call 0) ++ [Event.Call 0 2] ++ [Event.OnConnected 9] } ∧
    ∃ s1 s2, Emit (fun _ r => if r = 2 then [Action.connect 9] else []) 1 0
        { Emitter.fresh with m_connected_receivers := [some 1, some 2, some 3] } = some s1 ∧
      s1.trace = [] ++ [1].map (Event.Call 0)
          ++ [Event.Call 0 2, Event.OnConnected 9] ++ [3].map (Event.Call 0) ∧
      Event.Call 0 9 ∉ [1].map (Event.Call 0)
          ++ [Event.Call 0 2, Event.OnConnected 9] ++ [3].map (Event.Call 0) ∧
      s1.m_connected_receivers = ([1] ++ 2 :: [3] ++ [9]).map some ∧
      s1.m_additional_connected_receivers = [] ∧
      s1.m_is_emitting = false ∧
      Emit (fun _ r => if r = 2 then [Action.connect 9] else []) 1 0 s1 = some s2 ∧
      s2.trace = s1.trace ++ ([1] ++ 2 :: [3] ++ [9]).map (Event.Call 0) ∧
      s2.m_connected_receivers = s1.m_connected_receivers :=
  C5_connect_during_emit_is_deferred (fun _ r => if r = 2 then [Action.connect 9] else [])
    0 0 0 { Emitter.fresh with m_connected_receivers := [some 1, some 2, some 3] }
    [1] [3] 2 9 rfl rfl rfl (by decide) rfl (by decide) rfl

/-! ## C6: a receiver that disconnects itself from its own handler -/

theorem filter_isSome_tombstoned (pre post : List Receiver) :
    (pre.map some ++ none :: post.map some).filter Option.isSome = (pre ++ post).map some := by
  rw [List.filter_append, List.filter_cons, filter_isSome_map_some, filter_isSome_map_some]
  simp

/-- The second part of `Emit` when the handler of `a` disconnects `a` and the
other handlers of connected receivers call nothing. -/
theorem emitConnected_self_disconnect (e : Func → Emitter → Option Emitter) (h : Handlers)
    (f : Func) (s : Emitter) (pre post : List Receiver) (a : Receiver)
    (hmain : s.m_connected_receivers = (pre ++ a :: post).map some)
    (ha : h f a = [Action.disconnect a])
    (hothers : ∀ r ∈ pre ++ post, h f r = []) :
    ∃ s1, emitConnected (runActions e) h f s = some s1 ∧
      s1.trace = s.trace ++ pre.map (Event.Call f)
          ++ [Event.Call f a, Event.OnDisconnected a] ++ post.map (Event.Call f) ∧
      s1.m_connected_receivers = (pre ++ post).map some
          ++ (if s.m_is_emitting then [] else s.m_additional_connected_receivers.map some) ∧
      s1.m_additional_connected_receivers
          = (if s.m_is_emitting then s.m_additional_connected_receivers else []) ∧
      s1.m_is_emitting = s.m_is_emitting := by
  have hapre : a ∉ pre := by
    intro hmem
    have := hothers a (by simp [hmem])
    rw [ha] at this
    exact absurd this (by simp)
  obtain ⟨em, main, staged, vac, tr⟩ := s
  simp only at hmain
  have hm : main = pre.map some ++ some a :: post.map some := by rw [hmain]; simp
  have hfind : findSlot a main = some (pre.map some).length := by
    rw [hm]; exact findSlot_append_cons a _ _ (by simpa using hapre)
  have hdisc := Disconnect_of_found a
    { m_is_emitting := true, m_connected_receivers := main,
      m_additional_connected_receivers := staged, vacated := vac,
      trace := tr ++ pre.map (Event.Call f) ++ [Event.Call f a] } _ hfind
  have hset : main.set pre.length none = pre.map some ++ none :: post.map some := by
    have := set_append_cons (pre.map some) (post.map some) (some a) none
    rw [List.length_map] at this
    rw [hm]; exact this
  have hloop := emitVectorLoop_one_active e h f pre post a none
    { m_is_emitting := true, m_connected_receivers := main,
      m_additional_connected_receivers := staged, vacated := vac, trace := tr }
    { m_is_emitting := true,
      m_connected_receivers := pre.map some ++ none :: post.map some,
      m_additional_connected_receivers := staged, vacated := vac,
      trace := tr ++ pre.map (Event.Call f) ++ [Event.Call f a] ++ [Event.OnDisconnected a] }
    hm
    (fun r hr t => by rw [hothers r (by simp [hr])]; rfl)
    (by
      rw [ha]
      simp only [runActions]
      rw [hdisc]
      simp [Emitter.log, hset])
    rfl
    (fun r hr t => by rw [hothers r (by simp [hr])]; rfl)
  obtain ⟨a0, b0, c0, d0⟩ := cleanup_spec
    { m_is_emitting := true,
      m_connected_receivers := pre.map some ++ none :: post.map some,
      m_additional_connected_receivers := staged, vacated := vac,
      trace := tr ++ pre.map (Event.Call f) ++ [Event.Call f a] ++ [Event.OnDisconnected a]
        ++ post.map (Event.Call f) }
  simp only at a0 b0 c0 d0
  rw [filter_isSome_tombstoned] at a0
  refine ⟨finishEmit em (CleanupConnectedReceivers
    { m_is_emitting := true,
      m_connected_receivers := pre.map some ++ none :: post.map some,
      m_additional_connected_receivers := staged, vacated := vac,
      trace := tr ++ pre.map (Event.Call f) ++ [Event.Call f a] ++ [Event.OnDisconnected a]
        ++ post.map (Event.Call f) }), ?_, ?_⟩
  · simp only [emitConnected, hloop]
    rfl
  · cases em with
    | false =>
      obtain ⟨a1, b1, c1, d1⟩ := finishEmit_false (CleanupConnectedReceivers
        { m_is_emitting := true,
          m_connected_receivers := pre.map some ++ none :: post.map some,
          m_additional_connected_receivers := staged, vacated := vac,
          trace := tr ++ pre.map (Event.Call f) ++ [Event.Call f a] ++ [Event.OnDisconnected a]
            ++ post.map (Event.Call f) })
      simp only [Option.isNone_none, if_true, Bool.false_eq_true, if_false]
      refine ⟨?_, ?_, b1, c1⟩
      · rw [d1, d0]; simp
      · rw [a1, a0, c0]
    | true =>
      simp only [Option.isNone_none, if_true, finishEmit_true, List.append_nil]
      refine ⟨?_, a0, c0, trivial⟩
      rw [d0]; simp

/-- On a vector without null slot: when, during an `Emit` (outermost or nested),
the handler of a receiver `a` of the vector disconnects `a` itself and no other
handler calls anything, `Emit` returns, `a` gets exactly one `OnDisconnected`
(right after the one call of its handler), every other receiver of the vector
is called once in order, `a` is removed from the vector, and
`GetConnectedReceiversCount` is one less than at entry. -/
theorem emit_self_disconnect_of_no_null_slot (h : Handlers) (n : Nat) (f : Func) (s : Emitter)
    (pre post : List Receiver) (a : Receiver)
    (hmain : s.m_connected_receivers = (pre ++ a :: post).map some)
    (ha : h f a = [Action.disconnect a])
    (hothers : ∀ r ∈ pre ++ post, h f r = [])
    (hadd : ∀ r ∈ s.m_additional_connected_receivers, h f r = []) :
    ∃ s1, Emit h (n + 1) f s = some s1 ∧
      s1.trace = s.trace
          ++ (if s.m_is_emitting then s.m_additional_connected_receivers.map (Event.Call f)
              else [])
          ++ pre.map (Event.Call f)
          ++ [Event.Call f a, Event.OnDisconnected a] ++ post.map (Event.Call f) ∧
      s1.m_connected_receivers = (pre ++ post).map some
          ++ (if s.m_is_emitting then [] else s.m_additional_connected_receivers.map some) ∧
      s1.m_additional_connected_receivers
          = (if s.m_is_emitting then s.m_additional_connected_receivers else []) ∧
      s1.m_is_emitting = s.m_is_emitting ∧
      GetConnectedReceiversCount s1 + 1 = GetConnectedReceiversCount s := by
  cases hem : s.m_is_emitting with
  | false =>
    obtain ⟨s1, e1, t1, m1, st1, em1⟩ :=
      emitConnected_self_disconnect (Emit h n) h f s pre post a hmain ha hothers
    rw [hem] at m1 st1 em1
    simp only [Bool.false_eq_true, if_false] at m1 st1 ⊢
    refine ⟨s1, ?_, ?_, m1, st1, em1, ?_⟩
    · rw [Emit, emitAdditional_not_emitting _ _ _ _ hem]; exact e1
    · rw [t1]; simp
    · simp only [GetConnectedReceiversCount, m1, st1, hmain]
      simp
      omega
  | true =>
    obtain ⟨s1, e1, t1, m1, st1, em1⟩ :=
      emitConnected_self_disconnect (Emit h n) h f
        { s with trace := s.trace ++ s.m_additional_connected_receivers.map (Event.Call f) }
        pre post a hmain ha hothers
    simp only [hem, if_true, List.append_nil] at m1 st1 em1 ⊢
    refine ⟨s1, ?_, t1, m1, st1, em1, ?_⟩
    · rw [Emit, emitAdditional_inert _ _ _ _ hem hadd]; exact e1
    · simp only [GetConnectedReceiversCount, m1, st1, hmain]
      simp
      omega

/-- The self-disconnect at a concrete emitter: vector `[1, 2, 3]`, the handler of
`2` disconnects `2`. -/
theorem emit_self_disconnect_of_no_null_slot_example :
    ∃ s1, Emit (fun _ r => if r = 2 then [Action.disconnect 2] else []) 1 0
        { Emitter.fresh with m_connected_receivers := [some 1, some 2, some 3] } = some s1 ∧
      s1.trace = [] ++ [] ++ [1].map (Event.Call 0)
          ++ [Event.Call 0 2, Event.OnDisconnected 2] ++ [3].map (Event.Call 0) ∧
      s1.m_connected_receivers = ([1] ++ [3]).map some ++ [] ∧
      s1.m_additional_connected_receivers = [] ∧
      s1.m_is_emitting = false ∧
      GetConnectedReceiversCount s1 + 1 = GetConnectedReceiversCount
        { Emitter.fresh with m_connected_receivers := [some 1, some 2, some 3] } :=
  emit_self_disconnect_of_no_null_slot
    (fun _ r => if r = 2 then [Action.disconnect 2] else [])
    0 0 { Emitter.fresh with m_connected_receivers := [some 1, some 2, some 3] }
    [1] [3] 2 rfl rfl (by decide) (by decide)

/-- C6 (defect): the count of connected receivers does not always drop by
exactly one when a receiver disconnects itself from its own handler.  The state
reached by connecting `1`, `2` and `3` and emitting with a handler of `2` that
disconnects `1` is not emitting and has the vector `[null, 2, 3]`, with a count
of three.  In the next `Emit` the handler of `2` disconnects `2` and no other
handler calls anything: `2` gets one `OnDisconnected` and is not called again,
`3` is called once, and the compaction removes both null slots, so the count at
return is one, two less than at entry. -/
theorem C6_self_disconnect_drops_count_by_two :
    Reachable
      { m_is_emitting := false, m_connected_receivers := [none, some 2, some 3],
        m_additional_connected_receivers := [], vacated := [],
        trace := [Event.OnConnected 1, Event.OnConnected 2, Event.OnConnected 3,
                  Event.Call 0 1, Event.Call 0 2, Event.OnDisconnected 1,
                  Event.Call 0 3] } ∧
    GetConnectedReceiversCount
      { m_is_emitting := false, m_connected_receivers := [none, some 2, some 3],
        m_additional_connected_receivers := [], vacated := [],
        trace := [Event.OnConnected 1, Event.OnConnected 2, Event.OnConnected 3,
                  Event.Call 0 1, Event.Call 0 2, Event.OnDisconnected 1,
                  Event.Call 0 3] } = 3 ∧
    Emit handlersSelfDisconnect 1 0
        { m_is_emitting := false, m_connected_receivers := [none, some 2, some 3],
          m_additional_connected_receivers := [], vacated := [],
          trace := [Event.OnConnected 1, Event.OnConnected 2, Event.OnConnected 3,
                    Event.Call 0 1, Event.Call 0 2, Event.OnDisconnected 1,
                    Event.Call 0 3] }
      = some { m_is_emitting := false, m_connected_receivers := [some 3],
               m_additional_connected_receivers := [], vacated := [some 3, some 3],
               trace := [Event.OnConnected 1, Event.OnConnected 2, Event.OnConnected 3,
                         Event.Call 0 1, Event.Call 0 2, Event.OnDisconnected 1,
                         Event.Call 0 3,
                         Event.Call 0 2, Event.OnDisconnected 2, Event.Call 0 3] } ∧
    GetConnectedReceiversCount
      { m_is_emitting := false, m_connected_receivers := [some 3],
        m_additional_connected_receivers := [], vacated := [some 3, some 3],
        trace := [Event.OnConnected 1, Event.OnConnected 2, Event.OnConnected 3,
                  Event.Call 0 1, Event.Call 0 2, Event.OnDisconnected 1,
                  Event.Call 0 3,
                  Event.Call 0 2, Event.OnDisconnected 2, Event.Call 0 3] } = 1 := by
  refine ⟨?_, by decide, by decide, by decide⟩
  exact Reachable.emit handlersDisconnectEarlier 1 0
    (Reachable.connect 3 (Reachable.connect 2 (Reachable.connect 1 Reachable.fresh)))
    (by decide)

/-! ## C7: the example of the specification -/

/-- C7: with the vector `[A, B, C]` and a handler of `B` that disconnects `C` and
connects `D`, the first `Emit(f)` calls `f` on `A` and `B` only, `C` gets one
`OnDisconnected` and `D` one `OnConnected`, and the vector is `[A, B, D]` with an
empty set of additional receivers afterwards; a second `Emit(f)` with inert
handlers calls `f` on `A`, `B`, `D` in that order (`A = 1`, `B = 2`, `C = 3`,
`D = 4`, `f = 0`). -/
theorem C7_example_disconnect_and_connect_in_handler :
    Emit handlersExample 1 0
        { Emitter.fresh with m_connected_receivers := [some 1, some 2, some 3] }
      = some { m_is_emitting := false, m_connected_receivers := [some 1, some 2, some 4],
               m_additional_connected_receivers := [], vacated := [],
               trace := [Event.Call 0 1, Event.Call 0 2,
                         Event.OnDisconnected 3, Event.OnConnected 4] } ∧
    Emit inert 1 0
        { m_is_emitting := false, m_connected_receivers := [some 1, some 2, some 4],
          m_additional_connected_receivers := [], vacated := [],
          trace := [Event.Call 0 1, Event.Call 0 2,
                    Event.OnDisconnected 3, Event.OnConnected 4] }
      = some { m_is_emitting := false, m_connected_receivers := [some 1, some 2, some 4],
               m_additional_connected_receivers := [], vacated := [],
               trace := [Event.Call 0 1, Event.Call 0 2,
                         Event.OnDisconnected 3, Event.OnConnected 4,
                         Event.Call 0 1, Event.Call 0 2, Event.Call 0 4] } := by
  constructor <;> decide

/-! ## C8: order of a nested emission -/

/-- C9 (defect): with the vector `[1, 2, 3]`, the handler of function `0` in
receiver `1` disconnects `1` and emits function `1`.  The nested `Emit` meets the
null slot and compacts the vector to `[2, 3]` while the outer loop is at slot
`0`; the outer loop goes on with slot `1`, which now holds `3`, and then reads
the vacated slot `2`.  Receiver `2`, subscribed all along and located after
the current slot, is never called with function `0`. -/
theorem C9_outer_loop_skips_after_nested_compaction :
    Emit handlersNestedAfterDisconnect 2 0
        { Emitter.fresh with m_connected_receivers := [some 1, some 2, some 3] }
      = some { m_is_emitting := false, m_connected_receivers := [some 2, some 3],
               m_additional_connected_receivers := [], vacated := [some 3],
               trace := [Event.Call 0 1, Event.OnDisconnected 1,
                         Event.Call 1 2, Event.Call 1 3,
                         Event.Call 0 3, Event.Call 0 3] } ∧
    (Emit handlersNestedAfterDisconnect 2 0
        { Emitter.fresh with m_connected_receivers := [some 1, some 2, some 3] }).map
      (fun s => (decide (some 2 ∈ s.m_connected_receivers), callsOf 0 s.trace))
      = some (true, [1, 3, 3]) := by
  constructor
  · decide
  · decide

/-! ## C10: handlers called on receivers that are no longer subscribed -/

/-- C10 (defect): the nested `Emit` iterates a copy of the set of additional
receivers and never looks at the set again.  With the vector `[1]`, the handler
of function `0` in `1` connects `4` and `5` and emits function `1`; the handler
of function `1` in `4` disconnects `5`, which leaves `5` in neither the vector
nor the set; the nested `Emit` then calls the handler of `5` all the same. -/
theorem C10_handler_called_after_disconnect_of_additional :
    Disconnect 5
        { m_is_emitting := true, m_connected_receivers := [some 1],
          m_additional_connected_receivers := [4, 5], vacated := [],
          trace := [Event.Call 0 1, Event.OnConnected 4, Event.OnConnected 5, Event.Call 1 4] }
      = { m_is_emitting := true, m_connected_receivers := [some 1],
          m_additional_connected_receivers := [4], vacated := [],
          trace := [Event.Call 0 1, Event.OnConnected 4, Event.OnConnected 5, Event.Call 1 4] } ∧
    Emit handlersDisconnectAdditional 1 1
        { m_is_emitting := true, m_connected_receivers := [some 1],
          m_additional_connected_receivers := [4, 5], vacated := [],
          trace := [Event.Call 0 1, Event.OnConnected 4, Event.OnConnected 5] }
      = some { m_is_emitting := true, m_connected_receivers := [some 1],
               m_additional_connected_receivers := [4], vacated := [],
               trace := [Event.Call 0 1, Event.OnConnected 4, Event.OnConnected 5,
                         Event.Call 1 4, Event.Call 1 5, Event.Call 1 1] } ∧
    Emit handlersDisconnectAdditional 2 0
        { Emitter.fresh with m_connected_receivers := [some 1] }
      = some { m_is_emitting := false, m_connected_receivers := [some 1, some 4],
               m_additional_connected_receivers := [], vacated := [],
               trace := [Event.Call 0 1, Event.OnConnected 4, Event.OnConnected 5,
                         Event.Call 1 4, Event.Call 1 5, Event.Call 1 1] } := by
  refine ⟨?_, ?_, ?_⟩ <;> decide

/-! ## C11: disconnecting a receiver that is only in the set of additional receivers -/

/-- C11: for an emitter that is emitting and a receiver `r` that is in the set of
additional receivers and not in the vector, `Disconnect` removes `r` from the
set (the other elements stay), leaves the vector, `m_is_emitting` and the trace
as they were (so no `OnDisconnected` is issued), and the count of connected
receivers goes down. -/
theorem C11_disconnect_of_additional_receiver_is_silent (s : Emitter) (r : Receiver)
    (hemit : s.m_is_emitting = true)
    (hmain : some r ∉ s.m_connected_receivers)
    (hstaged : r ∈ s.m_additional_connected_receivers) :
    Disconnect r s
      = { s with m_additional_connected_receivers :=
                   setErase r s.m_additional_connected_receivers } ∧
    r ∉ setErase r s.m_additional_connected_receivers ∧
    (∀ x, x ≠ r → (x ∈ setErase r s.m_additional_connected_receivers
        ↔ x ∈ s.m_additional_connected_receivers)) ∧
    GetConnectedReceiversCount (Disconnect r s) < GetConnectedReceiversCount s := by
  have hfind : findSlot r s.m_connected_receivers = none :=
    (findSlot_eq_none_iff r _).mpr hmain
  have hd : Disconnect r s
      = { s with m_additional_connected_receivers :=
                   setErase r s.m_additional_connected_receivers } := by
    rw [Disconnect_of_not_found r s hfind, hemit]; rfl
  refine ⟨hd, ?_, ?_, ?_⟩
  · simp [setErase]
  · intro x hx
    simp [setErase, hx]
  · rw [hd]
    simp only [GetConnectedReceiversCount, setErase]
    apply Nat.add_lt_add_left
    rw [List.length_filter_lt_length_iff_exists]
    exact ⟨r, hstaged, by simp⟩

/-- C11 at a concrete emitting emitter with additional receivers `4` and `5`. -/
theorem C11_disconnect_of_additional_receiver_is_silent_witness :
    Disconnect 5
        { m_is_emitting := true, m_connected_receivers := [some 1],
          m_additional_connected_receivers := [4, 5], vacated := [],
          trace := [Event.Call 0 1, Event.OnConnected 4, Event.OnConnected 5] }
      = { m_is_emitting := true, m_connected_receivers := [some 1],
          m_additional_connected_receivers := setErase 5 [4, 5], vacated := [],
          trace := [Event.Call 0 1, Event.OnConnected 4, Event.OnConnected 5] } ∧
    5 ∉ setErase 5 [4, 5] ∧
    (∀ x, x ≠ 5 → (x ∈ setErase 5 [4, 5] ↔ x ∈ [4, 5])) ∧
    GetConnectedReceiversCount (Disconnect 5
        { m_is_emitting := true, m_connected_receivers := [some 1],
          m_additional_connected_receivers := [4, 5], vacated := [],
          trace := [Event.Call 0 1, Event.OnConnected 4, Event.OnConnected 5] })
      < GetConnectedReceiversCount
        { m_is_emitting := true, m_connected_receivers := [some 1],
          m_additional_connected_receivers := [4, 5], vacated := [],
          trace := [Event.Call 0 1, Event.OnConnected 4, Event.OnConnected 5] } :=
  C11_disconnect_of_additional_receiver_is_silent _ 5 rfl (by decide) (by decide)

/-! ## The special member functions -/

theorem connectLoop_eq : ∀ (l : List (Option Receiver)) (s : Emitter),
    connectLoop l s
      = { s with trace := s.trace ++ l.reduceOption.map Event.OnConnected } := by
  intro l
  induction l with
  | nil => intro s; simp [connectLoop]
  | cons x l ih =>
    intro s
    cases x with
    | none => simp [connectLoop, ih, List.reduceOption_cons_of_none]
    | some r => simp [connectLoop, ih, List.reduceOption_cons_of_some, Emitter.log]

theorem ConnectReceivers_eq (s : Emitter) :
    ConnectReceivers s
      = { s with trace := s.trace
            ++ s.m_connected_receivers.reduceOption.map Event.OnConnected } :=
  connectLoop_eq _ s

/-- `Disconnect` on an emitter whose vector is empty notifies nobody. -/
theorem Disconnect_on_empty (q : Receiver) (s : Emitter) (hm : s.m_connected_receivers = []) :
    (Disconnect q s).m_connected_receivers = [] ∧
    (Disconnect q s).trace = s.trace ∧
    (Disconnect q s).m_is_emitting = s.m_is_emitting ∧
    (s.m_is_emitting = false →
      (Disconnect q s).m_additional_connected_receivers
        = s.m_additional_connected_receivers) := by
  have hfind : findSlot q s.m_connected_receivers = none := by rw [hm]; rfl
  rw [Disconnect_of_not_found q s hfind]
  obtain ⟨em, main, st, vac, tr⟩ := s
  cases em <;> simp_all

theorem applyOps_disconnects_on_empty : ∀ (ops : List Op) (s : Emitter),
    (∀ o ∈ ops, ∃ q, o = Op.disconnect q) → s.m_connected_receivers = [] →
    (applyOps ops s).m_connected_receivers = [] ∧
    (applyOps ops s).trace = s.trace ∧
    (applyOps ops s).m_is_emitting = s.m_is_emitting ∧
    (s.m_is_emitting = false →
      (applyOps ops s).m_additional_connected_receivers
        = s.m_additional_connected_receivers) := by
  intro ops
  induction ops with
  | nil => intro s _ hm; exact ⟨hm, rfl, rfl, fun _ => rfl⟩
  | cons o ops ih =>
    intro s hops hm
    obtain ⟨q, hq⟩ := hops o (by simp)
    subst hq
    obtain ⟨a, b, c, d⟩ := Disconnect_on_empty q s hm
    obtain ⟨a2, b2, c2, d2⟩ := ih (Disconnect q s) (fun o ho => hops o (by simp [ho])) a
    refine ⟨a2, ?_, ?_, ?_⟩
    · exact b2.trans b
    · exact c2.trans c
    · intro he
      exact (d2 (c.trans he)).trans (d he)

/-- The loop of `DisconnectReceivers` when the callbacks call nothing but
`Disconnect`: one `OnDisconnected` per non-null entry, in order, and the emptied
vector stays empty. -/
theorem disconnectLoop_spec (hook : Hooks)
    (hhook : ∀ r, ∀ o ∈ hook r, ∃ q, o = Op.disconnect q) :
    ∀ (l : List (Option Receiver)) (s : Emitter), s.m_connected_receivers = [] →
      (disconnectLoop hook l s).m_connected_receivers = [] ∧
      (disconnectLoop hook l s).trace
        = s.trace ++ l.reduceOption.map Event.OnDisconnected ∧
      (disconnectLoop hook l s).m_is_emitting = s.m_is_emitting ∧
      (s.m_is_emitting = false →
        (disconnectLoop hook l s).m_additional_connected_receivers
          = s.m_additional_connected_receivers) := by
  intro l
  induction l with
  | nil => intro s hm; exact ⟨hm, by simp [disconnectLoop], rfl, fun _ => rfl⟩
  | cons x l ih =>
    intro s hm
    cases x with
    | none =>
      simp only [disconnectLoop, List.reduceOption_cons_of_none]
      exact ih s hm
    | some r =>
      obtain ⟨a, b, c, d⟩ := applyOps_disconnects_on_empty (hook r)
        (Emitter.log (Event.OnDisconnected r) s) (hhook r) hm
      obtain ⟨a2, b2, c2, d2⟩ := ih _ a
      simp only [disconnectLoop, List.reduceOption_cons_of_some]
      refine ⟨a2, ?_, ?_, ?_⟩
      · rw [b2, b]; simp [Emitter.log]
      · rw [c2, c]; rfl
      · intro he
        rw [d2 (c.trans he), d he]; rfl

theorem DisconnectReceivers_spec (hook : Hooks) (s : Emitter)
    (hhook : ∀ r, ∀ o ∈ hook r, ∃ q, o = Op.disconnect q) :
    (DisconnectReceivers hook s).2 = s.m_connected_receivers ∧
    (DisconnectReceivers hook s).1.m_connected_receivers = [] ∧
    (DisconnectReceivers hook s).1.trace
      = s.trace ++ s.m_connected_receivers.reduceOption.map Event.OnDisconnected ∧
    (DisconnectReceivers hook s).1.m_is_emitting = s.m_is_emitting ∧
    (s.m_is_emitting = false →
      (DisconnectReceivers hook s).1.m_additional_connected_receivers
        = s.m_additional_connected_receivers) := by
  obtain ⟨a, b, c, d⟩ := disconnectLoop_spec hook hhook s.m_connected_receivers
    { s with m_connected_receivers := [], vacated := [] } rfl
  exact ⟨rfl, a, b, c, d⟩

/-! ## C12: move construction -/

/-- C12: move-constructing the emitter at `d` from the emitter at `s` (callbacks
calling at most `Disconnect`) issues `OnDisconnected(s)` to every non-null entry
of the vector of `s` in order, then `OnConnected(d)` to the same entries in
order, and nothing else; the vector of `d` is the old vector of `s`, the vector
of `s` is empty, and `d` starts not emitting with no additional receiver. -/
theorem C12_move_construct_notifies_disconnect_then_connect (hook : Hooks) (w : Heap)
    (d s : EmitterId) (hds : d ≠ s)
    (hhook : ∀ r, ∀ o ∈ hook r, ∃ q, o = Op.disconnect q) :
    (moveConstruct hook w d s).order
      = w.order
        ++ (w.objects s).m_connected_receivers.reduceOption.map
            (fun r => (s, Event.OnDisconnected r))
        ++ (w.objects s).m_connected_receivers.reduceOption.map
            (fun r => (d, Event.OnConnected r)) ∧
    ((moveConstruct hook w d s).objects d).m_connected_receivers
      = (w.objects s).m_connected_receivers ∧
    ((moveConstruct hook w d s).objects s).m_connected_receivers = [] ∧
    ((moveConstruct hook w d s).objects d).m_additional_connected_receivers = [] ∧
    ((moveConstruct hook w d s).objects d).m_is_emitting = false := by
  obtain ⟨h2, hmain, htrace, _, _⟩ := DisconnectReceivers_spec hook (w.objects s) hhook
  have hsd : s ≠ d := fun e => hds e.symm
  simp only [moveConstruct, Heap.store, Heap.place, Function.update_same, ConnectReceivers_eq,
    Function.update_noteq hsd, h2, hmain, htrace]
  refine ⟨?_, trivial, trivial, ?_, ?_⟩
  · simp [Emitter.fresh, Function.comp_def]
  · simp [Emitter.fresh]
  · simp [Emitter.fresh]

/-- C12 on the example heap: the emitter at `2` is move-constructed from the one at `1`. -/
theorem C12_move_construct_notifies_disconnect_then_connect_witness :
    (moveConstruct noHooks heapExample 2 1).order
      = heapExample.order
        ++ (heapExample.objects 1).m_connected_receivers.reduceOption.map
            (fun r => (1, Event.OnDisconnected r))
        ++ (heapExample.objects 1).m_connected_receivers.reduceOption.map
            (fun r => (2, Event.OnConnected r)) ∧
    ((moveConstruct noHooks heapExample 2 1).objects 2).m_connected_receivers
      = (heapExample.objects 1).m_connected_receivers ∧
    ((moveConstruct noHooks heapExample 2 1).objects 1).m_connected_receivers = [] ∧
    ((moveConstruct noHooks heapExample 2 1).objects 2).m_additional_connected_receivers = [] ∧
    ((moveConstruct noHooks heapExample 2 1).objects 2).m_is_emitting = false :=
  C12_move_construct_notifies_disconnect_then_connect noHooks heapExample 2 1 (by decide)
    (fun _ _ ho => absurd ho (by simp [noHooks]))

/-! ## C13: move assignment -/

/-- C13 (defect): move-assigning the emitter at `1` (vector `[10, 20]`) to the
fresh emitter at `2` moves the vector and notifies `OnConnected(2)` to `10` and
`20`, but no `OnDisconnected(1)` is issued: the operator takes the vector of the
source with `std::move` where the move constructor calls
`other.DisconnectReceivers()`. -/
theorem C13_move_assign_does_not_notify_source_receivers :
    (moveAssign noHooks heapExample 2 1).order
      = [(2, Event.OnConnected 10), (2, Event.OnConnected 20)] ∧
    ((moveAssign noHooks heapExample 2 1).objects 2).m_connected_receivers
      = [some 10, some 20] ∧
    ((moveAssign noHooks heapExample 2 1).objects 1).m_connected_receivers = [] ∧
    ((moveAssign noHooks heapExample 2 1).objects 1).trace = [] ∧
    (moveConstruct noHooks heapExample 2 1).order
      = [(1, Event.OnDisconnected 10), (1, Event.OnDisconnected 20),
         (2, Event.OnConnected 10), (2, Event.OnConnected 20)] := by
  refine ⟨?_, ?_, ?_, ?_, ?_⟩ <;> decide

/-! ## C14: copy construction -/

/-- C14: copy-constructing the emitter at `c` from the emitter at `s` gives `c`
the vector of `s`, an empty set of additional receivers and `m_is_emitting`
false whatever those of `s` are; the callbacks issued are one `OnConnected(c)`
per non-null entry in vector order and nothing else; `s` is unchanged. -/
theorem C14_copy_construct (w : Heap) (c s : EmitterId) (hcs : c ≠ s) :
    ((copyConstruct w c s).objects c).m_connected_receivers
      = (w.objects s).m_connected_receivers ∧
    ((copyConstruct w c s).objects c).m_additional_connected_receivers = [] ∧
    ((copyConstruct w c s).objects c).m_is_emitting = false ∧
    (copyConstruct w c s).order
      = w.order ++ (w.objects s).m_connected_receivers.reduceOption.map
          (fun r => (c, Event.OnConnected r)) ∧
    (copyConstruct w c s).objects s = w.objects s := by
  have hsc : s ≠ c := fun e => hcs e.symm
  simp only [copyConstruct, Heap.store, Heap.place, Function.update_same, ConnectReceivers_eq,
    Function.update_noteq hsc]
  refine ⟨trivial, ?_, ?_, ?_, trivial⟩
  · simp [Emitter.fresh]
  · simp [Emitter.fresh]
  · simp [Emitter.fresh, Function.comp_def]

/-- C14 on the example heap: the emitter at `3` is copy-constructed from the one at `1`. -/
theorem C14_copy_construct_witness :
    ((copyConstruct heapExample 3 1).objects 3).m_connected_receivers
      = (heapExample.objects 1).m_connected_receivers ∧
    ((copyConstruct heapExample 3 1).objects 3).m_additional_connected_receivers = [] ∧
    ((copyConstruct heapExample 3 1).objects 3).m_is_emitting = false ∧
    (copyConstruct heapExample 3 1).order
      = heapExample.order ++ (heapExample.objects 1).m_connected_receivers.reduceOption.map
          (fun r => (3, Event.OnConnected r)) ∧
    (copyConstruct heapExample 3 1).objects 1 = heapExample.objects 1 :=
  C14_copy_construct heapExample 3 1 (by decide)

/-! ## C15: copy assignment -/

/-- C15: copy-assigning the emitter at `s` to a distinct emitter at `t` (callbacks
calling at most `Disconnect`) first issues `OnDisconnected(t)` to every non-null
entry of the old vector of `t` in order, then makes the vector of `t` a copy of
the vector of `s` and issues `OnConnected(t)` to its non-null entries in order;
nothing else is issued and `s` is unchanged. -/
theorem C15_copy_assign (hook : Hooks) (w : Heap) (t s : EmitterId) (hts : t ≠ s)
    (hhook : ∀ r, ∀ o ∈ hook r, ∃ q, o = Op.disconnect q) :
    (copyAssign hook w t s).order
      = w.order
        ++ (w.objects t).m_connected_receivers.reduceOption.map
            (fun r => (t, Event.OnDisconnected r))
        ++ (w.objects s).m_connected_receivers.reduceOption.map
            (fun r => (t, Event.OnConnected r)) ∧
    ((copyAssign hook w t s).objects t).m_connected_receivers
      = (w.objects s).m_connected_receivers ∧
    (copyAssign hook w t s).objects s = w.objects s := by
  obtain ⟨_, _, htrace, _, _⟩ := DisconnectReceivers_spec hook (w.objects t) hhook
  have hst : s ≠ t := fun e => hts e.symm
  simp only [copyAssign, hts, if_false, Heap.store, Heap.place, Function.update_same,
    ConnectReceivers_eq, Function.update_noteq hst, htrace]
  refine ⟨?_, trivial, trivial⟩
  simp [Function.comp_def]

/-- C15 on the example heap: the emitter at `2` is copy-assigned to the one at `1`. -/
theorem C15_copy_assign_witness :
    (copyAssign noHooks heapExample 1 2).order
      = heapExample.order
        ++ (heapExample.objects 1).m_connected_receivers.reduceOption.map
            (fun r => (1, Event.OnDisconnected r))
        ++ (heapExample.objects 2).m_connected_receivers.reduceOption.map
            (fun r => (1, Event.OnConnected r)) ∧
    ((copyAssign noHooks heapExample 1 2).objects 1).m_connected_receivers
      = (heapExample.objects 2).m_connected_receivers ∧
    (copyAssign noHooks heapExample 1 2).objects 2 = heapExample.objects 2 :=
  C15_copy_assign noHooks heapExample 1 2 (by decide)
    (fun _ _ ho => absurd ho (by simp [noHooks]))

/-! ## C16: destruction -/

/-- C16: destroying the emitter at `a`, with callbacks that call at most
`Disconnect` on it, issues exactly one `OnDisconnected(a)` per non-null entry of
its vector, in vector order, and no other notification; the vector is left
empty, and for an emitter that is not emitting the `Disconnect` calls of the
callbacks change nothing. -/
theorem C16_destroy_notifies_each_receiver_once (hook : Hooks) (w : Heap) (a : EmitterId)
    (hhook : ∀ r, ∀ o ∈ hook r, ∃ q, o = Op.disconnect q) :
    (destroy hook w a).order
      = w.order ++ (w.objects a).m_connected_receivers.reduceOption.map
          (fun r => (a, Event.OnDisconnected r)) ∧
    ((destroy hook w a).objects a).m_connected_receivers = [] ∧
    ((w.objects a).m_is_emitting = false →
      ((destroy hook w a).objects a).m_additional_connected_receivers
        = (w.objects a).m_additional_connected_receivers) ∧
    (∀ b, b ≠ a → (destroy hook w a).objects b = w.objects b) := by
  obtain ⟨_, hmain, htrace, _, hst⟩ := DisconnectReceivers_spec hook (w.objects a) hhook
  simp only [destroy, Heap.store, Function.update_same, htrace, hmain]
  refine ⟨?_, trivial, hst, ?_⟩
  · simp [Function.comp_def]
  · intro b hb
    exact Function.update_noteq hb _ _

/-- C16 on the example heap, with callbacks in which each receiver disconnects itself. -/
theorem C16_destroy_notifies_each_receiver_once_witness :
    (destroy (fun r => [Op.disconnect r]) heapExample 1).order
      = heapExample.order ++ (heapExample.objects 1).m_connected_receivers.reduceOption.map
          (fun r => (1, Event.OnDisconnected r)) ∧
    ((destroy (fun r => [Op.disconnect r]) heapExample 1).objects 1).m_connected_receivers
      = [] ∧
    ((heapExample.objects 1).m_is_emitting = false →
      ((destroy (fun r => [Op.disconnect r]) heapExample 1).objects 1).m_additional_connected_receivers
        = (heapExample.objects 1).m_additional_connected_receivers) ∧
    (∀ b, b ≠ 1 →
      (destroy (fun r => [Op.disconnect r]) heapExample 1).objects b = heapExample.objects b) :=
  C16_destroy_notifies_each_receiver_once (fun r => [Op.disconnect r]) heapExample 1
    (fun r o ho => ⟨r, by simpa using ho⟩)

/-! ## C17: self-assignment -/

/-- C17: copy-assigning or move-assigning an emitter to itself returns at the
address test: the heap (every object and the order of issued callbacks) is
unchanged, so no notification is issued and no member changes. -/
theorem C17_self_assignment_is_noop (hook : Hooks) (w : Heap) (a : EmitterId) :
    copyAssign hook w a a = w ∧ moveAssign hook w a a = w := by
  constructor
  · simp [copyAssign]
  · simp [moveAssign]

/-! ## C19: null slots after an outermost emission -/

/-- C19 (defect): with the vector `[1, 2]` and a handler of `2` that disconnects
`1`, the slot of `1` is nulled after the loop has passed it; the loop asks for a
compaction only when it meets a null slot, so the outermost `Emit` returns with
the null slot still in the vector (and counted by `GetConnectedReceiversCount`);
it is removed by the next `Emit` only. -/
theorem C19_null_slot_survives_outermost_emit :
    Emit handlersDisconnectEarlier 1 0
        { Emitter.fresh with m_connected_receivers := [some 1, some 2] }
      = some { m_is_emitting := false, m_connected_receivers := [none, some 2],
               m_additional_connected_receivers := [], vacated := [],
               trace := [Event.Call 0 1, Event.Call 0 2, Event.OnDisconnected 1] } ∧
    GetConnectedReceiversCount
        { m_is_emitting := false, m_connected_receivers := [none, some 2],
          m_additional_connected_receivers := [], vacated := [],
          trace := [Event.Call 0 1, Event.Call 0 2, Event.OnDisconnected 1] } = 2 ∧
    (Emit inert 1 0
        { m_is_emitting := false, m_connected_receivers := [none, some 2],
          m_additional_connected_receivers := [], vacated := [],
          trace := [Event.Call 0 1, Event.Call 0 2, Event.OnDisconnected 1] }).map
      (fun s => s.m_connected_receivers) = some [some 2] := by
  refine ⟨?_, ?_, ?_⟩ <;> decide

/-! ## C20: consistency of the bookkeeping in reachable states -/

theorem mem_setInsert (r x : Receiver) (xs : List Receiver) :
    x ∈ setInsert r xs ↔ x = r ∨ x ∈ xs := by
  induction xs with
  | nil => simp [setInsert]
  | cons y ys ih =>
    unfold setInsert
    split
    · simp
    · split
      · next hry => subst hry; simp
      · simp only [List.mem_cons, ih]
        tauto

theorem setInsert_pairwise (r : Receiver) (xs : List Receiver)
    (h : xs.Pairwise (fun a b => a < b)) :
    (setInsert r xs).Pairwise (fun a b => a < b) := by
  induction xs with
  | nil => simp [setInsert]
  | cons y ys ih =>
    obtain ⟨hy, hys⟩ := List.pairwise_cons.mp h
    unfold setInsert
    split
    · next hlt =>
      refine List.pairwise_cons.mpr ⟨?_, h⟩
      intro a ha
      rcases List.mem_cons.mp ha with rfl | ha
      · exact hlt
      · exact Nat.lt_trans hlt (hy a ha)
    · split
      · exact h
      · next hnlt hne =>
        refine List.pairwise_cons.mpr ⟨?_, ih hys⟩
        intro a ha
        rcases (mem_setInsert r a ys).mp ha with rfl | ha
        · exact Nat.lt_of_le_of_ne (Nat.le_of_not_lt hnlt) (fun e => hne e.symm)
        · exact hy a ha

theorem reduceOption_set_none_sublist : ∀ (l : List (Option Receiver)) (i : Nat),
    (l.set i none).reduceOption.Sublist l.reduceOption := by
  intro l
  induction l with
  | nil => intro i; simp
  | cons x l ih =>
    intro i
    cases i with
    | zero =>
      cases x with
      | none => simp
      | some r => simp [List.reduceOption_cons_of_some, List.reduceOption_cons_of_none]
    | succ i =>
      cases x with
      | none => simpa [List.reduceOption_cons_of_none] using ih i
      | some r => simpa [List.reduceOption_cons_of_some] using ih i

theorem reduceOption_eraseIdx_sublist (l : List (Option Receiver)) (i : Nat) :
    (l.eraseIdx i).reduceOption.Sublist l.reduceOption :=
  List.Sublist.filterMap id (List.eraseIdx_sublist l i)

theorem mem_of_mem_set_none (l : List (Option Receiver)) (i : Nat) (r : Receiver)
    (h : some r ∈ l.set i none) : some r ∈ l := by
  rcases List.mem_or_eq_of_mem_set h with h | h
  · exact h
  · exact absurd h (by simp)

theorem Consistent_log (e : Event) (s : Emitter) (h : Consistent s) :
    Consistent (Emitter.log e s) := h

theorem Consistent_Connect (r : Receiver) (s : Emitter) (h : Consistent s) :
    Consistent (Connect r s) := by
  cases hf : findSlot r s.m_connected_receivers with
  | some i => rw [Connect_of_found r s i hf]; exact h
  | none =>
    have hnot : some r ∉ s.m_connected_receivers := (findSlot_eq_none_iff r _).mp hf
    rw [Connect_of_not_found r s hf]
    obtain ⟨em, main, st, vac, tr⟩ := s
    obtain ⟨h1, h2, h3, h4⟩ := h
    simp only at h1 h2 h3 h4 hnot
    cases em with
    | true =>
      refine ⟨h1, setInsert_pairwise r st h2, ?_, ?_⟩
      · intro x hx
        rcases (mem_setInsert r x st).mp hx with rfl | hx
        · exact hnot
        · exact h3 x hx
      · intro he; simp [Emitter.log] at he
    | false =>
      have hst : st = [] := h4 rfl
      subst hst
      refine ⟨?_, ?_, ?_, ?_⟩
      · simp only [Emitter.log, Bool.false_eq_true, if_false]
        rw [List.reduceOption_append, List.nodup_append]
        refine ⟨h1, by simp [List.reduceOption_cons_of_some], ?_⟩
        intro a ha hb
        simp only [List.reduceOption_cons_of_some, List.reduceOption_nil,
          List.mem_singleton] at hb
        subst hb
        exact hnot (List.reduceOption_mem_iff.mp ha)
      · simp [Emitter.log]
      · simp [Emitter.log]
      · simp [Emitter.log]

theorem Consistent_Disconnect (r : Receiver) (s : Emitter) (h : Consistent s) :
    Consistent (Disconnect r s) := by
  obtain ⟨h1, h2, h3, h4⟩ := h
  cases hf : findSlot r s.m_connected_receivers with
  | none =>
    rw [Disconnect_of_not_found r s hf]
    obtain ⟨em, main, st, vac, tr⟩ := s
    simp only at h1 h2 h3 h4
    cases em with
    | true =>
      refine ⟨h1, List.Pairwise.filter _ h2, ?_, ?_⟩
      · intro x hx
        exact h3 x (List.mem_of_mem_filter hx)
      · intro he; simp at he
    | false => exact ⟨h1, h2, h3, h4⟩
  | some i =>
    rw [Disconnect_of_found r s i hf]
    cases hem : s.m_is_emitting with
    | true =>
      obtain ⟨em, main, st, vac, tr⟩ := s
      simp only at h1 h2 h3 h4 hem
      subst hem
      refine ⟨?_, h2, ?_, ?_⟩
      · exact List.Nodup.sublist (reduceOption_set_none_sublist main i) h1
      · intro x hx hmem
        exact h3 x hx (mem_of_mem_set_none main i x hmem)
      · intro he; simp [Emitter.log] at he
    | false =>
      have hst : s.m_additional_connected_receivers = [] := h4 hem
      obtain ⟨f1, f2, _⟩ := vectorErase_frame i s
      have hmain : (vectorErase i s).m_connected_receivers.reduceOption.Sublist
          s.m_connected_receivers.reduceOption := by
        by_cases hne : s.m_connected_receivers = []
        · simp [vectorErase, hne]
        · rw [vectorErase_main i s hne]
          exact reduceOption_eraseIdx_sublist _ i
      simp only [Bool.false_eq_true, if_false]
      refine ⟨List.Nodup.sublist hmain h1, ?_, ?_, ?_⟩
      · show (vectorErase i s).m_additional_connected_receivers.Pairwise _
        rw [f2]; exact h2
      · intro x hx
        have hx2 : x ∈ (vectorErase i s).m_additional_connected_receivers := hx
        rw [f2, hst] at hx2
        exact absurd hx2 (by simp)
      · intro _
        show (vectorErase i s).m_additional_connected_receivers = []
        rw [f2]; exact hst

theorem Consistent_emitting (s : Emitter) (h : Consistent s) :
    Consistent { s with m_is_emitting := true } := by
  obtain ⟨h1, h2, h3, _⟩ := h
  exact ⟨h1, h2, h3, fun he => by simp at he⟩

theorem Consistent_cleanup (s : Emitter) (h : Consistent s) :
    Consistent (CleanupConnectedReceivers s) := by
  obtain ⟨h1, h2, h3, h4⟩ := h
  obtain ⟨a, b, c, _⟩ := cleanup_spec s
  refine ⟨?_, ?_, ?_, ?_⟩
  · rw [a]
    exact List.Nodup.sublist (List.Sublist.filterMap id (List.filter_sublist _)) h1
  · rw [c]; exact h2
  · intro r hr
    rw [c] at hr
    rw [a]
    intro hmem
    exact h3 r hr (List.mem_of_mem_filter hmem)
  · intro he
    rw [b] at he
    rw [c]; exact h4 he

theorem Consistent_finishEmit (was : Bool) (s : Emitter) (h : Consistent s) :
    Consistent (finishEmit was s) := by
  cases was with
  | true => rw [finishEmit_true]; exact Consistent_emitting s h
  | false =>
    obtain ⟨h1, h2, h3, _⟩ := h
    obtain ⟨a, b, c, _⟩ := finishEmit_false s
    refine ⟨?_, ?_, ?_, ?_⟩
    · rw [a, List.reduceOption_append, reduceOption_map_some, List.nodup_append]
      refine ⟨h1, ?_, ?_⟩
      · exact List.Pairwise.imp (fun hab => Nat.ne_of_lt hab) h2
      · intro x hx hx2
        exact h3 x hx2 (List.reduceOption_mem_iff.mp hx)
    · rw [b]; exact List.Pairwise.nil
    · intro r hr
      rw [b] at hr
      exact absurd hr (by simp)
    · intro _; exact b

/-- Handler scripts keep the bookkeeping consistent when nested emissions do. -/
theorem runActions_consistent (e : Func → Emitter → Option Emitter)
    (he : ∀ g s s1, Consistent s → e g s = some s1 → Consistent s1) :
    ∀ (acts : List Action) (s s1 : Emitter),
      Consistent s → runActions e acts s = some s1 → Consistent s1 := by
  intro acts
  induction acts with
  | nil =>
    intro s s1 hs hr
    simp only [runActions, Option.some.injEq] at hr
    exact hr ▸ hs
  | cons a rest ih =>
    intro s s1 hs hr
    cases a with
    | connect r =>
      simp only [runActions] at hr
      exact ih _ _ (Consistent_Connect r s hs) hr
    | disconnect r =>
      simp only [runActions] at hr
      exact ih _ _ (Consistent_Disconnect r s hs) hr
    | emit g =>
      simp only [runActions] at hr
      cases hg : e g s with
      | none => rw [hg] at hr; exact absurd hr (by simp)
      | some s2 =>
        rw [hg] at hr
        exact ih _ _ (he g s s2 hs hg) hr

theorem emitSetCopy_consistent (run : List Action → Emitter → Option Emitter) (h : Handlers)
    (f : Func)
    (hrun : ∀ acts s s1, Consistent s → run acts s = some s1 → Consistent s1) :
    ∀ (rs : List Receiver) (s s1 : Emitter),
      Consistent s → emitSetCopy run h f rs s = some s1 → Consistent s1 := by
  intro rs
  induction rs with
  | nil =>
    intro s s1 hs hr
    simp only [emitSetCopy, Option.some.injEq] at hr
    exact hr ▸ hs
  | cons r rest ih =>
    intro s s1 hs hr
    simp only [emitSetCopy] at hr
    cases hg : run (h f r) (Emitter.log (Event.Call f r) s) with
    | none => rw [hg] at hr; exact absurd hr (by simp)
    | some s2 =>
      rw [hg] at hr
      exact ih _ _ (hrun _ _ _ (Consistent_log _ s hs) hg) hr

theorem emitVectorLoop_consistent (run : List Action → Emitter → Option Emitter)
    (h : Handlers) (f : Func)
    (hrun : ∀ acts s s1, Consistent s → run acts s = some s1 → Consistent s1) :
    ∀ (k i : Nat) (flag : Bool) (s : Emitter) (res : Bool × Emitter),
      Consistent s → emitVectorLoop run h f k i flag s = some res → Consistent res.2 := by
  intro k
  induction k with
  | zero =>
    intro i flag s res hs hr
    simp only [emitVectorLoop, Option.some.injEq] at hr
    rw [← hr]; exact hs
  | succ k ih =>
    intro i flag s res hs hr
    rw [emitVectorLoop] at hr
    cases h1 : readSlot s i with
    | none => rw [h1] at hr; exact absurd hr (by simp)
    | some x =>
      rw [h1] at hr
      cases x with
      | none => exact ih _ _ _ _ hs hr
      | some r =>
        simp only at hr
        cases hg : run (h f r) (Emitter.log (Event.Call f r) s) with
        | none => rw [hg] at hr; exact absurd hr (by simp)
        | some s2 =>
          rw [hg] at hr
          have hs2 : Consistent s2 := hrun _ _ _ (Consistent_log _ s hs) hg
          simp only at hr
          cases h2 : readSlot s2 i with
          | none => rw [h2] at hr; exact absurd hr (by simp)
          | some y =>
            rw [h2] at hr
            cases y with
            | none => exact ih _ _ _ _ hs2 hr
            | some q => exact ih _ _ _ _ hs2 hr

theorem emitConnected_consistent (run : List Action → Emitter → Option Emitter)
    (h : Handlers) (f : Func)
    (hrun : ∀ acts s s1, Consistent s → run acts s = some s1 → Consistent s1)
    (s s1 : Emitter) (hs : Consistent s) (hr : emitConnected run h f s = some s1) :
    Consistent s1 := by
  unfold emitConnected at hr
  cases hl : emitVectorLoop run h f s.m_connected_receivers.length 0 false
      { s with m_is_emitting := true } with
  | none => rw [hl] at hr; exact absurd hr (by simp)
  | some res =>
    rw [hl] at hr
    obtain ⟨flag, s3⟩ := res
    have hs3 : Consistent s3 :=
      emitVectorLoop_consistent run h f hrun _ _ _ _ _ (Consistent_emitting s hs) hl
    simp only [Option.some.injEq] at hr
    rw [← hr]
    apply Consistent_finishEmit
    cases flag with
    | true => exact Consistent_cleanup s3 hs3
    | false => exact hs3

theorem emitAdditional_consistent (run : List Action → Emitter → Option Emitter)
    (h : Handlers) (f : Func)
    (hrun : ∀ acts s s1, Consistent s → run acts s = some s1 → Consistent s1)
    (s s1 : Emitter) (hs : Consistent s) (hr : emitAdditional run h f s = some s1) :
    Consistent s1 := by
  unfold emitAdditional at hr
  split at hr
  · exact emitSetCopy_consistent run h f hrun _ _ _ hs hr
  · simp only [Option.some.injEq] at hr
    exact hr ▸ hs

/-- `Emit` keeps the bookkeeping consistent, whatever the handlers do. -/
theorem Emit_consistent (h : Handlers) :
    ∀ (n : Nat) (f : Func) (s s1 : Emitter),
      Consistent s → Emit h n f s = some s1 → Consistent s1 := by
  intro n
  induction n with
  | zero => intro f s s1 _ hr; simp [Emit] at hr
  | succ n ih =>
    intro f s s1 hs hr
    have hrun := runActions_consistent (Emit h n) ih
    rw [Emit] at hr
    cases ha : emitAdditional (runActions (Emit h n)) h f s with
    | none => rw [ha] at hr; exact absurd hr (by simp)
    | some s2 =>
      rw [ha] at hr
      exact emitConnected_consistent _ h f hrun s2 s1
        (emitAdditional_consistent _ h f hrun s s2 hs ha) hr

theorem Reachable_consistent (s : Emitter) (hr : Reachable s) : Consistent s := by
  induction hr with
  | fresh =>
    exact ⟨by simp [Emitter.fresh], by simp [Emitter.fresh], by simp [Emitter.fresh],
      fun _ => rfl⟩
  | connect r _ ih => exact Consistent_Connect r _ ih
  | disconnect r _ ih => exact Consistent_Disconnect r _ ih
  | emit h n f _ he ih => exact Emit_consistent h n f _ _ ih he

theorem Consistent_subscriptions_nodup (s : Emitter) (h : Consistent s) :
    (subscriptions s).Nodup := by
  obtain ⟨h1, h2, h3, _⟩ := h
  unfold subscriptions
  rw [List.nodup_append]
  refine ⟨h1, List.Pairwise.imp (fun hab => Nat.ne_of_lt hab) h2, ?_⟩
  intro x hx hx2
  exact h3 x hx2 (List.reduceOption_mem_iff.mp hx)

/-- The loop over the vector run for `k + m` iterations is the loop run for `k`
iterations followed, from the state, the flag and the position it has then, by
the loop for `m` iterations: the result of `k` iterations from position `0` is
the state of the emitter when the loop gets to position `k`. -/
theorem emitVectorLoop_add (run : List Action → Emitter → Option Emitter) (h : Handlers)
    (f : Func) :
    ∀ (k m i : Nat) (flag : Bool) (s : Emitter),
      emitVectorLoop run h f (k + m) i flag s
        = (emitVectorLoop run h f k i flag s).bind
            (fun res => emitVectorLoop run h f m (i + k) res.1 res.2) := by
  intro k
  induction k with
  | zero => intro m i flag s; simp [emitVectorLoop]
  | succ k ih =>
    intro m i flag s
    have hkm : k + 1 + m = (k + m) + 1 := by omega
    have hik : i + (k + 1) = (i + 1) + k := by omega
    rw [hkm, hik, emitVectorLoop, emitVectorLoop]
    cases readSlot s i with
    | none => rfl
    | some x =>
      cases x with
      | none => exact ih m (i + 1) true s
      | some r =>
        simp only
        cases run (h f r) (Emitter.log (Event.Call f r) s) with
        | none => rfl
        | some s1 =>
          simp only
          cases readSlot s1 i with
          | none => rfl
          | some y =>
            cases y with
            | none => exact ih m (i + 1) true s1
            | some q => exact ih m (i + 1) flag s1

/-- The pass over the copy of the set, split at any element: the result of the
pass over the elements before it is the state in which its handler is started. -/
theorem emitSetCopy_append (run : List Action → Emitter → Option Emitter) (h : Handlers)
    (f : Func) :
    ∀ (pre post : List Receiver) (s : Emitter),
      emitSetCopy run h f (pre ++ post) s
        = (emitSetCopy run h f pre s).bind (emitSetCopy run h f post) := by
  intro pre
  induction pre with
  | nil => intro post s; simp [emitSetCopy]
  | cons r pre ih =>
    intro post s
    rw [List.cons_append, emitSetCopy, emitSetCopy]
    cases run (h f r) (Emitter.log (Event.Call f r) s) with
    | none => rfl
    | some s1 => exact ih post s1

/-- Every state of `Reachable` is a state of `Observed`. -/
theorem Observed_of_Reachable (s : Emitter) (hr : Reachable s) : Observed s := by
  induction hr with
  | fresh => exact Observed.fresh
  | connect r _ ih => exact Observed.connect r ih
  | disconnect r _ ih => exact Observed.disconnect r ih
  | emit h n f _ he ih => exact Observed.emit h n f ih he

/-- The bookkeeping is consistent in every state in which outside code or a
handler runs. -/
theorem Observed_consistent (s : Emitter) (ho : Observed s) : Consistent s := by
  induction ho with
  | fresh =>
    exact ⟨by simp [Emitter.fresh], by simp [Emitter.fresh], by simp [Emitter.fresh],
      fun _ => rfl⟩
  | connect r _ ih => exact Consistent_Connect r _ ih
  | disconnect r _ ih => exact Consistent_Disconnect r _ ih
  | emit h n f _ he ih => exact Emit_consistent h n f _ _ ih he
  | additionalCall h n f pre post r _ _ _ hcopy ih =>
    have hrun := runActions_consistent (Emit h n) (Emit_consistent h n)
    exact Consistent_log _ _ (emitSetCopy_consistent _ h f hrun pre _ _ ih hcopy)
  | connectedCall h n f k flag r _ hadd _ hloop _ ih =>
    have hrun := runActions_consistent (Emit h n) (Emit_consistent h n)
    have h1 := emitAdditional_consistent _ h f hrun _ _ ih hadd
    exact Consistent_log _ _
      (emitVectorLoop_consistent _ h f hrun k 0 false _ _ (Consistent_emitting _ h1) hloop)

/-- C20: in every state the emitter goes through from a default-constructed
emitter by `Connect`, `Disconnect` and `Emit` calls (handlers being arbitrary
scripts of `Connect`, `Disconnect` and `Emit` on the emitter), between the
calls made from outside as well as inside the handlers of an emission, where
the set of additional receivers is not empty, no receiver occurs twice among
the non-null slots of the vector and the set of additional receivers together. -/
theorem C20_no_duplicate_subscription (s : Emitter) (ho : Observed s) :
    (subscriptions s).Nodup :=
  Consistent_subscriptions_nodup s (Observed_consistent s ho)

/-- C20 inside a handler: after connecting `1` and `2`, an `Emit` starts the
handler of `1`, which disconnects `2`, connects `2` again and connects `5`.
The emitter is emitting, the slot of `2` in the vector is null, and the set of
additional receivers holds `2` and `5`. -/
theorem C20_no_duplicate_subscription_witness :
    Observed
      { m_is_emitting := true, m_connected_receivers := [some 1, none],
        m_additional_connected_receivers := [2, 5], vacated := [],
        trace := [Event.OnConnected 1, Event.OnConnected 2, Event.Call 0 1,
                  Event.OnDisconnected 2, Event.OnConnected 2, Event.OnConnected 5] } ∧
    (subscriptions
      { m_is_emitting := true, m_connected_receivers := [some 1, none],
        m_additional_connected_receivers := [2, 5], vacated := [],
        trace := [Event.OnConnected 1, Event.OnConnected 2, Event.Call 0 1,
                  Event.OnDisconnected 2, Event.OnConnected 2, Event.OnConnected 5] }).Nodup :=
  have ho : Observed
      { m_is_emitting := true, m_connected_receivers := [some 1, none],
        m_additional_connected_receivers := [2, 5], vacated := [],
        trace := [Event.OnConnected 1, Event.OnConnected 2, Event.Call 0 1,
                  Event.OnDisconnected 2, Event.OnConnected 2, Event.OnConnected 5] } :=
    Observed.connect 5 (Observed.connect 2 (Observed.disconnect 2
      (@Observed.connectedCall inert 0 0 0 false 1
        (Connect 2 (Connect 1 Emitter.fresh))
        (Connect 2 (Connect 1 Emitter.fresh))
        { Connect 2 (Connect 1 Emitter.fresh) with m_is_emitting := true }
        (Observed.connect 2 (Observed.connect 1 Observed.fresh))
        rfl (by decide) rfl rfl)))
  ⟨ho, C20_no_duplicate_subscription _ ho⟩

/-! ## C21: the set of additional receivers outside of emissions -/

/-- C21: in every state reached from a default-constructed emitter by `Connect`,
`Disconnect` and `Emit` calls in which `m_is_emitting` is false, the set of
additional receivers is empty. -/
theorem C21_additional_set_empty_when_not_emitting (s : Emitter) (hr : Reachable s)
    (hem : s.m_is_emitting = false) :
    s.m_additional_connected_receivers = [] :=
  (Reachable_consistent s hr).2.2.2 hem

/-- C21 at the state reached by connecting `1`, `2`, `3` and emitting with the
handlers of the example (the handler of `2` disconnects `3` and connects `4`). -/
theorem C21_additional_set_empty_when_not_emitting_witness :
    ({ m_is_emitting := false, m_connected_receivers := [some 1, some 2, some 4],
       m_additional_connected_receivers := [], vacated := [],
       trace := [Event.OnConnected 1, Event.OnConnected 2, Event.OnConnected 3,
                 Event.Call 0 1, Event.Call 0 2,
                 Event.OnDisconnected 3, Event.OnConnected 4] } :
      Emitter).m_additional_connected_receivers = [] :=
  C21_additional_set_empty_when_not_emitting _
    (Reachable.emit handlersExample 1 0
      (Reachable.connect 3 (Reachable.connect 2 (Reachable.connect 1 Reachable.fresh)))
      (by decide))
    rfl

/-! ## C23: what `Disconnect` changes in the vector -/

/-- C27 (defect): `GetConnectedReceiversCount` is the length of the vector plus
the size of the set, and the vector can keep a null slot after an outermost
`Emit`: the state reached by connecting `1` and `2` and emitting with a handler
of `2` that disconnects `1` is not emitting, has one subscribed receiver, and a
count of two. -/
theorem C27_count_includes_null_slot :
    Reachable
      { m_is_emitting := false, m_connected_receivers := [none, some 2],
        m_additional_connected_receivers := [], vacated := [],
        trace := [Event.OnConnected 1, Event.OnConnected 2,
                  Event.Call 0 1, Event.Call 0 2, Event.OnDisconnected 1] } ∧
    GetConnectedReceiversCount
      { m_is_emitting := false, m_connected_receivers := [none, some 2],
        m_additional_connected_receivers := [], vacated := [],
        trace := [Event.OnConnected 1, Event.OnConnected 2,
                  Event.Call 0 1, Event.Call 0 2, Event.OnDisconnected 1] } = 2 ∧
    subscriptions
      { m_is_emitting := false, m_connected_receivers := [none, some 2],
        m_additional_connected_receivers := [], vacated := [],
        trace := [Event.OnConnected 1, Event.OnConnected 2,
                  Event.Call 0 1, Event.Call 0 2, Event.OnDisconnected 1] } = [2] := by
  refine ⟨?_, by decide, by decide⟩
  exact Reachable.emit handlersDisconnectEarlier 1 0
    (Reachable.connect 2 (Reachable.connect 1 Reachable.fresh)) (by decide)

/-! ## C30: `SystemBase::GetNextGpuDevice` -/

/-- C30: `GetNextGpuDevice` returns the cyclic successor: for a device first
found at index `i` (here `pre.length`) of a list of `n` entries it returns the
entry at index `(i + 1) mod n`, which is the device itself when `n = 1`; it
returns a null pointer when the list is empty or the device is not in it. -/
theorem C30_next_gpu_device_is_cyclic_successor (d : Nat) :
    (∀ pre post : List (Option Nat), some d ∉ pre →
      SystemBase.GetNextGpuDevice (pre ++ some d :: post) d
        = ((pre ++ some d :: post)[(pre.length + 1) % (pre ++ some d :: post).length]?).join) ∧
    SystemBase.GetNextGpuDevice [some d] d = some d ∧
    SystemBase.GetNextGpuDevice [] d = none ∧
    (∀ l : List (Option Nat), some d ∉ l → SystemBase.GetNextGpuDevice l d = none) := by
  refine ⟨?_, ?_, ?_, ?_⟩
  · intro pre post hpre
    have hfind := findSlot_append_cons d pre post hpre
    have hne : (pre ++ some d :: post).isEmpty = false := by
      cases pre <;> rfl
    unfold SystemBase.GetNextGpuDevice
    rw [hne, hfind]
    simp only [Bool.false_eq_true, if_false]
    cases post with
    | nil =>
      have hlen : (pre ++ [some d]).length = pre.length + 1 := by simp
      have hlast : pre.length = (pre ++ [some d]).length - 1 := by rw [hlen]; rfl
      rw [if_pos hlast, hlen, Nat.mod_self]
      cases pre <;> simp
    | cons y ys =>
      have hlen : (pre ++ some d :: y :: ys).length = pre.length + 1 + (ys.length + 1) := by
        simp; omega
      have hnl : ¬ (pre.length = (pre ++ some d :: y :: ys).length - 1) := by
        rw [hlen]; omega
      rw [if_neg hnl, hlen, Nat.mod_eq_of_lt (by omega)]
  · simp [SystemBase.GetNextGpuDevice, findSlot]
  · simp [SystemBase.GetNextGpuDevice]
  · intro l hl
    have hfind : findSlot d l = none := (findSlot_eq_none_iff d l).mpr hl
    unfold SystemBase.GetNextGpuDevice
    rw [hfind]
    split <;> rfl

/-- C30 on a list of three devices: the successor of the last one is the first. -/
theorem C30_next_gpu_device_is_cyclic_successor_witness :
    SystemBase.GetNextGpuDevice ([some 7, some 8] ++ some 9 :: []) 9
      = (([some 7, some 8] ++ some 9 :: [])[([some 7, some 8].length + 1)
          % ([some 7, some 8] ++ some 9 :: []).length]?).join :=
  (C30_next_gpu_device_is_cyclic_successor 9).1 [some 7, some 8] [] (by decide)

/-! ## C25: `m_is_emitting` across an emission -/

theorem Connect_emitting (r : Receiver) (s : Emitter) :
    (Connect r s).m_is_emitting = s.m_is_emitting := by
  cases hf : findSlot r s.m_connected_receivers with
  | some i => rw [Connect_of_found r s i hf]
  | none =>
    rw [Connect_of_not_found r s hf]
    obtain ⟨em, main, st, vac, tr⟩ := s
    cases em <;> rfl

theorem Disconnect_emitting (r : Receiver) (s : Emitter) :
    (Disconnect r s).m_is_emitting = s.m_is_emitting := by
  cases hf : findSlot r s.m_connected_receivers with
  | none =>
    rw [Disconnect_of_not_found r s hf]
    obtain ⟨em, main, st, vac, tr⟩ := s
    cases em <;> rfl
  | some i =>
    rw [Disconnect_of_found r s i hf]
    cases hem : s.m_is_emitting with
    | true => rfl
    | false =>
      simp only [Bool.false_eq_true, if_false]
      show (vectorErase i s).m_is_emitting = false
      rw [(vectorErase_frame i s).1, hem]

theorem runActions_emitting (e : Func → Emitter → Option Emitter)
    (he : ∀ g s s1, e g s = some s1 → s1.m_is_emitting = s.m_is_emitting) :
    ∀ (acts : List Action) (s s1 : Emitter),
      runActions e acts s = some s1 → s1.m_is_emitting = s.m_is_emitting := by
  intro acts
  induction acts with
  | nil =>
    intro s s1 hr
    simp only [runActions, Option.some.injEq] at hr
    rw [← hr]
  | cons a rest ih =>
    intro s s1 hr
    cases a with
    | connect r =>
      simp only [runActions] at hr
      rw [ih _ _ hr, Connect_emitting]
    | disconnect r =>
      simp only [runActions] at hr
      rw [ih _ _ hr, Disconnect_emitting]
    | emit g =>
      simp only [runActions] at hr
      cases hg : e g s with
      | none => rw [hg] at hr; exact absurd hr (by simp)
      | some s2 =>
        rw [hg] at hr
        rw [ih _ _ hr, he g s s2 hg]

theorem emitSetCopy_emitting (run : List Action → Emitter → Option Emitter) (h : Handlers)
    (f : Func)
    (hrun : ∀ acts s s1, run acts s = some s1 → s1.m_is_emitting = s.m_is_emitting) :
    ∀ (rs : List Receiver) (s s1 : Emitter),
      emitSetCopy run h f rs s = some s1 → s1.m_is_emitting = s.m_is_emitting := by
  intro rs
  induction rs with
  | nil =>
    intro s s1 hr
    simp only [emitSetCopy, Option.some.injEq] at hr
    rw [← hr]
  | cons r rest ih =>
    intro s s1 hr
    simp only [emitSetCopy] at hr
    cases hg : run (h f r) (Emitter.log (Event.Call f r) s) with
    | none => rw [hg] at hr; exact absurd hr (by simp)
    | some s2 =>
      rw [hg] at hr
      rw [ih _ _ hr, hrun _ _ _ hg]; rfl

theorem emitAdditional_emitting (run : List Action → Emitter → Option Emitter)
    (h : Handlers) (f : Func)
    (hrun : ∀ acts s s1, run acts s = some s1 → s1.m_is_emitting = s.m_is_emitting)
    (s s1 : Emitter) (hr : emitAdditional run h f s = some s1) :
    s1.m_is_emitting = s.m_is_emitting := by
  unfold emitAdditional at hr
  split at hr
  · exact emitSetCopy_emitting run h f hrun _ _ _ hr
  · simp only [Option.some.injEq] at hr
    rw [← hr]

theorem finishEmit_emitting (was : Bool) (s : Emitter) :
    (finishEmit was s).m_is_emitting = was := by
  cases was with
  | true => rw [finishEmit_true]
  | false => exact (finishEmit_false s).2.2.1

theorem emitConnected_emitting (run : List Action → Emitter → Option Emitter)
    (h : Handlers) (f : Func) (s s1 : Emitter) (hr : emitConnected run h f s = some s1) :
    s1.m_is_emitting = s.m_is_emitting := by
  unfold emitConnected at hr
  cases hl : emitVectorLoop run h f s.m_connected_receivers.length 0 false
      { s with m_is_emitting := true } with
  | none => rw [hl] at hr; exact absurd hr (by simp)
  | some res =>
    rw [hl] at hr
    simp only [Option.some.injEq] at hr
    rw [← hr, finishEmit_emitting]

/-- `Emit` returns with `m_is_emitting` as it was at entry. -/
theorem Emit_emitting (h : Handlers) :
    ∀ (n : Nat) (f : Func) (s s1 : Emitter),
      Emit h n f s = some s1 → s1.m_is_emitting = s.m_is_emitting := by
  intro n
  induction n with
  | zero => intro f s s1 hr; simp [Emit] at hr
  | succ n ih =>
    intro f s s1 hr
    have hrun := runActions_emitting (Emit h n) ih
    rw [Emit] at hr
    cases ha : emitAdditional (runActions (Emit h n)) h f s with
    | none => rw [ha] at hr; exact absurd hr (by simp)
    | some s2 =>
      rw [ha] at hr
      rw [emitConnected_emitting _ h f s2 s1 hr,
        emitAdditional_emitting _ h f hrun s s2 ha]

/-- In the loop over the vector started in an emitting state, every handler is
started in an emitting state: restricting the runner to such states changes
nothing. -/
theorem emitVectorLoop_whileEmitting (run : List Action → Emitter → Option Emitter)
    (h : Handlers) (f : Func)
    (hrun : ∀ acts s s1, run acts s = some s1 → s1.m_is_emitting = s.m_is_emitting) :
    ∀ (k i : Nat) (flag : Bool) (s : Emitter), s.m_is_emitting = true →
      emitVectorLoop (whileEmitting run) h f k i flag s
        = emitVectorLoop run h f k i flag s := by
  intro k
  induction k with
  | zero => intro i flag s _; simp [emitVectorLoop]
  | succ k ih =>
    intro i flag s hem
    rw [emitVectorLoop, emitVectorLoop]
    cases h1 : readSlot s i with
    | none => rfl
    | some x =>
      cases x with
      | none => exact ih _ _ _ hem
      | some r =>
        have hlog : (Emitter.log (Event.Call f r) s).m_is_emitting = true := hem
        simp only [whileEmitting, hlog, if_true]
        cases hg : run (h f r) (Emitter.log (Event.Call f r) s) with
        | none => rfl
        | some s2 =>
          have hem2 : s2.m_is_emitting = true := by rw [hrun _ _ _ hg]; exact hem
          simp only
          cases h2 : readSlot s2 i with
          | none => rfl
          | some y =>
            cases y with
            | none => exact ih _ _ _ hem2
            | some q => exact ih _ _ _ hem2

theorem emitConnected_whileEmitting (run : List Action → Emitter → Option Emitter)
    (h : Handlers) (f : Func)
    (hrun : ∀ acts s s1, run acts s = some s1 → s1.m_is_emitting = s.m_is_emitting)
    (s : Emitter) :
    emitConnected (whileEmitting run) h f s = emitConnected run h f s := by
  unfold emitConnected
  rw [emitVectorLoop_whileEmitting run h f hrun _ _ _ _ rfl]

/-- C25: when `Emit` returns, `m_is_emitting` has the value it had at entry
(false after an outermost call, true after a nested one), and every handler of
the loop over the vector is started with `m_is_emitting` true: a runner that
fails when started in a non-emitting state gives the same second part of
`Emit`, for every state in which that part is entered. -/
theorem C25_emitting_restored_and_set_during_loop (h : Handlers) (n : Nat) (f : Func)
    (s s1 : Emitter) (hr : Emit h (n + 1) f s = some s1) :
    s1.m_is_emitting = s.m_is_emitting ∧
    (s.m_is_emitting = false → s1.m_is_emitting = false) ∧
    (s.m_is_emitting = true → s1.m_is_emitting = true) ∧
    (∀ s0, emitConnected (whileEmitting (runActions (Emit h n))) h f s0
      = emitConnected (runActions (Emit h n)) h f s0) := by
  have he := Emit_emitting h (n + 1) f s s1 hr
  refine ⟨he, fun h0 => he.trans h0, fun h0 => he.trans h0, ?_⟩
  intro s0
  exact emitConnected_whileEmitting _ h f
    (runActions_emitting (Emit h n) (Emit_emitting h n)) s0

/-- C25 on the example of the specification. -/
theorem C25_emitting_restored_and_set_during_loop_witness :
    ({ m_is_emitting := false, m_connected_receivers := [some 1, some 2, some 4],
       m_additional_connected_receivers := [], vacated := [],
       trace := [Event.Call 0 1, Event.Call 0 2,
                 Event.OnDisconnected 3, Event.OnConnected 4] } : Emitter).m_is_emitting
      = ({ Emitter.fresh with
            m_connected_receivers := [some 1, some 2, some 3] } : Emitter).m_is_emitting :=
  (C25_emitting_restored_and_set_during_loop handlersExample 0 0
    { Emitter.fresh with m_connected_receivers := [some 1, some 2, some 3] } _
    (by decide)).1

/-! ## C22: the end of `Emit` -/

/-- Decomposition of a returning `Emit`: the state `s0` after the pass over the
copy of the set, the result `(flag, s3)` of the loop over the vector, and the
final state, which is `finishEmit` with the value of `m_is_emitting` at entry. -/
theorem Emit_decompose (h : Handlers) (n : Nat) (f : Func) (s s1 : Emitter)
    (hr : Emit h (n + 1) f s = some s1) :
    ∃ s0 flag s3,
      emitAdditional (runActions (Emit h n)) h f s = some s0 ∧
      emitVectorLoop (runActions (Emit h n)) h f s0.m_connected_receivers.length 0 false
        { s0 with m_is_emitting := true } = some (flag, s3) ∧
      s1 = finishEmit s.m_is_emitting (if flag then CleanupConnectedReceivers s3 else s3) := by
  rw [Emit] at hr
  cases ha : emitAdditional (runActions (Emit h n)) h f s with
  | none => rw [ha] at hr; exact absurd hr (by simp)
  | some s0 =>
    rw [ha] at hr
    have hem : s0.m_is_emitting = s.m_is_emitting :=
      emitAdditional_emitting _ h f (runActions_emitting (Emit h n) (Emit_emitting h n)) s s0 ha
    have hr2 : emitConnected (runActions (Emit h n)) h f s0 = some s1 := hr
    unfold emitConnected at hr2
    cases hl : emitVectorLoop (runActions (Emit h n)) h f s0.m_connected_receivers.length 0
        false { s0 with m_is_emitting := true } with
    | none => rw [hl] at hr2; exact absurd hr2 (by simp)
    | some res =>
      rw [hl] at hr2
      obtain ⟨flag, s3⟩ := res
      simp only [Option.some.injEq] at hr2
      rw [hem] at hr2
      exact ⟨s0, flag, s3, rfl, hl, hr2.symm⟩

/-- C22: let `s4` be the state at the end of the loop over the vector of a
returning `Emit`, after the compaction when the loop asked for it.  For an
outermost `Emit` (not emitting at entry) the final vector is the vector of `s4`
followed by the additional receivers of `s4`, and the final set is empty; for a
nested `Emit` (emitting at entry) the final vector and set are those of `s4`. -/
theorem C22_additional_receivers_merged_by_outermost_emit_only (h : Handlers) (n : Nat)
    (f : Func) (s s1 : Emitter) (hr : Emit h (n + 1) f s = some s1) :
    ∃ s0 flag s3 s4,
      emitAdditional (runActions (Emit h n)) h f s = some s0 ∧
      emitVectorLoop (runActions (Emit h n)) h f s0.m_connected_receivers.length 0 false
        { s0 with m_is_emitting := true } = some (flag, s3) ∧
      s4 = (if flag then CleanupConnectedReceivers s3 else s3) ∧
      (s.m_is_emitting = false →
        s1.m_connected_receivers
          = s4.m_connected_receivers ++ s4.m_additional_connected_receivers.map some ∧
        s1.m_additional_connected_receivers = []) ∧
      (s.m_is_emitting = true →
        s1.m_connected_receivers = s4.m_connected_receivers ∧
        s1.m_additional_connected_receivers = s4.m_additional_connected_receivers) := by
  obtain ⟨s0, flag, s3, h0, h3, h1⟩ := Emit_decompose h n f s s1 hr
  refine ⟨s0, flag, s3, _, h0, h3, rfl, ?_, ?_⟩
  · intro hem
    rw [h1, hem]
    obtain ⟨a, b, _, _⟩ := finishEmit_false (if flag then CleanupConnectedReceivers s3 else s3)
    exact ⟨a, b⟩
  · intro hem
    rw [h1, hem, finishEmit_true]
    exact ⟨rfl, rfl⟩

/-- C22 on the example of the specification (an outermost `Emit`): at the end of
the loop the vector is `[1, 2, null]` and the set is `{4}`; the final vector is
the compacted vector followed by `4`. -/
theorem C22_additional_receivers_merged_by_outermost_emit_only_witness :
    ∃ s0 flag s3 s4,
      emitAdditional (runActions (Emit handlersExample 0)) handlersExample 0
        { Emitter.fresh with m_connected_receivers := [some 1, some 2, some 3] } = some s0 ∧
      emitVectorLoop (runActions (Emit handlersExample 0)) handlersExample 0
        s0.m_connected_receivers.length 0 false
        { s0 with m_is_emitting := true } = some (flag, s3) ∧
      s4 = (if flag then CleanupConnectedReceivers s3 else s3) ∧
      (({ Emitter.fresh with
          m_connected_receivers := [some 1, some 2, some 3] } : Emitter).m_is_emitting = false →
        ({ m_is_emitting := false, m_connected_receivers := [some 1, some 2, some 4],
           m_additional_connected_receivers := [], vacated := [],
           trace := [Event.Call 0 1, Event.Call 0 2,
                     Event.OnDisconnected 3, Event.OnConnected 4] } :
          Emitter).m_connected_receivers
          = s4.m_connected_receivers ++ s4.m_additional_connected_receivers.map some ∧
        ({ m_is_emitting := false, m_connected_receivers := [some 1, some 2, some 4],
           m_additional_connected_receivers := [], vacated := [],
           trace := [Event.Call 0 1, Event.Call 0 2,
                     Event.OnDisconnected 3, Event.OnConnected 4] } :
          Emitter).m_additional_connected_receivers = []) ∧
      (({ Emitter.fresh with
          m_connected_receivers := [some 1, some 2, some 3] } : Emitter).m_is_emitting = true →
        ({ m_is_emitting := false, m_connected_receivers := [some 1, some 2, some 4],
           m_additional_connected_receivers := [], vacated := [],
           trace := [Event.Call 0 1, Event.Call 0 2,
                     Event.OnDisconnected 3, Event.OnConnected 4] } :
          Emitter).m_connected_receivers = s4.m_connected_receivers ∧
        ({ m_is_emitting := false, m_connected_receivers := [some 1, some 2, some 4],
           m_additional_connected_receivers := [], vacated := [],
           trace := [Event.Call 0 1, Event.Call 0 2,
                     Event.OnDisconnected 3, Event.OnConnected 4] } :
          Emitter).m_additional_connected_receivers
          = s4.m_additional_connected_receivers) :=
  C22_additional_receivers_merged_by_outermost_emit_only handlersExample 0 0
    { Emitter.fresh with m_connected_receivers := [some 1, some 2, some 3] } _ (by decide)

/-! ## C28: alternation of the lifecycle notifications outside of emissions -/

theorem lifecycleOf_append (r : Receiver) (t u : List Event) :
    lifecycleOf r (t ++ u) = lifecycleOf r t ++ lifecycleOf r u := by
  simp [lifecycleOf]

theorem alternatingLifecycle_getLast (r : Receiver) (n : Nat) :
    (alternatingLifecycle r n).getLast? = some (Event.OnConnected r) ↔ n % 2 = 1 := by
  cases n with
  | zero => simp [alternatingLifecycle]
  | succ n =>
    simp only [alternatingLifecycle, List.getLast?_concat]
    by_cases hn : n % 2 = 0
    · simp [hn]; omega
    · simp [hn]; omega

/-- The trace after one outside call on a state that refines the subscriber list `l`. -/
theorem applyOp_trace (s : Emitter) (l : List Receiver) (o : Op)
    (hm : s.m_connected_receivers = l.map some) (hem : s.m_is_emitting = false) :
    (applyOp s o).trace = s.trace ++
      (match o with
       | Op.connect q => if q ∈ l then [] else [Event.OnConnected q]
       | Op.disconnect q => if q ∈ l then [Event.OnDisconnected q] else []) := by
  cases o with
  | connect q =>
    by_cases hq : q ∈ l
    · have hfind : findSlot q s.m_connected_receivers ≠ none := by
        rw [Ne, findSlot_eq_none_iff, hm]; simpa using hq
      obtain ⟨i, hi⟩ := Option.ne_none_iff_exists'.mp hfind
      simp only [applyOp, Connect_of_found q s i hi, hq, if_true, List.append_nil]
    · have hfind : findSlot q s.m_connected_receivers = none := by
        rw [hm]; exact findSlot_map_some_of_not_mem q l hq
      simp only [applyOp, Connect_of_not_found q s hfind, hq, if_false, hem]
      rfl
  | disconnect q =>
    by_cases hq : q ∈ l
    · have hfind : findSlot q s.m_connected_receivers ≠ none := by
        rw [Ne, findSlot_eq_none_iff, hm]; simpa using hq
      obtain ⟨i, hi⟩ := Option.ne_none_iff_exists'.mp hfind
      simp only [applyOp, Disconnect_of_found q s i hi, hq, if_true, hem]
      show (vectorErase i s).trace ++ _ = _
      rw [(vectorErase_frame i s).2.2]
    · have hfind : findSlot q s.m_connected_receivers = none := by
        rw [hm]; exact findSlot_map_some_of_not_mem q l hq
      simp only [applyOp, Disconnect_of_not_found q s hfind, hq, if_false, hem,
        List.append_nil]
      rfl

/-- One outside call keeps, for every receiver, the lifecycle notifications
alternating and their parity in step with the membership in the subscriber list. -/
theorem applyOp_lifecycle (s : Emitter) (l : List Receiver) (o : Op) (r : Receiver) (n : Nat)
    (hm : s.m_connected_receivers = l.map some) (hem : s.m_is_emitting = false)
    (hlife : lifecycleOf r s.trace = alternatingLifecycle r n)
    (hpar : r ∈ l ↔ n % 2 = 1) :
    ∃ n1, lifecycleOf r (applyOp s o).trace = alternatingLifecycle r n1 ∧
      (r ∈ subscribeStep l o ↔ n1 % 2 = 1) := by
  rw [applyOp_trace s l o hm hem, lifecycleOf_append, hlife]
  cases o with
  | connect q =>
    by_cases hq : q ∈ l
    · refine ⟨n, ?_, ?_⟩
      · simp [hq, lifecycleOf]
      · simp [subscribeStep, hq, hpar]
    · by_cases hrq : r = q
      · subst hrq
        have hn : n % 2 = 0 := by
          have : ¬ (n % 2 = 1) := fun e => hq (hpar.mpr e)
          omega
        refine ⟨n + 1, ?_, ?_⟩
        · simp [hq, lifecycleOf, alternatingLifecycle, hn]
        · simp [subscribeStep, hq]; omega
      · have hqr : ¬ (q = r) := fun e => hrq e.symm
        refine ⟨n, ?_, ?_⟩
        · simp [hq, lifecycleOf, hqr]
        · simp [subscribeStep, hq, hrq, hpar]
  | disconnect q =>
    by_cases hq : q ∈ l
    · by_cases hrq : r = q
      · subst hrq
        have hn : n % 2 = 1 := hpar.mp hq
        refine ⟨n + 1, ?_, ?_⟩
        · have hn0 : ¬ (n % 2 = 0) := by omega
          simp [hq, lifecycleOf, alternatingLifecycle, hn0]
        · simp [subscribeStep]; omega
      · have hqr : ¬ (q = r) := fun e => hrq e.symm
        refine ⟨n, ?_, ?_⟩
        · simp [hq, lifecycleOf, hqr]
        · simp [subscribeStep, hrq, hpar]
    · refine ⟨n, ?_, ?_⟩
      · simp [hq, lifecycleOf]
      · have : subscribeStep l (Op.disconnect q) = l := filter_ne_of_not_mem q l hq
        rw [this]; exact hpar

theorem applyOps_lifecycle (r : Receiver) :
    ∀ (ops : List Op) (s : Emitter) (l : List Receiver) (n : Nat),
      s.m_connected_receivers = l.map some → l.Nodup →
      s.m_additional_connected_receivers = [] → s.m_is_emitting = false →
      lifecycleOf r s.trace = alternatingLifecycle r n → (r ∈ l ↔ n % 2 = 1) →
      ∃ n1, lifecycleOf r (applyOps ops s).trace = alternatingLifecycle r n1 ∧
        (r ∈ ops.foldl subscribeStep l ↔ n1 % 2 = 1) := by
  intro ops
  induction ops with
  | nil => intro s l n _ _ _ _ hlife hpar; exact ⟨n, hlife, hpar⟩
  | cons o ops ih =>
    intro s l n hm hnd hst hem hlife hpar
    obtain ⟨a, b, c, d⟩ := applyOp_refines s l o hm hnd hst hem
    obtain ⟨n1, e1, e2⟩ := applyOp_lifecycle s l o r n hm hem hlife hpar
    exact ih (applyOp s o) (subscribeStep l o) n1 a b c d e1 e2

/-- C28: after any sequence of `Connect` and `Disconnect` calls made on a fresh
emitter outside of any emission, the lifecycle notifications of every receiver
`r` are the strictly alternating sequence `OnConnected, OnDisconnected, ...`
starting with `OnConnected`, and `r` is in the vector exactly when the last of
them is `OnConnected`. -/
theorem C28_lifecycle_notifications_alternate (ops : List Op) (r : Receiver) :
    ∃ n, lifecycleOf r (applyOps ops Emitter.fresh).trace = alternatingLifecycle r n ∧
      (some r ∈ (applyOps ops Emitter.fresh).m_connected_receivers
        ↔ (lifecycleOf r (applyOps ops Emitter.fresh).trace).getLast?
            = some (Event.OnConnected r)) := by
  obtain ⟨n, e1, e2⟩ := applyOps_lifecycle r ops Emitter.fresh [] 0 rfl List.nodup_nil rfl rfl
    rfl (by simp)
  obtain ⟨a, _, _, _⟩ := applyOps_refines ops Emitter.fresh [] rfl List.nodup_nil rfl rfl
  refine ⟨n, e1, ?_⟩
  rw [e1, alternatingLifecycle_getLast, a, ← e2]
  simp

/-! ## C29: a receiver disconnected and connected again by a handler -/

/-- The loop over the vector when the handlers before slot `a` leave the emitter
as it is, the handler of `a` takes it to `s2` (whose vector has the same length,
with `x` in the slot of `a`), and the handlers of the non-null slots after `a`
in `s2` leave `s2` as it is. -/
theorem emitVectorLoop_one_acting (e : Func → Emitter → Option Emitter) (h : Handlers)
    (f : Func) (pre : List Receiver) (a : Receiver) (post : List (Option Receiver))
    (x : Option Receiver) (pre2 rest2 : List (Option Receiver)) (s s2 : Emitter)
    (hm : s.m_connected_receivers = pre.map some ++ some a :: post)
    (hpre : ∀ r ∈ pre, ∀ t, runActions e (h f r) { s with trace := t }
        = some { s with trace := t })
    (ha : runActions e (h f a)
        { s with trace := s.trace ++ pre.map (Event.Call f) ++ [Event.Call f a] } = some s2)
    (hm2 : s2.m_connected_receivers = pre2 ++ x :: rest2)
    (hl1 : pre2.length = pre.length) (hl2 : rest2.length = post.length)
    (hpost : ∀ r, some r ∈ rest2 → ∀ t, runActions e (h f r) { s2 with trace := t }
        = some { s2 with trace := t }) :
    emitVectorLoop (runActions e) h f s.m_connected_receivers.length 0 false s
      = some (x.isNone || rest2.any Option.isNone,
          { s2 with trace := s2.trace ++ rest2.reduceOption.map (Event.Call f) }) := by
  have hlen : s.m_connected_receivers.length = (pre.map some).length + (post.length + 1) := by
    rw [hm]; simp
  have hpre2 : ∀ r, some r ∈ pre.map some → ∀ t, runActions e (h f r) { s with trace := t }
      = some { s with trace := t } := by
    intro r hr t
    exact hpre r (by simpa using hr) t
  have step1 := emitVectorLoop_noeffect e h f (pre.map some) [] (some a :: post)
    (post.length + 1) false s (by simpa using hm) hpre2
  simp only [List.length_nil, Nat.zero_add, reduceOption_map_some, any_isNone_map_some,
    Bool.or_false] at step1
  rw [hlen, step1, emitVectorLoop]
  have hread1 : readSlot { s with trace := s.trace ++ pre.map (Event.Call f) }
      (pre.map some).length = some (some a) :=
    readSlot_append_cons _ (pre.map some) post (some a) hm
  have hidx : (pre.map some).length = pre2.length := by rw [hl1]; simp
  have hread2 : readSlot s2 (pre.map some).length = some x := by
    rw [hidx]; exact readSlot_append_cons _ pre2 rest2 x hm2
  have ha2 : runActions e (h f a)
      (Emitter.log (Event.Call f a) { s with trace := s.trace ++ pre.map (Event.Call f) })
        = some s2 := ha
  simp only [hread1, ha2, hread2]
  have hnext : (pre.map some).length + 1 = (pre2 ++ [x]).length := by rw [hidx]; simp
  have hm3 : s2.m_connected_receivers = (pre2 ++ [x]) ++ rest2 ++ [] := by simp [hm2]
  have hk : post.length = rest2.length + 0 := by rw [hl2]; rfl
  cases x with
  | none =>
    have step3 := emitVectorLoop_noeffect e h f rest2 (pre2 ++ [none]) [] 0 true s2 hm3 hpost
    simp only
    rw [hnext, hk, step3, emitVectorLoop]
    simp
  | some y =>
    have step3 := emitVectorLoop_noeffect e h f rest2 (pre2 ++ [some y]) [] 0 false s2 hm3 hpost
    simp only
    rw [hnext, hk, step3, emitVectorLoop]
    simp

theorem map_nullOut_of_not_mem (r : Receiver) (p : List Receiver) (hp : r ∉ p) :
    p.map (nullOut r) = p.map some := by
  apply List.map_congr_left
  intro x hx
  have : x ≠ r := fun e => hp (e ▸ hx)
  simp [nullOut, this]

theorem set_none_eq_map_nullOut (r : Receiver) (l : List Receiver) (hnd : l.Nodup)
    (hr : r ∈ l) :
    ∃ i, findSlot r (l.map some) = some i ∧ (l.map some).set i none = l.map (nullOut r) := by
  obtain ⟨p, q, hl, hp⟩ := List.eq_append_cons_of_mem hr
  have hq : r ∉ q := by
    intro hmem
    rw [hl] at hnd
    exact (List.nodup_cons.mp (List.nodup_append.mp hnd).2.1).1 hmem
  have hmap : l.map some = p.map some ++ some r :: q.map some := by rw [hl]; simp
  refine ⟨(p.map some).length, ?_, ?_⟩
  · rw [hmap]; exact findSlot_append_cons r _ _ (by simpa using hp)
  · rw [hmap, set_append_cons, hl, List.map_append, List.map_cons,
      map_nullOut_of_not_mem r p hp, map_nullOut_of_not_mem r q hq]
    simp [nullOut]

theorem not_mem_map_nullOut (r : Receiver) (l : List Receiver) :
    some r ∉ l.map (nullOut r) := by
  intro hmem
  obtain ⟨x, _, hx⟩ := List.mem_map.mp hmem
  unfold nullOut at hx
  split at hx
  · exact absurd hx (by simp)
  · next hne => exact hne (Option.some.inj hx)

theorem mem_of_mem_map_nullOut (r q : Receiver) (l : List Receiver)
    (hmem : some q ∈ l.map (nullOut r)) : q ∈ l := by
  obtain ⟨x, hx, hxq⟩ := List.mem_map.mp hmem
  unfold nullOut at hxq
  split at hxq
  · exact absurd hxq (by simp)
  · exact (Option.some.inj hxq) ▸ hx

theorem reduceOption_map_nullOut (r : Receiver) (l : List Receiver) :
    (l.map (nullOut r)).reduceOption = l.filter (fun x => x ≠ r) := by
  induction l with
  | nil => rfl
  | cons x l ih =>
    rw [List.map_cons, List.filter_cons]
    by_cases hx : x = r
    · have h1 : nullOut r x = none := by simp [nullOut, hx]
      have h2 : decide (x ≠ r) = false := by simp [hx]
      rw [h1, List.reduceOption_cons_of_none, ih, h2]
      rfl
    · have h1 : nullOut r x = some x := by simp [nullOut, hx]
      have h2 : decide (x ≠ r) = true := by simp [hx]
      rw [h1, List.reduceOption_cons_of_some, ih, h2]
      rfl

theorem reduceOption_filter_isSome (m : List (Option Receiver)) :
    (m.filter Option.isSome).reduceOption = m.reduceOption := by
  induction m with
  | nil => rfl
  | cons x m ih =>
    cases x with
    | none => simpa [List.reduceOption_cons_of_none] using ih
    | some y => simp [List.reduceOption_cons_of_some, ih]

/-- C29: in a non-reentrant `Emit` over a vector `before ++ a :: after` without
null slot and without repeated receiver, when the handler of `a` calls
`Disconnect(r)` and then `Connect(r)` for a receiver `r` of the vector (before
`a`, `a` itself, or after `a`) and the other handlers call nothing, `Emit`
returns; `r` gets `OnDisconnected` followed by `OnConnected`; the handlers
called after that are those of the receivers after `a` other than `r`; and at
return the non-null slots of the vector are the other receivers in their old
order followed by `r`, once. -/
theorem C29_disconnect_then_connect_in_handler (h : Handlers) (n : Nat) (f : Func)
    (s : Emitter) (before after : List Receiver) (a r : Receiver)
    (hemit : s.m_is_emitting = false)
    (hmain : s.m_connected_receivers = (before ++ a :: after).map some)
    (hstaged : s.m_additional_connected_receivers = [])
    (hnd : (before ++ a :: after).Nodup)
    (hr : r ∈ before ++ a :: after)
    (ha : h f a = [Action.disconnect r, Action.connect r])
    (hothers : ∀ x ∈ before ++ after, h f x = []) :
    ∃ s1, Emit h (n + 1) f s = some s1 ∧
      s1.trace = s.trace ++ before.map (Event.Call f)
          ++ [Event.Call f a, Event.OnDisconnected r, Event.OnConnected r]
          ++ (after.filter (fun x => x ≠ r)).map (Event.Call f) ∧
      s1.m_connected_receivers.reduceOption
          = (before ++ a :: after).filter (fun x => x ≠ r) ++ [r] ∧
      s1.m_additional_connected_receivers = [] ∧
      s1.m_is_emitting = false := by
  obtain ⟨em, main, staged, vac, tr⟩ := s
  simp only at hemit hmain hstaged
  subst hemit hstaged
  obtain ⟨i, hfind, hset⟩ := set_none_eq_map_nullOut r _ hnd hr
  rw [← hmain] at hfind hset
  have hm : main = before.map some ++ some a :: after.map some := by rw [hmain]; simp
  have hdisc := Disconnect_of_found r
    { m_is_emitting := true, m_connected_receivers := main,
      m_additional_connected_receivers := [], vacated := vac,
      trace := tr ++ before.map (Event.Call f) ++ [Event.Call f a] } i hfind
  have hfind2 : findSlot r ((before ++ a :: after).map (nullOut r)) = none :=
    (findSlot_eq_none_iff r _).mpr (not_mem_map_nullOut r _)
  have hconn := Connect_of_not_found r
    { m_is_emitting := true,
      m_connected_receivers := (before ++ a :: after).map (nullOut r),
      m_additional_connected_receivers := [], vacated := vac,
      trace := tr ++ before.map (Event.Call f) ++ [Event.Call f a]
        ++ [Event.OnDisconnected r] } hfind2
  have hloop := emitVectorLoop_one_acting (Emit h n) h f before a (after.map some)
    (nullOut r a) (before.map (nullOut r)) (after.map (nullOut r))
    { m_is_emitting := true, m_connected_receivers := main,
      m_additional_connected_receivers := [], vacated := vac, trace := tr }
    { m_is_emitting := true,
      m_connected_receivers := (before ++ a :: after).map (nullOut r),
      m_additional_connected_receivers := [r], vacated := vac,
      trace := tr ++ before.map (Event.Call f) ++ [Event.Call f a]
        ++ [Event.OnDisconnected r] ++ [Event.OnConnected r] }
    hm
    (fun x hx t => by rw [hothers x (by simp [hx])]; rfl)
    (by
      rw [ha]
      simp only [runActions]
      rw [hdisc]
      simp only [if_true, Emitter.log, hset]
      rw [hconn]
      simp [Emitter.log, setInsert])
    (by simp)
    (by simp) (by simp)
    (fun x hx t => by
      rw [hothers x (by simp [mem_of_mem_map_nullOut r x after hx])]; rfl)
  have hS4 : ∀ flag : Bool, ∀ S3 : Emitter,
      S3.m_connected_receivers = (before ++ a :: after).map (nullOut r) →
      S3.m_additional_connected_receivers = [r] →
      (finishEmit false (if flag then CleanupConnectedReceivers S3 else S3)).trace = S3.trace ∧
      (finishEmit false (if flag then CleanupConnectedReceivers S3
          else S3)).m_connected_receivers.reduceOption
        = (before ++ a :: after).filter (fun x => x ≠ r) ++ [r] ∧
      (finishEmit false (if flag then CleanupConnectedReceivers S3
          else S3)).m_additional_connected_receivers = [] ∧
      (finishEmit false (if flag then CleanupConnectedReceivers S3
          else S3)).m_is_emitting = false := by
    intro flag S3 h3m h3s
    obtain ⟨a1, b1, c1, d1⟩ := finishEmit_false
      (if flag then CleanupConnectedReceivers S3 else S3)
    obtain ⟨a0, _, c0, d0⟩ := cleanup_spec S3
    refine ⟨?_, ?_, b1, c1⟩
    · rw [d1]; cases flag
      · rfl
      · simpa using d0
    · rw [a1, List.reduceOption_append]
      cases flag
      · simp only [Bool.false_eq_true, if_false, h3m, h3s, reduceOption_map_nullOut]
        simp [List.reduceOption_cons_of_some]
      · simp only [if_true, a0, c0, h3m, h3s, reduceOption_filter_isSome,
          reduceOption_map_nullOut]
        simp [List.reduceOption_cons_of_some]
  obtain ⟨t4, m4, st4, em4⟩ := hS4
    ((nullOut r a).isNone || (after.map (nullOut r)).any Option.isNone)
    { m_is_emitting := true,
      m_connected_receivers := (before ++ a :: after).map (nullOut r),
      m_additional_connected_receivers := [r], vacated := vac,
      trace := tr ++ before.map (Event.Call f) ++ [Event.Call f a]
        ++ [Event.OnDisconnected r] ++ [Event.OnConnected r]
        ++ (after.map (nullOut r)).reduceOption.map (Event.Call f) } rfl rfl
  refine ⟨_, ?_, ?_, m4, st4, em4⟩
  · rw [Emit, emitAdditional_not_emitting _ _ _ _ rfl]
    simp only [emitConnected, hloop]
  · rw [t4, reduceOption_map_nullOut]
    simp

/-- C29 at a concrete emitter: vector `[1, 2, 3]`, the handler of `2` disconnects
and connects again the earlier receiver `1`. -/
theorem C29_disconnect_then_connect_in_handler_witness :
    ∃ s1, Emit (fun _ x => if x = 2 then [Action.disconnect 1, Action.connect 1] else [])
        1 0 { Emitter.fresh with m_connected_receivers := [some 1, some 2, some 3] }
        = some s1 ∧
      s1.trace = [] ++ [1].map (Event.Call 0)
          ++ [Event.Call 0 2, Event.OnDisconnected 1, Event.OnConnected 1]
          ++ ([3].filter (fun x => x ≠ 1)).map (Event.Call 0) ∧
      s1.m_connected_receivers.reduceOption
          = ([1] ++ 2 :: [3]).filter (fun x => x ≠ 1) ++ [1] ∧
      s1.m_additional_connected_receivers = [] ∧
      s1.m_is_emitting = false :=
  C29_disconnect_then_connect_in_handler
    (fun _ x => if x = 2 then [Action.disconnect 1, Action.connect 1] else [])
    0 0 { Emitter.fresh with m_connected_receivers := [some 1, some 2, some 3] }
    [1] [3] 2 1 rfl rfl rfl (by decide) (by decide) rfl (by decide)

/-! ## Emissions whose handlers never call `Emit` -/

theorem callCount_append (t u : List Event) :
    callCount (t ++ u) = callCount t + callCount u := by
  simp [callCount]

theorem Faded.refl (l : List (Option Receiver)) : Faded l l :=
  List.forall₂_same.mpr (fun _ _ => Or.inl rfl)

theorem Faded.trans {l1 l2 l3 : List (Option Receiver)} (h12 : Faded l1 l2)
    (h23 : Faded l2 l3) : Faded l1 l3 := by
  unfold Faded at *
  induction h12 generalizing l3 with
  | nil => cases h23; exact List.Forall₂.nil
  | cons hxy _ ih =>
    cases h23 with
    | cons hyz hrest =>
      refine List.Forall₂.cons ?_ (ih hrest)
      rcases hyz with rfl | rfl
      · exact hxy
      · exact Or.inr rfl

theorem Faded.set_none (l : List (Option Receiver)) (i : Nat) : Faded l (l.set i none) := by
  unfold Faded
  induction l generalizing i with
  | nil => simp
  | cons x l ih =>
    cases i with
    | zero => exact List.Forall₂.cons (Or.inr rfl) (List.forall₂_same.mpr (fun _ _ => Or.inl rfl))
    | succ i => exact List.Forall₂.cons (Or.inl rfl) (ih i)

theorem Faded.reduceOption_length_le {l1 l2 : List (Option Receiver)} (hf : Faded l1 l2) :
    l2.reduceOption.length ≤ l1.reduceOption.length := by
  unfold Faded at hf
  induction hf with
  | nil => simp
  | @cons x y l1 l2 hxy _ ih =>
    rcases hxy with rfl | rfl
    · cases y with
      | none => simpa [List.reduceOption_cons_of_none] using ih
      | some q => simpa [List.reduceOption_cons_of_some] using ih
    · cases x with
      | none => simpa [List.reduceOption_cons_of_none] using ih
      | some q =>
        simp only [List.reduceOption_cons_of_none, List.reduceOption_cons_of_some,
          List.length_cons]
        omega

theorem Faded.drop {l1 l2 : List (Option Receiver)} (hf : Faded l1 l2) (i : Nat) :
    Faded (l1.drop i) (l2.drop i) :=
  List.forall₂_drop i hf

/-- What `Connect` does while the emitter is emitting: the vector is unchanged
and no handler is invoked. -/
theorem Connect_while_emitting (r : Receiver) (s : Emitter) (hem : s.m_is_emitting = true) :
    ∃ added, (Connect r s).trace = s.trace ++ added ∧ callCount added = 0 ∧
      (Connect r s).m_connected_receivers = s.m_connected_receivers := by
  cases hf : findSlot r s.m_connected_receivers with
  | some i => rw [Connect_of_found r s i hf]; exact ⟨[], by simp, rfl, rfl⟩
  | none =>
    rw [Connect_of_not_found r s hf, hem]
    exact ⟨[Event.OnConnected r], rfl, rfl, rfl⟩

/-- What `Disconnect` does while the emitter is emitting: slots of the vector
are at most nulled and no handler is invoked. -/
theorem Disconnect_while_emitting (r : Receiver) (s : Emitter)
    (hem : s.m_is_emitting = true) :
    ∃ added, (Disconnect r s).trace = s.trace ++ added ∧ callCount added = 0 ∧
      Faded s.m_connected_receivers (Disconnect r s).m_connected_receivers := by
  cases hf : findSlot r s.m_connected_receivers with
  | none =>
    rw [Disconnect_of_not_found r s hf, hem]
    exact ⟨[], by simp, rfl, Faded.refl _⟩
  | some i =>
    rw [Disconnect_of_found r s i hf, hem]
    exact ⟨[Event.OnDisconnected r], rfl, rfl, Faded.set_none _ i⟩

/-- A handler script without `Emit`, run while the emitter is emitting, returns;
it invokes no handler, keeps the emitter emitting and at most nulls slots. -/
theorem runActions_noEmit (e : Func → Emitter → Option Emitter) :
    ∀ (acts : List Action) (s : Emitter), (∀ g, Action.emit g ∉ acts) →
      s.m_is_emitting = true →
      ∃ s1 added, runActions e acts s = some s1 ∧ s1.trace = s.trace ++ added ∧
        callCount added = 0 ∧ s1.m_is_emitting = true ∧
        Faded s.m_connected_receivers s1.m_connected_receivers := by
  intro acts
  induction acts with
  | nil => intro s _ hem; exact ⟨s, [], rfl, by simp, rfl, hem, Faded.refl _⟩
  | cons a rest ih =>
    intro s hne hem
    have hrest : ∀ g, Action.emit g ∉ rest := fun g hg => hne g (by simp [hg])
    cases a with
    | connect r =>
      obtain ⟨ad1, t1, c1, m1⟩ := Connect_while_emitting r s hem
      obtain ⟨s1, ad2, r2, t2, c2, em2, f2⟩ :=
        ih (Connect r s) hrest ((Connect_emitting r s).trans hem)
      refine ⟨s1, ad1 ++ ad2, r2, ?_, ?_, em2, ?_⟩
      · rw [t2, t1, List.append_assoc]
      · rw [callCount_append, c1, c2]
      · rw [← m1]; exact f2
    | disconnect r =>
      obtain ⟨ad1, t1, c1, f1⟩ := Disconnect_while_emitting r s hem
      obtain ⟨s1, ad2, r2, t2, c2, em2, f2⟩ :=
        ih (Disconnect r s) hrest ((Disconnect_emitting r s).trans hem)
      refine ⟨s1, ad1 ++ ad2, r2, ?_, ?_, em2, Faded.trans f1 f2⟩
      · rw [t2, t1, List.append_assoc]
      · rw [callCount_append, c1, c2]
    | emit g => exact absurd (by simp) (hne g)

theorem readSlot_of_drop (s : Emitter) (i : Nat) (x : Option Receiver)
    (seg : List (Option Receiver)) (hd : s.m_connected_receivers.drop i = x :: seg) :
    readSlot s i = some x := by
  have hlt : i < s.m_connected_receivers.length := by
    by_contra hge
    rw [List.drop_eq_nil_of_le (Nat.le_of_not_lt hge)] at hd
    exact absurd hd (by simp)
  have hsplit : s.m_connected_receivers = s.m_connected_receivers.take i ++ x :: seg := by
    rw [← hd, List.take_append_drop]
  have hlen : (s.m_connected_receivers.take i).length = i := by
    rw [List.length_take]; omega
  have := readSlot_append_cons s _ seg x hsplit
  rw [hlen] at this
  exact this

theorem drop_succ_of_drop (l : List (Option Receiver)) (i : Nat) (x : Option Receiver)
    (seg : List (Option Receiver)) (hd : l.drop i = x :: seg) : l.drop (i + 1) = seg := by
  have : l.drop (i + 1) = (l.drop i).drop 1 := by rw [List.drop_drop, Nat.add_comm]
  rw [this, hd]
  rfl

/-- The loop over the vector when no handler calls `Emit`: it returns, and it
invokes at most as many handlers as there are non-null slots left to visit. -/
theorem emitVectorLoop_noEmit (e : Func → Emitter → Option Emitter) (h : Handlers) (f : Func)
    (hne : ∀ r g, Action.emit g ∉ h f r) :
    ∀ (k i : Nat) (flag : Bool) (s : Emitter) (seg : List (Option Receiver)),
      s.m_is_emitting = true → s.m_connected_receivers.drop i = seg → seg.length = k →
      ∃ flag1 s1 added, emitVectorLoop (runActions e) h f k i flag s = some (flag1, s1) ∧
        s1.trace = s.trace ++ added ∧
        callCount added ≤ seg.reduceOption.length ∧
        s1.m_is_emitting = true ∧
        Faded s.m_connected_receivers s1.m_connected_receivers := by
  intro k
  induction k with
  | zero =>
    intro i flag s seg hem _ _
    exact ⟨flag, s, [], rfl, by simp, by simp [callCount], hem, Faded.refl _⟩
  | succ k ih =>
    intro i flag s seg hem hd hlen
    cases seg with
    | nil => simp at hlen
    | cons x seg1 =>
      have hlen1 : seg1.length = k := by simpa using hlen
      have hread := readSlot_of_drop s i x seg1 hd
      have hd1 := drop_succ_of_drop _ i x seg1 hd
      rw [emitVectorLoop, hread]
      cases x with
      | none =>
        obtain ⟨fl, s1, ad, r1, t1, c1, em1, f1⟩ := ih (i + 1) true s seg1 hem hd1 hlen1
        exact ⟨fl, s1, ad, r1, t1, by simpa [List.reduceOption_cons_of_none] using c1, em1, f1⟩
      | some r =>
        obtain ⟨s2, had, r2, t2, c2, em2, f2⟩ :=
          runActions_noEmit e (h f r) (Emitter.log (Event.Call f r) s) (hne r) hem
        have f2d := Faded.drop f2 i
        have hd0 : (Emitter.log (Event.Call f r) s).m_connected_receivers.drop i
            = some r :: seg1 := hd
        rw [hd0] at f2d
        cases hs2 : s2.m_connected_receivers.drop i with
        | nil => rw [hs2] at f2d; cases f2d
        | cons y seg2 =>
          rw [hs2] at f2d
          have hrest : Faded seg1 seg2 := by
            cases f2d with
            | cons _ hr => exact hr
          have hread2 := readSlot_of_drop s2 i y seg2 hs2
          have hd2 := drop_succ_of_drop _ i y seg2 hs2
          have hlen2 : seg2.length = k := by
            rw [← List.Forall₂.length_eq hrest]; exact hlen1
          have hle := Faded.reduceOption_length_le hrest
          simp only [r2, hread2]
          have hfinal : ∀ fl0 : Bool,
              ∃ flag1 s1 added,
                emitVectorLoop (runActions e) h f k (i + 1) fl0 s2 = some (flag1, s1) ∧
                s1.trace = s.trace ++ added ∧
                callCount added ≤ (some r :: seg1).reduceOption.length ∧
                s1.m_is_emitting = true ∧
                Faded s.m_connected_receivers s1.m_connected_receivers := by
            intro fl0
            obtain ⟨fl, s1, ad, r1, t1, c1, em1, f1⟩ := ih (i + 1) fl0 s2 seg2 em2 hd2 hlen2
            refine ⟨fl, s1, [Event.Call f r] ++ had ++ ad, r1, ?_, ?_, em1, Faded.trans f2 f1⟩
            · rw [t1, t2]; simp [Emitter.log]
            · rw [callCount_append, callCount_append, c2]
              simp only [List.reduceOption_cons_of_some, List.length_cons]
              have : callCount [Event.Call f r] = 1 := rfl
              omega
          cases y with
          | none => exact hfinal true
          | some q => exact hfinal flag

/-! ## C26: bound on the handler invocations of an emission without nested `Emit` -/

/-- The pass over the copy of the set when no handler calls `Emit`, run while
the emitter is emitting: it returns and it invokes one handler per element. -/
theorem emitSetCopy_noEmit (e : Func → Emitter → Option Emitter) (h : Handlers) (f : Func)
    (hne : ∀ r g, Action.emit g ∉ h f r) :
    ∀ (rs : List Receiver) (s : Emitter), s.m_is_emitting = true →
      ∃ s1 added, emitSetCopy (runActions e) h f rs s = some s1 ∧
        s1.trace = s.trace ++ added ∧
        callCount added = rs.length ∧
        s1.m_is_emitting = true ∧
        Faded s.m_connected_receivers s1.m_connected_receivers := by
  intro rs
  induction rs with
  | nil => intro s hem; exact ⟨s, [], rfl, by simp, rfl, hem, Faded.refl _⟩
  | cons r rest ih =>
    intro s hem
    obtain ⟨s2, had, r2, t2, c2, em2, f2⟩ :=
      runActions_noEmit e (h f r) (Emitter.log (Event.Call f r) s) (hne r) hem
    obtain ⟨s1, ad, r1, t1, c1, em1, f1⟩ := ih s2 em2
    refine ⟨s1, [Event.Call f r] ++ had ++ ad, ?_, ?_, ?_, em1, Faded.trans f2 f1⟩
    · simp only [emitSetCopy, r2]; exact r1
    · rw [t1, t2]; simp [Emitter.log]
    · rw [callCount_append, callCount_append, c2, c1]
      have : callCount [Event.Call f r] = 1 := rfl
      simp only [List.length_cons]
      omega

/-- While the emitter is emitting, the first part of `Emit` is the pass over the
copy of the set of additional receivers (an empty pass when the set is empty). -/
theorem emitAdditional_of_emitting (run : List Action → Emitter → Option Emitter)
    (h : Handlers) (f : Func) (s : Emitter) (hem : s.m_is_emitting = true) :
    emitAdditional run h f s = emitSetCopy run h f s.m_additional_connected_receivers s := by
  unfold emitAdditional
  cases hs : s.m_additional_connected_receivers with
  | nil => simp [emitSetCopy]
  | cons a l => simp [hem]

/-- The second part of `Emit` when no handler of the emitted function calls
`Emit`: it returns, and it invokes at most as many handlers as the vector has
non-null slots at its entry. -/
theorem emitConnected_noEmit (e : Func → Emitter → Option Emitter) (h : Handlers) (f : Func)
    (hne : ∀ r g, Action.emit g ∉ h f r) (s : Emitter) :
    ∃ s1 added, emitConnected (runActions e) h f s = some s1 ∧
      s1.trace = s.trace ++ added ∧
      callCount added ≤ s.m_connected_receivers.reduceOption.length := by
  obtain ⟨fl, s3, ad, r1, t1, c1, _, _⟩ := emitVectorLoop_noEmit e h f hne
    s.m_connected_receivers.length 0 false { s with m_is_emitting := true }
    s.m_connected_receivers rfl rfl rfl
  refine ⟨finishEmit s.m_is_emitting (if fl then CleanupConnectedReceivers s3 else s3), ad,
    ?_, ?_, c1⟩
  · simp only [emitConnected, r1]
  · have hfin : ∀ x : Emitter, (finishEmit s.m_is_emitting x).trace = x.trace := by
      intro x
      cases s.m_is_emitting with
      | false => exact (finishEmit_false x).2.2.2
      | true => rw [finishEmit_true]
    rw [hfin]
    cases fl with
    | false => exact t1
    | true => simp only [if_true]; rw [(cleanup_spec s3).2.2.2]; exact t1

/-- C26 (as amended): an `Emit` whose handlers never call `Emit` returns for
every positive depth bound, whatever else the handlers do, and the number of
handler invocations it makes is at most the number of non-null slots of the
vector at entry plus, when the `Emit` is entered while the emitter is emitting
(it is called from a handler), the size of the set of additional receivers at
entry. -/
theorem C26_invocations_bounded_by_connected_and_additional (h : Handlers) (n : Nat)
    (f : Func) (s : Emitter) (hne : ∀ r g, Action.emit g ∉ h f r) :
    ∃ s1 added, Emit h (n + 1) f s = some s1 ∧ s1.trace = s.trace ++ added ∧
      callCount added ≤ s.m_connected_receivers.reduceOption.length
        + (if s.m_is_emitting then s.m_additional_connected_receivers.length else 0) := by
  cases hem : s.m_is_emitting with
  | false =>
    obtain ⟨s1, ad, r1, t1, c1⟩ := emitConnected_noEmit (Emit h n) h f hne s
    refine ⟨s1, ad, ?_, t1, ?_⟩
    · rw [Emit, emitAdditional_not_emitting _ _ _ _ hem]; exact r1
    · simpa using c1
  | true =>
    obtain ⟨s2, ad0, r0, t0, c0, _, f0⟩ :=
      emitSetCopy_noEmit (Emit h n) h f hne s.m_additional_connected_receivers s hem
    obtain ⟨s1, ad, r1, t1, c1⟩ := emitConnected_noEmit (Emit h n) h f hne s2
    have hle := Faded.reduceOption_length_le f0
    refine ⟨s1, ad0 ++ ad, ?_, ?_, ?_⟩
    · rw [Emit, emitAdditional_of_emitting _ _ _ _ hem, r0]; exact r1
    · rw [t1, t0, List.append_assoc]
    · rw [callCount_append, c0]
      simp only [if_true]
      omega

/-- C26 as amended, at a nested `Emit`: the emitter is emitting, its vector holds
`1` and the set of additional receivers holds `7` and `8`; the handlers of the
emitted function `3` call nothing. -/
theorem C26_invocations_bounded_by_connected_and_additional_witness :
    ∃ s1 added, Emit handlersNestedAdditional 1 3
        { m_is_emitting := true, m_connected_receivers := [some 1],
          m_additional_connected_receivers := [7, 8], vacated := [],
          trace := [Event.OnConnected 1, Event.Call 0 1,
                    Event.OnConnected 7, Event.OnConnected 8] } = some s1 ∧
      s1.trace = [Event.OnConnected 1, Event.Call 0 1,
                  Event.OnConnected 7, Event.OnConnected 8] ++ added ∧
      callCount added ≤ ([some 1] : List (Option Receiver)).reduceOption.length
        + (if true then ([7, 8] : List Receiver).length else 0) :=
  C26_invocations_bounded_by_connected_and_additional handlersNestedAdditional 0 3
    { m_is_emitting := true, m_connected_receivers := [some 1],
      m_additional_connected_receivers := [7, 8], vacated := [],
      trace := [Event.OnConnected 1, Event.Call 0 1,
                Event.OnConnected 7, Event.OnConnected 8] }
    (by intro r g; simp [handlersNestedAdditional])

/-- C26 as stated fails at a nested `Emit`.  The handler of function `0` in
receiver `1` connects `7` and `8` and emits function `3`, whose handlers call
nothing.  The nested `Emit` is entered with the vector `[1]`, one non-null slot,
and the set of additional receivers holding `7` and `8`; it first emits to the
copy of the set and then to the vector, three handler invocations in all. -/
theorem C26_nested_emit_invokes_additional_receivers :
    (∀ r g, Action.emit g ∉ handlersNestedAdditional 3 r) ∧
    Connect 8 (Connect 7 (Emitter.log (Event.Call 0 1)
        { Connect 1 Emitter.fresh with m_is_emitting := true }))
      = { m_is_emitting := true, m_connected_receivers := [some 1],
          m_additional_connected_receivers := [7, 8], vacated := [],
          trace := [Event.OnConnected 1, Event.Call 0 1,
                    Event.OnConnected 7, Event.OnConnected 8] } ∧
    Emit handlersNestedAdditional 1 3
        { m_is_emitting := true, m_connected_receivers := [some 1],
          m_additional_connected_receivers := [7, 8], vacated := [],
          trace := [Event.OnConnected 1, Event.Call 0 1,
                    Event.OnConnected 7, Event.OnConnected 8] }
      = some { m_is_emitting := true, m_connected_receivers := [some 1],
               m_additional_connected_receivers := [7, 8], vacated := [],
               trace := [Event.OnConnected 1, Event.Call 0 1,
                         Event.OnConnected 7, Event.OnConnected 8]
                 ++ [Event.Call 3 7, Event.Call 3 8, Event.Call 3 1] } ∧
    ¬ (callCount [Event.Call 3 7, Event.Call 3 8, Event.Call 3 1]
        ≤ ([some 1] : List (Option Receiver)).reduceOption.length) ∧
    Emit handlersNestedAdditional 2 0 (Connect 1 Emitter.fresh)
      = some { m_is_emitting := false, m_connected_receivers := [some 1, some 7, some 8],
               m_additional_connected_receivers := [], vacated := [],
               trace := [Event.OnConnected 1, Event.Call 0 1,
                         Event.OnConnected 7, Event.OnConnected 8,
                         Event.Call 3 7, Event.Call 3 8, Event.Call 3 1] } := by
  refine ⟨?_, by decide, by decide, by decide, by decide⟩
  intro r g
  simp [handlersNestedAdditional]

/-! ## C24: receivers disconnected before the loop reaches them -/

/-- C24 (defect): with the vector `[1, 2, 3]`, the handler of function `0` in
receiver `1` disconnects `1`, emits function `1` (the nested `Emit` compacts the
vector to `[2, 3]` under the outer loop) and then disconnects receiver `3`,
whose slot is nulled.  The outer loop skips the null slot at position `1` and
goes on to the vacated position `2`, where it still finds `3` and calls it:
receiver `3` is invoked with function `0` after its `OnDisconnected`. -/
theorem C24_disconnected_receiver_called_after_nested_compaction :
    Emit handlersDisconnectAfterNested 2 0
        { Emitter.fresh with m_connected_receivers := [some 1, some 2, some 3] }
      = some { m_is_emitting := false, m_connected_receivers := [some 2],
               m_additional_connected_receivers := [], vacated := [none, some 3],
               trace := [Event.Call 0 1, Event.OnDisconnected 1,
                         Event.Call 1 2, Event.Call 1 3,
                         Event.OnDisconnected 3, Event.Call 0 3] } ∧
    Disconnect 3
        { m_is_emitting := true, m_connected_receivers := [some 2, some 3],
          m_additional_connected_receivers := [], vacated := [some 3],
          trace := [Event.Call 0 1, Event.OnDisconnected 1,
                    Event.Call 1 2, Event.Call 1 3] }
      = { m_is_emitting := true, m_connected_receivers := [some 2, none],
          m_additional_connected_receivers := [], vacated := [some 3],
          trace := [Event.Call 0 1, Event.OnDisconnected 1,
                    Event.Call 1 2, Event.Call 1 3, Event.OnDisconnected 3] } := by
  constructor <;> decide

/-! ## Emissions without nested `Emit`: no call after a disconnection -/

theorem Faded.not_mem {l1 l2 : List (Option Receiver)} (hf : Faded l1 l2) (q : Receiver)
    (hq : some q ∉ l1) : some q ∉ l2 := by
  unfold Faded at hf
  induction hf with
  | nil => simp
  | @cons x y l1 l2 hxy _ ih =>
    intro hmem
    rcases List.mem_cons.mp hmem with hy | hrest
    · rcases hxy with rfl | rfl
      · exact hq (by simp [hy])
      · exact absurd hy (by simp)
    · exact ih (fun hm => hq (by simp [hm])) hrest

theorem not_mem_set_none_of_nodup (q : Receiver) :
    ∀ (l : List (Option Receiver)) (i : Nat), l.reduceOption.Nodup →
      findSlot q l = some i → some q ∉ l.set i none := by
  intro l
  induction l with
  | nil => intro i _ hf; simp [findSlot] at hf
  | cons x l ih =>
    intro i hnd hf
    by_cases hx : x = some q
    · subst hx
      have hi : i = 0 := by simpa [findSlot] using hf.symm
      subst hi
      rw [List.reduceOption_cons_of_some] at hnd
      have hq : q ∉ l.reduceOption := (List.nodup_cons.mp hnd).1
      intro hmem
      simp only [List.set_cons_zero, List.mem_cons] at hmem
      rcases hmem with hm | hm
      · exact absurd hm (by simp)
      · exact hq (List.reduceOption_mem_iff.mpr hm)
    · simp only [findSlot, hx, if_false] at hf
      cases hj : findSlot q l with
      | none => rw [hj] at hf; simp at hf
      | some j =>
        rw [hj] at hf
        have hi : i = j + 1 := by simpa using hf.symm
        subst hi
        have hnd2 : l.reduceOption.Nodup := by
          cases x with
          | none => simpa [List.reduceOption_cons_of_none] using hnd
          | some y =>
            rw [List.reduceOption_cons_of_some] at hnd
            exact (List.nodup_cons.mp hnd).2
        intro hmem
        simp only [List.set_cons_succ, List.mem_cons] at hmem
        rcases hmem with hm | hm
        · exact hx hm.symm
        · exact ih j hnd2 hj hm

/-- A handler script without `Emit`, run while a consistent emitter is emitting:
it returns, invokes no handler, keeps the emitter emitting and consistent, at
most nulls slots, and every receiver it notifies `OnDisconnected` is absent
from the vector afterwards. -/
theorem runActions_noEmit_disconnected (e : Func → Emitter → Option Emitter) :
    ∀ (acts : List Action) (s : Emitter), (∀ g, Action.emit g ∉ acts) →
      s.m_is_emitting = true → Consistent s →
      ∃ s1 added, runActions e acts s = some s1 ∧ s1.trace = s.trace ++ added ∧
        (∀ g q, Event.Call g q ∉ added) ∧ s1.m_is_emitting = true ∧
        Faded s.m_connected_receivers s1.m_connected_receivers ∧ Consistent s1 ∧
        (∀ q, Event.OnDisconnected q ∈ added → some q ∉ s1.m_connected_receivers) := by
  intro acts
  induction acts with
  | nil =>
    intro s _ hem hc
    exact ⟨s, [], rfl, by simp, by simp, hem, Faded.refl _, hc, by simp⟩
  | cons a rest ih =>
    intro s hne hem hc
    have hrest : ∀ g, Action.emit g ∉ rest := fun g hg => hne g (by simp [hg])
    cases a with
    | connect r =>
      obtain ⟨s1, ad2, r2, t2, c2, em2, f2, hc2, d2⟩ :=
        ih (Connect r s) hrest ((Connect_emitting r s).trans hem) (Consistent_Connect r s hc)
      cases hf : findSlot r s.m_connected_receivers with
      | some i =>
        have hcn := Connect_of_found r s i hf
        rw [hcn] at t2 f2
        exact ⟨s1, ad2, r2, t2, c2, em2, f2, hc2, d2⟩
      | none =>
        have hcn := Connect_of_not_found r s hf
        rw [hem] at hcn
        have htr : (Connect r s).trace = s.trace ++ [Event.OnConnected r] := by rw [hcn]; rfl
        have hmn : (Connect r s).m_connected_receivers = s.m_connected_receivers := by
          rw [hcn]; rfl
        rw [htr] at t2
        rw [hmn] at f2
        refine ⟨s1, [Event.OnConnected r] ++ ad2, r2, ?_, ?_, em2, f2, hc2, ?_⟩
        · rw [t2]; simp
        · intro g q hmem
          rcases List.mem_append.mp hmem with hm | hm
          · simp at hm
          · exact c2 g q hm
        · intro q hmem
          rcases List.mem_append.mp hmem with hm | hm
          · simp at hm
          · exact d2 q hm
    | disconnect r =>
      obtain ⟨s1, ad2, r2, t2, c2, em2, f2, hc2, d2⟩ :=
        ih (Disconnect r s) hrest ((Disconnect_emitting r s).trans hem)
          (Consistent_Disconnect r s hc)
      cases hf : findSlot r s.m_connected_receivers with
      | none =>
        have hdn := Disconnect_of_not_found r s hf
        rw [hem] at hdn
        have htr : (Disconnect r s).trace = s.trace := by rw [hdn]; rfl
        have hmn : (Disconnect r s).m_connected_receivers = s.m_connected_receivers := by
          rw [hdn]; rfl
        rw [htr] at t2
        rw [hmn] at f2
        exact ⟨s1, ad2, r2, t2, c2, em2, f2, hc2, d2⟩
      | some i =>
        have hdn := Disconnect_of_found r s i hf
        rw [hem] at hdn
        have htr : (Disconnect r s).trace = s.trace ++ [Event.OnDisconnected r] := by
          rw [hdn]; rfl
        have hmn : (Disconnect r s).m_connected_receivers
            = s.m_connected_receivers.set i none := by rw [hdn]; rfl
        rw [htr] at t2
        rw [hmn] at f2
        have habs : some r ∉ s.m_connected_receivers.set i none :=
          not_mem_set_none_of_nodup r _ i hc.1 hf
        refine ⟨s1, [Event.OnDisconnected r] ++ ad2, r2, ?_, ?_, em2,
          Faded.trans (Faded.set_none _ i) f2, hc2, ?_⟩
        · rw [t2]; simp
        · intro g q hmem
          rcases List.mem_append.mp hmem with hm | hm
          · simp at hm
          · exact c2 g q hm
        · intro q hmem
          rcases List.mem_append.mp hmem with hm | hm
          · have hq : q = r := by simpa using hm
            subst hq
            exact Faded.not_mem f2 q habs
          · exact d2 q hm
    | emit g => exact absurd (by simp) (hne g)

theorem pairwise_of_forall_right {R : Event → Event → Prop} :
    ∀ (l : List Event), (∀ a b, b ∈ l → R a b) → l.Pairwise R := by
  intro l
  induction l with
  | nil => intro _; exact List.Pairwise.nil
  | cons x l ih =>
    intro hR
    exact List.pairwise_cons.mpr
      ⟨fun b hb => hR x b (List.mem_cons_of_mem x hb),
       ih (fun a b hb => hR a b (List.mem_cons_of_mem x hb))⟩

/-- The loop over the vector of a consistent emitter when no handler calls
`Emit`: it returns, no handler is invoked on a receiver after that receiver was
notified `OnDisconnected`, and a receiver that is in none of the slots left to
visit is not invoked at all. -/
theorem emitVectorLoop_noEmit_quiet (e : Func → Emitter → Option Emitter) (h : Handlers)
    (f : Func) (hne : ∀ r g, Action.emit g ∉ h f r) :
    ∀ (k i : Nat) (flag : Bool) (s : Emitter) (seg : List (Option Receiver)),
      s.m_is_emitting = true → Consistent s →
      s.m_connected_receivers.drop i = seg → seg.length = k →
      ∃ flag1 s1 added, emitVectorLoop (runActions e) h f k i flag s = some (flag1, s1) ∧
        s1.trace = s.trace ++ added ∧ s1.m_is_emitting = true ∧ Consistent s1 ∧
        Faded s.m_connected_receivers s1.m_connected_receivers ∧
        NoCallAfterDisconnect f added ∧
        (∀ q, some q ∉ seg → Event.Call f q ∉ added) ∧
        (∀ q, Event.OnDisconnected q ∈ added → some q ∉ s1.m_connected_receivers) := by
  intro k
  induction k with
  | zero =>
    intro i flag s seg hem hc _ _
    exact ⟨flag, s, [], rfl, by simp, hem, hc, Faded.refl _, List.Pairwise.nil,
      by simp, by simp⟩
  | succ k ih =>
    intro i flag s seg hem hc hd hlen
    cases seg with
    | nil => simp at hlen
    | cons x seg1 =>
      have hlen1 : seg1.length = k := by simpa using hlen
      have hread := readSlot_of_drop s i x seg1 hd
      have hd1 := drop_succ_of_drop _ i x seg1 hd
      rw [emitVectorLoop, hread]
      cases x with
      | none =>
        obtain ⟨fl, s1, ad, r1, t1, em1, hc1, f1, q1, n1, d1⟩ :=
          ih (i + 1) true s seg1 hem hc hd1 hlen1
        exact ⟨fl, s1, ad, r1, t1, em1, hc1, f1, q1,
          fun q hq => n1 q (fun hm => hq (List.mem_cons_of_mem _ hm)), d1⟩
      | some r =>
        obtain ⟨s2, had, r2, t2, c2, em2, f2, hc2, d2⟩ :=
          runActions_noEmit_disconnected e (h f r) (Emitter.log (Event.Call f r) s) (hne r)
            hem (Consistent_log _ s hc)
        have f2d := Faded.drop f2 i
        have hd0 : (Emitter.log (Event.Call f r) s).m_connected_receivers.drop i
            = some r :: seg1 := hd
        rw [hd0] at f2d
        cases hs2 : s2.m_connected_receivers.drop i with
        | nil => rw [hs2] at f2d; cases f2d
        | cons y seg2 =>
          rw [hs2] at f2d
          have hrest : Faded seg1 seg2 := by
            cases f2d with
            | cons _ hr => exact hr
          have hread2 := readSlot_of_drop s2 i y seg2 hs2
          have hd2 := drop_succ_of_drop _ i y seg2 hs2
          have hlen2 : seg2.length = k := by
            rw [← List.Forall₂.length_eq hrest]; exact hlen1
          have hseg2 : ∀ q, some q ∈ seg2 → some q ∈ s2.m_connected_receivers := by
            intro q hq
            have : some q ∈ s2.m_connected_receivers.drop i := by
              rw [hs2]; exact List.mem_cons_of_mem _ hq
            exact List.mem_of_mem_drop this
          simp only [r2, hread2]
          have hfinal : ∀ fl0 : Bool,
              ∃ flag1 s1 added,
                emitVectorLoop (runActions e) h f k (i + 1) fl0 s2 = some (flag1, s1) ∧
                s1.trace = s.trace ++ added ∧ s1.m_is_emitting = true ∧ Consistent s1 ∧
                Faded s.m_connected_receivers s1.m_connected_receivers ∧
                NoCallAfterDisconnect f added ∧
                (∀ q, some q ∉ some r :: seg1 → Event.Call f q ∉ added) ∧
                (∀ q, Event.OnDisconnected q ∈ added →
                  some q ∉ s1.m_connected_receivers) := by
            intro fl0
            obtain ⟨fl, s1, ad, r1, t1, em1, hc1, f1, q1, n1, d1⟩ :=
              ih (i + 1) fl0 s2 seg2 em2 hc2 hd2 hlen2
            refine ⟨fl, s1, Event.Call f r :: (had ++ ad), r1, ?_, em1, hc1,
              Faded.trans f2 f1, ?_, ?_, ?_⟩
            · rw [t1, t2]; simp [Emitter.log]
            · unfold NoCallAfterDisconnect
              refine List.pairwise_cons.mpr ⟨?_, ?_⟩
              · intro b _ q hq
                exact absurd hq (by simp)
              · refine List.pairwise_append.mpr ⟨?_, q1, ?_⟩
                · apply pairwise_of_forall_right
                  intro a b hb q _ hbq
                  exact c2 f q (hbq ▸ hb)
                · intro a ha b hb q haq hbq
                  have hq2 : some q ∉ s2.m_connected_receivers := d2 q (haq ▸ ha)
                  exact n1 q (fun hm => hq2 (hseg2 q hm)) (hbq ▸ hb)
            · intro q hq hmem
              rcases List.mem_cons.mp hmem with hm | hm
              · have : q = r := by simpa using hm
                exact hq (by simp [this])
              · rcases List.mem_append.mp hm with hm | hm
                · exact c2 f q hm
                · exact n1 q (Faded.not_mem hrest q
                    (fun hs => hq (List.mem_cons_of_mem _ hs))) hm
            · intro q hmem
              rcases List.mem_cons.mp hmem with hm | hm
              · exact absurd hm (by simp)
              · rcases List.mem_append.mp hm with hm | hm
                · exact Faded.not_mem f1 q (d2 q hm)
                · exact d1 q hm
          cases y with
          | none => exact hfinal true
          | some q => exact hfinal flag

/-- An `Emit` of a consistent, non-emitting emitter whose handlers never call
`Emit` returns, and in the trace it adds no handler is invoked on a receiver
after that receiver was notified `OnDisconnected`: a receiver disconnected by an
earlier handler is skipped and the loop goes on. -/
theorem emit_noEmit_no_call_after_disconnect (h : Handlers) (n : Nat) (f : Func)
    (s : Emitter) (hne : ∀ r g, Action.emit g ∉ h f r)
    (hemit : s.m_is_emitting = false) (hc : Consistent s) :
    ∃ s1 added, Emit h (n + 1) f s = some s1 ∧ s1.trace = s.trace ++ added ∧
      NoCallAfterDisconnect f added := by
  obtain ⟨fl, s3, ad, r1, t1, _, _, _, q1, _, _⟩ := emitVectorLoop_noEmit_quiet (Emit h n) h f
    hne s.m_connected_receivers.length 0 false { s with m_is_emitting := true }
    s.m_connected_receivers rfl (Consistent_emitting s hc) rfl rfl
  refine ⟨finishEmit s.m_is_emitting (if fl then CleanupConnectedReceivers s3 else s3), ad,
    ?_, ?_, q1⟩
  · rw [Emit, emitAdditional_not_emitting _ _ _ _ hemit]
    simp only [emitConnected, r1]
  · rw [hemit, (finishEmit_false _).2.2.2]
    cases fl with
    | false => exact t1
    | true => simp only [if_true]; rw [(cleanup_spec s3).2.2.2]; exact t1

end Methane.Data
